import Mathlib

/-!
# xenesis: a verification development

A shallow embedding of `xenon007/xenesis` (`internal/prompt`,
`internal/templates`, `internal/filesystem`, `internal/app`) together with
theorems about it.

Modelling conventions.

* A Go `string` holding valid UTF-8 text is a `List Char` (one `Char` per
  rune); `GoString` abbreviates that type.
* A `*bufio.Reader` is the list of runes that have not been consumed yet;
  every function that reads returns the reader it leaves behind.
* Printing and logging do not influence any returned value and are left out,
  but for the questions of `Confirm`, which `App.prepareFolders` records.
* The calls that reach outside the process (`os.MkdirAll`, `os.WriteFile`, the
  command `go mod init`) are recorded, in order, as a list of `Effect`; whether
  a call fails is decided by a `World`, a parameter of the code that makes it.
* Paths are those of Unix: the separator is `/`.
* The `int` of Go has 64 bits.
* The order in which `range` visits a Go map is not specified by the language:
  it is a parameter (`rangeOrder`) of the code that iterates over a map.
* The functions of the Go standard library are embedded from their documented
  behaviour. The Unicode case tables for code points above ASCII belong to
  the Go release, not to this repository: they are the fields of
  `CaseTables`, over which every definition that lower-cases, case-folds or
  tests for an upper-case letter is parametric.
-/

namespace Xenesis

/-- A Go string of valid UTF-8 text, rune by rune. -/
abbrev GoString := List Char

/-- The unread input of a `*bufio.Reader`. -/
abbrev Reader := List Char

/-- The error values that occur in the embedded code. -/
inductive GoError where
  | ErrProjectName
  | ErrGoModExists
  | ErrEmptyOptions
  | wrap (inner : GoError)
  | Os (code : Nat)
  | MkdirFailed (path : List Char) (inner : GoError)
  | WriteFailed (path : List Char) (inner : GoError)
  | GitkeepFailed (path : List Char) (inner : GoError)
  | GitkeepNoDir
  | IndexOutOfRange
  deriving DecidableEq, Repr

/-! ## Standard library: `unicode`, `strings`, `bufio`, `strconv` -/

/-- Go `unicode.IsSpace`: the Latin-1 spaces named in its switch statement
and the `White_Space` code points above Latin-1. -/
def IsSpace (c : Char) : Bool :=
  let r := c.toNat
  if r ≤ 0xFF then
    r == 0x09 || r == 0x0A || r == 0x0B || r == 0x0C || r == 0x0D || r == 0x20
      || r == 0x85 || r == 0xA0
  else
    r == 0x1680 || (0x2000 ≤ r && r ≤ 0x200A) || r == 0x2028 || r == 0x2029
      || r == 0x202F || r == 0x205F || r == 0x3000

/-- Go `strings.TrimSpace`: drop the leading and the trailing white space. -/
def TrimSpace (s : GoString) : GoString :=
  (s.dropWhile IsSpace).rdropWhile IsSpace

/-- Go `(*bufio.Reader).ReadString('\n')`: the text up to and including the
first line feed, or all the remaining text when there is none (the error
reported in that case is discarded by every caller). The second component is
the reader after the call. -/
def ReadString : Reader → GoString × Reader
  | [] => ([], [])
  | c :: cs =>
    if c = '\n' then ([c], cs)
    else ((c :: (ReadString cs).1), (ReadString cs).2)

/-! ## `internal/prompt`: the project name -/

/-- One rune of the class `[a-zA-Z0-9-_]`: after the range `0-9` the hyphen
is a literal, so the class is the ASCII letters, the digits, `-` and `_`. -/
def projectNameClass (c : Char) : Bool :=
  ('a' ≤ c && c ≤ 'z') || ('A' ≤ c && c ≤ 'Z') || ('0' ≤ c && c ≤ '9')
    || c == '-' || c == '_'

/-- The regular expression `^[a-zA-Z0-9-_]+$` applied with `MatchString`:
one or more runes, all of the class, spanning the whole text. -/
def projectNameRegexp (s : GoString) : Bool :=
  !s.isEmpty && s.all projectNameClass

/-- Go `prompt.ProjectName`: read a line, trim it, validate it. The result is
the pair returned by the Go function and the reader left behind. -/
def ProjectName (reader : Reader) : (GoString × Option GoError) × Reader :=
  let project := TrimSpace (ReadString reader).1
  if !projectNameRegexp project then
    ((project, some (GoError.wrap GoError.ErrProjectName)), (ReadString reader).2)
  else
    ((project, none), (ReadString reader).2)

/-! ## Standard library: case mapping and replacing -/

/-- The Unicode case tables of the Go release for the runes above ASCII.
`toLower r` is `unicode.To(unicode.LowerCase, r)`; `foldsTo sr tr` tells
whether the orbit of `sr` under `unicode.SimpleFold` reaches `tr`, which is
what the general case of `strings.EqualFold` computes for `sr < tr`;
`isUpper r` tells whether `r` is in the range table `unicode.Upper`, the
upper-case letters (category Lu). -/
structure CaseTables where
  toLower : Char → Char
  foldsTo : Char → Char → Bool
  isUpper : Char → Bool

/-- The tables of a Unicode that stops at ASCII: no rune above ASCII has a
case variant or is an upper-case letter. -/
def CaseTables.ascii : CaseTables where
  toLower := fun c => c
  foldsTo := fun _ _ => false
  isUpper := fun _ => false

/-- An excerpt of the Unicode tables: the capital letters U+0410 to U+042F of
the basic Cyrillic alphabet and their small letters, 0x20 above; no other
rune above ASCII has a case variant in it. -/
def CaseTables.cyrillic : CaseTables where
  toLower := fun c =>
    if 0x410 ≤ c.toNat ∧ c.toNat ≤ 0x42F then Char.ofNat (c.toNat + 0x20) else c
  foldsTo := fun sr tr =>
    decide (0x410 ≤ sr.toNat ∧ sr.toNat ≤ 0x42F ∧ tr.toNat = sr.toNat + 0x20)
  isUpper := fun c => decide (0x410 ≤ c.toNat ∧ c.toNat ≤ 0x42F)

/-- An excerpt of the Unicode tables: U+2102, the double-struck capital C, an
upper-case letter (category Lu) that has no lower-case form; no rune above
ASCII has a case variant in it. -/
def CaseTables.letterlike : CaseTables where
  toLower := fun c => c
  foldsTo := fun _ _ => false
  isUpper := fun c => decide (c.toNat = 0x2102)

/-- Go `unicode.ToLower`: the ASCII branch is written out in the library, the
tables decide for the other runes. -/
def unicodeToLower (U : CaseTables) (r : Char) : Char :=
  if r.toNat ≤ 0x7F then
    if 'A' ≤ r ∧ r ≤ 'Z' then Char.ofNat (r.toNat + ('a'.toNat - 'A'.toNat)) else r
  else U.toLower r

/-- Go `unicode.IsUpper`: the ASCII capitals, and above ASCII the runes of the
table of upper-case letters. -/
def unicodeIsUpper (U : CaseTables) (r : Char) : Bool :=
  if r.toNat ≤ 0x7F then decide ('A' ≤ r ∧ r ≤ 'Z') else U.isUpper r

/-- Go `strings.ToLower` on valid UTF-8: every rune is mapped by
`unicode.ToLower`. -/
def ToLower (U : CaseTables) (s : GoString) : GoString :=
  s.map (unicodeToLower U)

/-- The replacer `strings.NewReplacer("-", "_", " ", "")` of
`SanitizePackageName`: both old texts are single bytes, so every `-` becomes
`_`, every space is dropped and every other rune is kept. -/
def packageNameReplacer : GoString → GoString
  | [] => []
  | c :: cs =>
    if c = '-' then '_' :: packageNameReplacer cs
    else if c = ' ' then packageNameReplacer cs
    else c :: packageNameReplacer cs

/-! ## `internal/templates`: the package name -/

/-- Go `templates.SanitizePackageName`. -/
def SanitizePackageName (U : CaseTables) (projectName : GoString) : GoString :=
  let sanitized := ToLower U projectName
  packageNameReplacer sanitized

/-- The transform as the specification words it: the lower-cased name with
every `-` replaced by `_` and every space deleted. -/
def sanitizeAsSpecified (U : CaseTables) (x : GoString) : GoString :=
  ((ToLower U x).map (fun c => if c = '-' then '_' else c)).filter (fun c => c != ' ')

/-- The simple lower-case mapping is stable: the lower-case form of a rune
above ASCII is not changed by lower-casing it again. It is a property of the
Unicode data, stated here for the tables the code is run with. -/
def CaseTables.LowerStable (U : CaseTables) : Prop :=
  ∀ r : Char, 0x7F < r.toNat → unicodeToLower U (U.toLower r) = U.toLower r

/-! ## Standard library: `strings.EqualFold` and `strconv.Atoi` -/

/-- One step of the loop of Go `strings.EqualFold` on the runes `a` of the
first text and `b` of the second: equal runes pass; otherwise the smaller is
`sr` and the larger `tr`, two ASCII runes pass when `sr` is a capital and `tr`
its small letter, and any other pair is decided by the fold tables. -/
def runeFoldEq (U : CaseTables) (a b : Char) : Bool :=
  if a = b then true
  else
    let sr := if b < a then b else a
    let tr := if b < a then a else b
    if tr.toNat < 0x80 then
      decide ('A' ≤ sr ∧ sr ≤ 'Z' ∧ tr.toNat = sr.toNat + ('a'.toNat - 'A'.toNat))
    else U.foldsTo sr tr

/-- Go `strings.EqualFold` on valid UTF-8: the texts have the same number of
runes and agree rune by rune under simple case folding. -/
def EqualFold (U : CaseTables) : GoString → GoString → Bool
  | [], [] => true
  | [], _ :: _ => false
  | _ :: _, [] => false
  | a :: s, b :: t => runeFoldEq U a b && EqualFold U s t

/-- The value of a run of decimal digits, as the loop of `strconv.Atoi`
accumulates it. -/
def digitsValue (ds : GoString) : Nat :=
  ds.foldl (fun n ch => n * 10 + (ch.toNat - '0'.toNat)) 0

/-- Go `strconv.Atoi` with a 64-bit `int`: an optional sign, then one or more
decimal digits; `none` stands for the syntax error and for the range error of
a value outside `[-2^63, 2^63 - 1]`. -/
def Atoi (s : GoString) : Option Int :=
  let ds := if s.head? = some '-' ∨ s.head? = some '+' then s.tail else s
  if ds = [] ∨ ds.all (fun ch => decide ('0' ≤ ch ∧ ch ≤ '9')) = false then none
  else
    let n : Int := if s.head? = some '-' then -(digitsValue ds : Int) else (digitsValue ds : Int)
    if n < -(2 ^ 63) ∨ 2 ^ 63 - 1 < n then none else some n

/-- Arithmetic of the 64-bit Go `int`: the result wraps around. -/
def wrapInt64 (x : Int) : Int :=
  (x + 2 ^ 63) % 2 ^ 64 - 2 ^ 63

/-! ## `internal/prompt`: choosing a variant -/

/-- The inner loop of `ChooseVariant`: the index of the first option that
`EqualFold` matches with the typed text, counting from `idx`. -/
def matchOption (U : CaseTables) (raw : GoString) : List GoString → Nat → Option Nat
  | [], _ => none
  | option :: rest, idx =>
    if EqualFold U raw option then some idx else matchOption U raw rest (idx + 1)

/-- The `for` loop of `ChooseVariant`, one iteration per unit of fuel: read a
line and trim it; a blank line gives the default, a line matching an option
gives that option, a number in range gives its index, anything else asks
again. `none` means the fuel ran out. -/
def chooseLoop (U : CaseTables) (options : List GoString) (defaultIndex : Int) :
    Nat → Reader → Option ((Int × Option GoError) × Reader)
  | 0, _ => none
  | fuel + 1, reader =>
    let raw := TrimSpace (ReadString reader).1
    if raw = [] then some ((defaultIndex, none), (ReadString reader).2)
    else
      match matchOption U raw options 0 with
      | some idx => some (((idx : Int), none), (ReadString reader).2)
      | none =>
        match Atoi raw with
        | none => chooseLoop U options defaultIndex fuel (ReadString reader).2
        | some value =>
          if wrapInt64 (value - 1) ≥ 0 ∧ wrapInt64 (value - 1) < (options.length : Int) then
            some ((wrapInt64 (value - 1), none), (ReadString reader).2)
          else chooseLoop U options defaultIndex fuel (ReadString reader).2

/-- Go `prompt.ChooseVariant` (the label is only printed). An empty list of
options is an error; a default index out of range becomes 0; then the loop
runs, with one unit of fuel per rune of input and one more for the read at
the end of the input. -/
def ChooseVariant (U : CaseTables) (reader : Reader) (options : List GoString)
    (defaultIndex : Int) : Option ((Int × Option GoError) × Reader) :=
  if options.length = 0 then some ((-1, some GoError.ErrEmptyOptions), reader)
  else
    let defaultIndex :=
      if defaultIndex < 0 ∨ defaultIndex ≥ (options.length : Int) then 0 else defaultIndex
    chooseLoop U options defaultIndex (reader.length + 1) reader

/-! ## Standard library: `fmt.Sprintf`, `strings.Trim`, `path/filepath` -/

/-- Go `fmt.Sprintf` for formats whose verbs are `%s` and `%v` and whose
operands are strings: each verb is replaced by the next operand, a verb with
no operand left prints `%!s(MISSING)` or `%!v(MISSING)`, operands left over
are reported at the end, and every other rune is copied. -/
def Sprintf : GoString → List GoString → GoString
  | [], [] => []
  | [], a :: args =>
    "%!(EXTRA ".toList ++
      ", ".toList.intercalate ((a :: args).map (fun x => "string=".toList ++ x)) ++ ")".toList
  | '%' :: 's' :: format, a :: args => a ++ Sprintf format args
  | '%' :: 'v' :: format, a :: args => a ++ Sprintf format args
  | '%' :: 's' :: format, [] => "%!s(MISSING)".toList ++ Sprintf format []
  | '%' :: 'v' :: format, [] => "%!v(MISSING)".toList ++ Sprintf format []
  | c :: format, args => c :: Sprintf format args

/-- Go `strings.Trim`: drop the leading and the trailing runes that occur in
the cut set. -/
def Trim (s cutset : GoString) : GoString :=
  (s.dropWhile (fun c => decide (c ∈ cutset))).rdropWhile (fun c => decide (c ∈ cutset))

/-- Go `os.PathSeparator` on Unix, the platform the paths are modelled for. -/
def PathSeparator : Char := '/'

/-- The elements of a path between its separators (`a//b` has an empty
element in the middle). -/
def splitSep : GoString → List GoString
  | [] => [[]]
  | c :: cs =>
    if c = PathSeparator then [] :: splitSep cs
    else
      match splitSep cs with
      | [] => [[c]]
      | e :: es => (c :: e) :: es

/-- Go `strings.Join(elems, "/")`. -/
def joinSep : List GoString → GoString
  | [] => []
  | [e] => e
  | e :: es => e ++ PathSeparator :: joinSep es

/-- One element in the scan of Go `filepath.Clean`; the elements kept so far
are held last first. Empty elements and `.` are dropped, `..` removes the
element before it, unless there is none or it is `..` itself: then `..` is
kept in a relative path and dropped at the root. -/
def cleanStep (rooted : Bool) (kept : List GoString) (e : GoString) : List GoString :=
  if e = [] ∨ e = ".".toList then kept
  else if e = "..".toList then
    match kept with
    | [] => if rooted then [] else [e]
    | top :: below => if top = "..".toList then e :: kept else below
  else e :: kept

/-- Go `filepath.Clean` on Unix: the shortest path naming the same place by
lexical processing; the empty result is written `.`. -/
def Clean (path : GoString) : GoString :=
  let rooted := decide (path.head? = some PathSeparator)
  let kept := ((splitSep path).foldl (cleanStep rooted) []).reverse
  let out := (if rooted then [PathSeparator] else []) ++ joinSep kept
  if out = [] then ".".toList else out

/-- Go `filepath.Join` on Unix: the elements from the first non-empty one on,
joined by the separator and cleaned; the empty text when all are empty. -/
def Join (elem : List GoString) : GoString :=
  match elem.dropWhile (fun e => decide (e = [])) with
  | [] => []
  | rest => Clean (joinSep rest)

/-- Go `filepath.Dir` on Unix: the path up to and including its last
separator, cleaned. -/
def Dir (path : GoString) : GoString :=
  Clean (path.rdropWhile (fun c => decide (c ≠ PathSeparator)))

/-- The elements of a path that `Clean` keeps as they are: not empty, without
a separator, neither `.` nor `..`. -/
def PlainElems (es : List GoString) : Prop :=
  ∀ e ∈ es, e ≠ [] ∧ '/' ∉ e ∧ e ≠ ".".toList ∧ e ≠ "..".toList

instance (es : List GoString) : Decidable (PlainElems es) := by
  unfold PlainElems
  infer_instance

/-! ## `internal/prompt`: the yes/no question -/

/-- Go `prompt.Confirm` (the question is only printed): read a line, trim it,
lower-case it; the answer is yes when that leaves the empty text, `y` or
`yes`. The second component is the reader after the call. -/
def Confirm (U : CaseTables) (reader : Reader) (_question : GoString) : Bool × Reader :=
  let answer := ToLower U (TrimSpace (ReadString reader).1)
  (decide (answer = [] ∨ answer = "y".toList ∨ answer = "yes".toList), (ReadString reader).2)

/-- Go `prompt.Description` and `prompt.GithubHandle`: a trimmed line. -/
def Description (reader : Reader) : GoString × Reader :=
  (TrimSpace (ReadString reader).1, (ReadString reader).2)

/-- Go `prompt.GithubHandle`. -/
def GithubHandle (reader : Reader) : GoString × Reader :=
  (TrimSpace (ReadString reader).1, (ReadString reader).2)

/-! ## Effects on the world outside the process -/

/-- The calls that reach outside the process, and the question `Confirm`
prints: `os.MkdirAll(path, perm)`, `os.WriteFile(path, content, perm)`, the
prompt of a yes/no question, and the command `go mod init modulePath` run in
the directory `dir`. -/
inductive Effect where
  | MkdirAll (path : GoString) (perm : Nat)
  | WriteFile (path : GoString) (content : GoString) (perm : Nat)
  | Prompt (question : GoString)
  | GoModInit (dir : GoString) (modulePath : GoString)
  deriving DecidableEq

/-- The world as the code meets it: given the effects performed so far and the
call being made, `none` when the call succeeds and the code of the operating
system's error when it fails. -/
abbrev World := List Effect → Effect → Option Nat

/-- The world in which no call fails. -/
def World.ok : World := fun _ _ => none

/-- The world in which `go mod init` fails with the given code and every other
call succeeds. -/
def World.initFails (code : Nat) : World := fun _ e =>
  match e with
  | Effect.GoModInit _ _ => some code
  | _ => none

/-! ## `internal/filesystem` -/

/-- Go `filesystem.DirPermission`. -/
def DirPermission : Nat := 0o775

/-- Go `filesystem.FilePermission`. -/
def FilePermission : Nat := 0o644

/-- Go `filesystem.EnsureDir`: nothing for the empty path and for `.`, else
`os.MkdirAll`, whose error is wrapped with the path. The result is the error
and the effects performed so far. -/
def EnsureDir (W : World) (trace : List Effect) (path : GoString) :
    Option GoError × List Effect :=
  if path = [] ∨ path = ".".toList then (none, trace)
  else
    match W trace (Effect.MkdirAll path DirPermission) with
    | some code =>
      (some (GoError.MkdirFailed path (GoError.Os code)),
        trace ++ [Effect.MkdirAll path DirPermission])
    | none => (none, trace ++ [Effect.MkdirAll path DirPermission])

/-- Go `filesystem.WriteFileWithDirs`: ensure the directory of the path, then
`os.WriteFile`. -/
def WriteFileWithDirs (W : World) (trace : List Effect) (path content : GoString) :
    Option GoError × List Effect :=
  match EnsureDir W trace (Dir path) with
  | (some err, t) => (some err, t)
  | (none, t) =>
    match W t (Effect.WriteFile path content FilePermission) with
    | some code =>
      (some (GoError.WriteFailed path (GoError.Os code)),
        t ++ [Effect.WriteFile path content FilePermission])
    | none => (none, t ++ [Effect.WriteFile path content FilePermission])

/-- Go `filesystem.CreateGitKeep`: an error for the empty directory name; else
ensure the directory and write the file `.gitkeep` in it. -/
def CreateGitKeep (W : World) (trace : List Effect) (dir : GoString) :
    Option GoError × List Effect :=
  if dir = [] then (some GoError.GitkeepNoDir, trace)
  else
    match EnsureDir W trace dir with
    | (some err, t) => (some err, t)
    | (none, t) =>
      match W t (Effect.WriteFile (Join [dir, ".gitkeep".toList])
          "keep this file plz\n".toList FilePermission) with
      | some code =>
        (some (GoError.GitkeepFailed (Join [dir, ".gitkeep".toList]) (GoError.Os code)),
          t ++ [Effect.WriteFile (Join [dir, ".gitkeep".toList])
            "keep this file plz\n".toList FilePermission])
      | none =>
        (none, t ++ [Effect.WriteFile (Join [dir, ".gitkeep".toList])
          "keep this file plz\n".toList FilePermission])

/-! ## `internal/templates`: the catalog, and the template choice of `App.Run` -/

/-- Go `templates.MDConsoleInit`. -/
def MDConsoleInit : GoString := "```console".toList

/-- Go `templates.File`. -/
structure File where
  Path : GoString
  Content : GoString
  deriving DecidableEq

/-- Go `templates.Template`. `OptionalFolders` holds the entries of the Go map
in the order the source writes them; a Go map itself keeps no order. The
function-valued fields that lower-case the name receive the Unicode tables. -/
structure Template where
  Key : GoString
  Title : GoString
  Description : GoString
  MandatoryFolders : List GoString
  OptionalFolders : List (GoString × GoString)
  MainFileName : GoString → GoString
  MainFileContent : CaseTables → GoString → GoString → GoString
  ExtraFiles : CaseTables → GoString → GoString → List File
  ReadmeContent : GoString → GoString → GoString → GoString

/-- Go `templates.basicTemplate`. -/
def basicTemplate : Template where
  Key := "basic".toList
  Title := "Базовый Go-проект".toList
  Description := "Минимальный каркас приложения с набором полезных каталогов".toList
  MandatoryFolders :=
    ["cmd".toList, "pkg".toList, "docs".toList, "internal".toList, "examples".toList]
  OptionalFolders := [
    ("api".toList, "Нужны ли API?".toList),
    ("server".toList, "Нужен ли встроенный сервер?".toList),
    ("db".toList, "Понадобится ли подключение к БД?".toList),
    ("scripts".toList, "Создать каталог для скриптов?".toList),
    ("test".toList, "Добавить тестовые данные?".toList),
    ("init".toList, "Нужны конфигурации процесс-менеджеров?".toList),
    ("assets".toList, "Добавить каталог для ассетов?".toList)]
  MainFileName := fun projectName =>
    Join ["cmd".toList, Sprintf "%s.go".toList [projectName]]
  MainFileContent := fun _ _projectName _modulePath =>
    ("package main\n" ++
      "\n" ++
      "import (\n" ++
      "\t\"fmt\"\n" ++
      ")\n" ++
      "\n" ++
      "func main() \x7b\n" ++
      "\tfmt.Println(\"Hello, World!\")\n" ++
      "\x7d\n").toList
  ExtraFiles := fun _ _projectName _modulePath => []
  ReadmeContent := fun projectName description githubHandle =>
    "# ".toList ++
      projectName ++
      "\n".toList ++
      description ++
      ("\n" ++
      "\n" ++
      "Installation 📡\n").toList ++
      "-------\n".toList ++
      "**Go 1.17+**\n".toList ++
      (MDConsoleInit ++ "\n".toList) ++
      "go install -v github.com/".toList ++
      githubHandle ++
      "/".toList ++
      projectName ++
      "/cmd/".toList ++
      projectName ++
      "@latest\n".toList ++
      "```\n".toList ++
      "**otherwise**\n".toList ++
      (MDConsoleInit ++ "\n".toList) ++
      "go get -v github.com/".toList ++
      githubHandle ++
      "/".toList ++
      projectName ++
      "\n".toList ++
      ("```\n" ++
      "\n").toList ++
      "Usage 💻\n".toList ++
      "-------\n".toList ++
      (MDConsoleInit ++ "\n".toList) ++
      projectName ++
      "\n".toList ++
      ("```\n" ++
      "\n").toList ++
      "Created with [xenesis](https://github.com/xenon007/xenesis)❤️".toList

/-- Go `templates.x07ComponentTemplate`. -/
def x07ComponentTemplate : Template where
  Key := "x07-component".toList
  Title := "Компонент X07".toList
  Description := "Структура для создания компонента экосистемы X07".toList
  MandatoryFolders :=
    ["cmd".toList, Join ["internal".toList, "components".toList],
      Join ["internal".toList, "config".toList], "pkg".toList, "docs".toList]
  OptionalFolders := [
    ("deploy".toList, "Добавить инфраструктурные манифесты для X07?".toList),
    ("metrics".toList, "Создать каталог для метрик?".toList),
    ("assets".toList, "Добавить статические файлы компонента?".toList)]
  MainFileName := fun projectName =>
    Join ["cmd".toList, Sprintf "%s.go".toList [projectName]]
  MainFileContent := fun U projectName modulePath =>
    Sprintf
      ("package main\n" ++
        "\n" ++
        "import (\n" ++
        "        \"context\"\n" ++
        "        \"log\"\n" ++
        "\n" ++
        "        \"%s/internal/components/%s\"\n" ++
        ")\n" ++
        "\n" ++
        "func main() \x7b\n" ++
        "        ctx := context.Background()\n" ++
        "\n" ++
        "        component := %s.New()\n" ++
        "        if err := component.Bootstrap(ctx); err != nil \x7b\n" ++
        "                log.Fatalf(\"component bootstrap failed: %v\", err)\n" ++
        "        \x7d\n" ++
        "\n" ++
        "        log.Println(\"component is up and running\")\n" ++
        "\x7d\n").toList
      [modulePath, SanitizePackageName U projectName, SanitizePackageName U projectName]
  ExtraFiles := fun U projectName _modulePath =>
    [{ Path := Join ["internal".toList, "components".toList,
          SanitizePackageName U projectName, "component.go".toList],
       Content := Sprintf
        ("package %s\n" ++
          "\n" ++
          "import (\n" ++
          "        \"context\"\n" ++
          "        \"log\"\n" ++
          ")\n" ++
          "\n" ++
          "type Component struct \x7b\n" ++
          "        // здесь можно сохранить зависимости компонента\n" ++
          "\x7d\n" ++
          "\n" ++
          "func New() *Component \x7b\n" ++
          "        return &Component\x7b\x7d\n" ++
          "\x7d\n" ++
          "\n" ++
          "func (c *Component) Bootstrap(ctx context.Context) error \x7b\n" ++
          "        log.Println(\"bootstrap X07 component\")\n" ++
          "        // TODO: добавить инициализацию бизнес-логики\n" ++
          "        return nil\n" ++
          "\x7d\n").toList
        [SanitizePackageName U projectName] },
     { Path := Join ["internal".toList, "config".toList, "config.go".toList],
       Content :=
        ("package config\n" ++
          "\n" ++
          "import \"time\"\n" ++
          "\n" ++
          "type Runtime struct \x7b\n" ++
          "        GracefulShutdown time.Duration\n" ++
          "\x7d\n" ++
          "\n" ++
          "func DefaultRuntime() Runtime \x7b\n" ++
          "        return Runtime\x7bGracefulShutdown: 30 * time.Second\x7d\n" ++
          "\x7d\n").toList }]
  ReadmeContent := fun projectName description _githubHandle =>
    "# Компонент X07: ".toList ++
      projectName ++
      "\n".toList ++
      description ++
      ("\n" ++
      "\n").toList ++
      "## Быстрый старт\n".toList ++
      (MDConsoleInit ++ "\n".toList) ++
      "go run ./cmd/".toList ++
      projectName ++
      "\n".toList ++
      ("```\n" ++
      "\n").toList ++
      "## Структура\n".toList ++
      "- `internal/components/` — бизнес-логика компонента\n".toList ++
      "- `internal/config/` — конфигурация и настройки\n".toList ++
      "- `pkg/` — разделяемые пакеты\n".toList ++
      "- `docs/` — документация и ADR\n".toList ++
      ("\n" ++
      "Создано при помощи [xenesis](https://github.com/xenon007/xenesis).").toList

/-- Go `templates.threeXfaTemplate`. -/
def threeXfaTemplate : Template where
  Key := "3xfa-plugin".toList
  Title := "Плагин 3XFA".toList
  Description := "Базовый каркас плагина 3XFA с точками расширения".toList
  MandatoryFolders :=
    ["cmd".toList, Join ["plugins".toList, "3xfa".toList], "internal".toList,
      Join ["internal".toList, "adapters".toList]]
  OptionalFolders := [
    (Join ["internal".toList, "mocks".toList], "Добавить заглушки для тестов?".toList),
    (Join ["internal".toList, "transport".toList], "Создать транспортный слой для плагина?".toList)]
  MainFileName := fun projectName =>
    Join ["cmd".toList, Sprintf "%s.go".toList [projectName]]
  MainFileContent := fun _ _projectName modulePath =>
    Sprintf
      ("package main\n" ++
        "\n" ++
        "import (\n" ++
        "        \"log\"\n" ++
        "\n" ++
        "        _3xfa \"%s/plugins/3xfa\"\n" ++
        ")\n" ++
        "\n" ++
        "func main() \x7b\n" ++
        "        plugin := _3xfa.New()\n" ++
        "\n" ++
        "        if err := plugin.Register(); err != nil \x7b\n" ++
        "                log.Fatalf(\"3XFA plugin registration failed: %v\", err)\n" ++
        "        \x7d\n" ++
        "\n" ++
        "        log.Println(\"3XFA plugin registered successfully\")\n" ++
        "\x7d\n").toList
      [modulePath]
  ExtraFiles := fun _ _projectName _modulePath =>
    [{ Path := Join ["plugins".toList, "3xfa".toList, "plugin.go".toList],
       Content :=
        ("package _3xfa\n" ++
          "\n" ++
          "import \"log\"\n" ++
          "\n" ++
          "type Plugin struct \x7b\n" ++
          "        hooks []Hook\n" ++
          "\x7d\n" ++
          "\n" ++
          "type Hook interface \x7b\n" ++
          "        Name() string\n" ++
          "        Execute() error\n" ++
          "\x7d\n" ++
          "\n" ++
          "func New() *Plugin \x7b\n" ++
          "        return &Plugin\x7b\x7d\n" ++
          "\x7d\n" ++
          "\n" ++
          "func (p *Plugin) Register() error \x7b\n" ++
          "        log.Println(\"prepare 3XFA plugin hooks\")\n" ++
          "        for _, hook := range p.hooks \x7b\n" ++
          "                if err := hook.Execute(); err != nil \x7b\n" ++
          "                        return err\n" ++
          "                \x7d\n" ++
          "        \x7d\n" ++
          "        return nil\n" ++
          "\x7d\n" ++
          "\n" ++
          "func (p *Plugin) AttachHook(h Hook) \x7b\n" ++
          "        p.hooks = append(p.hooks, h)\n" ++
          "\x7d\n").toList },
     { Path := Join ["internal".toList, "adapters".toList, "registry.go".toList],
       Content :=
        ("package adapters\n" ++
          "\n" ++
          "import \"log\"\n" ++
          "\n" ++
          "type Registry struct \x7b\n" ++
          "        registered []string\n" ++
          "\x7d\n" ++
          "\n" ++
          "func NewRegistry() *Registry \x7b\n" ++
          "        return &Registry\x7bregistered: make([]string, 0)\x7d\n" ++
          "\x7d\n" ++
          "\n" ++
          "func (r *Registry) Add(name string) \x7b\n" ++
          "        log.Printf(\"register adapter: %s\", name)\n" ++
          "        r.registered = append(r.registered, name)\n" ++
          "\x7d\n" ++
          "\n" ++
          "func (r *Registry) List() []string \x7b\n" ++
          "        return append([]string(nil), r.registered...)\n" ++
          "\x7d\n").toList }]
  ReadmeContent := fun projectName description _githubHandle =>
    "# 3XFA Plugin: ".toList ++
      projectName ++
      "\n".toList ++
      description ++
      ("\n" ++
      "\n").toList ++
      "## Сборка\n".toList ++
      (MDConsoleInit ++ "\n".toList) ++
      "go build ./cmd/".toList ++
      projectName ++
      "\n".toList ++
      ("```\n" ++
      "\n").toList ++
      "## Подключение\n".toList ++
      "Используйте пакет `plugins/3xfa` и регистрируйте свои хуки через метод `AttachHook`.\n".toList ++
      ("\n" ++
      "Создано при помощи [xenesis](https://github.com/xenon007/xenesis).").toList

/-- Go `templates.All`. -/
def All : List Template :=
  [basicTemplate, x07ComponentTemplate, threeXfaTemplate]

/-- Go `templates.Default`. -/
def Default : Template :=
  basicTemplate

/-- The options `App.Run` builds from the catalog: for each template the text
`fmt.Sprintf("%s — %s", tpl.Title, tpl.Description)`. -/
def templateOptions (templatesList : List Template) : List GoString :=
  templatesList.map (fun tpl => tpl.Title ++ " — ".toList ++ tpl.Description)

/-- The template-choice step of `App.Run`:
`prompt.ChooseVariant(a.reader, label, options, 0)`. -/
def chooseTemplate (U : CaseTables) (reader : Reader) :
    Option ((Int × Option GoError) × Reader) :=
  ChooseVariant U reader (templateOptions All) 0

/-- Go `app.gitignoreContent`. -/
def gitignoreContent : GoString :=
  ("# Binaries for programs and plugins\n" ++
    "*.exe\n" ++
    "*.exe~\n" ++
    "*.dll\n" ++
    "*.so\n" ++
    "*.dylib\n" ++
    "\n" ++
    "# Test binary, built with \"go test -c\"\n" ++
    "*.test\n" ++
    "\n" ++
    "# Output of the go coverage tool, specifically when used with LiteIDE\n" ++
    "*.out\n" ++
    "\n" ++
    "# Dependency directories (remove the comment below to include it)\n" ++
    "# vendor/\n" ++
    "\n" ++
    "# Go workspace file\n" ++
    "go.work\n").toList

/-! ## `internal/app` -/

/-- Go `app.shouldCreateGitkeep`. -/
def shouldCreateGitkeep (folder : GoString) : Bool :=
  Trim folder [PathSeparator] != "cmd".toList

/-- Go `App.ensureFolder`: ensure the folder under the root and, unless it is
the folder `cmd`, put a `.gitkeep` into it. -/
def ensureFolder (W : World) (trace : List Effect) (rootDir folder : GoString) :
    Option GoError × List Effect :=
  match EnsureDir W trace (Join [rootDir, folder]) with
  | (some err, t) => (some err, t)
  | (none, t) =>
    if shouldCreateGitkeep folder then CreateGitKeep W t (Join [rootDir, folder])
    else (none, t)

/-- The first loop of `App.prepareFolders`, over the mandatory folders. -/
def ensureFolders (W : World) (rootDir : GoString) :
    List GoString → List Effect → Option GoError × List Effect
  | [], t => (none, t)
  | folder :: rest, t =>
    match ensureFolder W t rootDir folder with
    | (some err, t') => (some err, t')
    | (none, t') => ensureFolders W rootDir rest t'

/-- The second loop of `App.prepareFolders`, over the entries of the map of
optional folders in the order the iteration visits them: ask the question
(recorded as a `Prompt`) and ensure the folder when the answer is yes. -/
def askOptional (U : CaseTables) (W : World) (rootDir : GoString) :
    List (GoString × GoString) → Reader → List Effect →
      Option GoError × Reader × List Effect
  | [], reader, t => (none, reader, t)
  | (folder, question) :: rest, reader, t =>
    if (Confirm U reader question).1 then
      match ensureFolder W (t ++ [Effect.Prompt question]) rootDir folder with
      | (some err, t') => (some err, (Confirm U reader question).2, t')
      | (none, t') => askOptional U W rootDir rest (Confirm U reader question).2 t'
    else
      askOptional U W rootDir rest (Confirm U reader question).2
        (t ++ [Effect.Prompt question])

/-- Go `App.prepareFolders`. The order in which `range` visits a Go map is not
specified and may change from one run to the next: `rangeOrder` is the order
the runtime picks, some permutation of the entries of the map. -/
def prepareFolders (U : CaseTables) (W : World)
    (rangeOrder : List (GoString × GoString) → List (GoString × GoString))
    (reader : Reader) (trace : List Effect) (rootDir : GoString) (tpl : Template) :
    Option GoError × Reader × List Effect :=
  match ensureFolders W rootDir tpl.MandatoryFolders trace with
  | (some err, t) => (some err, reader, t)
  | (none, t) => askOptional U W rootDir (rangeOrder tpl.OptionalFolders) reader t

/-- Go `App.initGoModule`: run `go mod init modulePath` in the root; whatever
the failure of the command, the error returned is `ErrGoModExists`. -/
def initGoModule (W : World) (trace : List Effect) (rootDir modulePath : GoString) :
    Option GoError × List Effect :=
  match W trace (Effect.GoModInit rootDir modulePath) with
  | some _ => (some GoError.ErrGoModExists, trace ++ [Effect.GoModInit rootDir modulePath])
  | none => (none, trace ++ [Effect.GoModInit rootDir modulePath])

/-- The pattern `if err := step; err != nil { return err }`: a failed step
ends the sequence, a successful one hands its effects to the next step. -/
def andThen (r : Option GoError × List Effect)
    (next : List Effect → Option GoError × List Effect) : Option GoError × List Effect :=
  match r with
  | (some err, t) => (some err, t)
  | (none, t) => next t

/-- The loop of `App.Run` over the extra files of the template. -/
def writeExtraFiles (W : World) (rootDir : GoString) :
    List File → List Effect → Option GoError × List Effect
  | [], t => (none, t)
  | file :: rest, t =>
    andThen (WriteFileWithDirs W t (Join [rootDir, file.Path]) file.Content)
      (writeExtraFiles W rootDir rest)

/-- What a run of the program leaves: the error returned by `App.Run`, the
unread input, and the effects performed, in order. -/
structure Outcome where
  err : Option GoError
  reader : Reader
  trace : List Effect

/-- Go `App.Run`, without the banner and the log lines. `none` only if the
fuel of `ChooseVariant` ran out. -/
def Run (U : CaseTables) (W : World)
    (rangeOrder : List (GoString × GoString) → List (GoString × GoString))
    (reader : Reader) : Option Outcome :=
  match ProjectName reader with
  | ((_, some err), r1) => some ⟨some err, r1, []⟩
  | ((projectName, none), r1) =>
    match chooseTemplate U r1 with
    | none => none
    | some ((_, some err), r2) => some ⟨some err, r2, []⟩
    | some ((choice, none), r2) =>
      match (if choice < 0 then none else All[choice.toNat]?) with
      | none => some ⟨some GoError.IndexOutOfRange, r2, []⟩
      | some tpl =>
        let description := (Description r2).1
        let githubHandle := (GithubHandle (Description r2).2).1
        let r4 := (GithubHandle (Description r2).2).2
        let modulePath := Sprintf "github.com/%s/%s".toList [githubHandle, projectName]
        let rootDir := Join [".".toList, projectName]
        match EnsureDir W [] rootDir with
        | (some err, t) => some ⟨some err, r4, t⟩
        | (none, t0) =>
          match prepareFolders U W rangeOrder r4 t0 rootDir tpl with
          | (some err, r5, t) => some ⟨some err, r5, t⟩
          | (none, r5, t1) =>
            let res :=
              andThen (WriteFileWithDirs W t1 (Join [rootDir, tpl.MainFileName projectName])
                (tpl.MainFileContent U projectName modulePath)) fun t2 =>
              andThen (writeExtraFiles W rootDir
                (tpl.ExtraFiles U projectName modulePath) t2) fun t3 =>
              andThen (WriteFileWithDirs W t3 (Join [rootDir, "README.md".toList])
                (tpl.ReadmeContent projectName description githubHandle)) fun t4 =>
              andThen (WriteFileWithDirs W t4 (Join [rootDir, ".gitignore".toList])
                gitignoreContent) fun t5 =>
              initGoModule W t5 rootDir modulePath
            some ⟨res.1, r5, res.2⟩

/-! ## Notions used to state the theorems on `prepareFolders` -/

/-- Whether an effect is the prompt of a yes/no question. -/
def Effect.isPrompt : Effect → Bool
  | Effect.Prompt _ => true
  | _ => false

/-- The effects on files and processes: the trace without its prompts. -/
def withoutPrompts (trace : List Effect) : List Effect :=
  trace.filter (fun e => !e.isPrompt)

/-- The answers that the next `k` calls of `Confirm` give on a reader. -/
def answers (U : CaseTables) : Nat → Reader → List Bool
  | 0, _ => []
  | k + 1, reader => (Confirm U reader []).1 :: answers U k (Confirm U reader []).2

/-- The reader after `k` calls of `Confirm`. -/
def afterAnswers (U : CaseTables) : Nat → Reader → Reader
  | 0, reader => reader
  | k + 1, reader => afterAnswers U k (Confirm U reader []).2

/-- Whether an effect is a run of `go mod init`. -/
def Effect.isInit : Effect → Bool
  | Effect.GoModInit _ _ => true
  | _ => false

/-- No run of `go mod init` among the effects. -/
def noInit (trace : List Effect) : Prop :=
  ∀ e ∈ trace, e.isInit = false

/-- A sequence of steps that ends in `initGoModule` either stops early, with
no run of `go mod init`, or is that last step on effects without one. -/
def EndsInInit (W : World) (rootDir modulePath : GoString)
    (res : Option GoError × List Effect) : Prop :=
  noInit res.2 ∨ ∃ t, noInit t ∧ res = initGoModule W t rootDir modulePath

/-- Whether an effect writes the file of the given path. -/
def Effect.writesTo (path : GoString) : Effect → Bool
  | Effect.WriteFile p _ _ => decide (p = path)
  | _ => false

/-- No write to the file of the given path among the effects. -/
def noWriteTo (path : GoString) (trace : List Effect) : Prop :=
  ∀ e ∈ trace, e.writesTo path = false

/-! ## Lemmas on trimming and reading -/

theorem dropWhile_append_of_all {α : Type} (p : α → Bool) (l₁ l₂ : List α)
    (h : ∀ c ∈ l₁, p c = true) : (l₁ ++ l₂).dropWhile p = l₂.dropWhile p := by
  induction l₁ with
  | nil => rfl
  | cons a t ih =>
    have ha : p a = true := h a (List.mem_cons_self a t)
    have ht : ∀ c ∈ t, p c = true := fun c hc => h c (List.mem_cons_of_mem a hc)
    simp [List.dropWhile_cons, ha, ih ht]

theorem rdropWhile_append_of_all {α : Type} (p : α → Bool) (l₁ l₂ : List α)
    (h : ∀ c ∈ l₂, p c = true) : (l₁ ++ l₂).rdropWhile p = l₁.rdropWhile p := by
  unfold List.rdropWhile
  rw [List.reverse_append]
  rw [dropWhile_append_of_all p l₂.reverse l₁.reverse (fun c hc => h c (List.mem_reverse.mp hc))]

theorem dropWhile_of_none {α : Type} (p : α → Bool) (l : List α)
    (h : ∀ c ∈ l, p c = false) : l.dropWhile p = l := by
  cases l with
  | nil => rfl
  | cons a t => simp [List.dropWhile_cons, h a (List.mem_cons_self a t)]

theorem rdropWhile_of_none {α : Type} (p : α → Bool) (l : List α)
    (h : ∀ c ∈ l, p c = false) : l.rdropWhile p = l := by
  unfold List.rdropWhile
  rw [dropWhile_of_none p l.reverse (fun c hc => h c (List.mem_reverse.mp hc))]
  exact List.reverse_reverse l

/-- Trimming removes a surrounding of white space from a text that holds no
white space itself. -/
theorem TrimSpace_surrounded (pre n post : GoString)
    (hpre : ∀ c ∈ pre, IsSpace c = true) (hpost : ∀ c ∈ post, IsSpace c = true)
    (hn : ∀ c ∈ n, IsSpace c = false) : TrimSpace (pre ++ n ++ post) = n := by
  unfold TrimSpace
  rw [List.append_assoc, dropWhile_append_of_all IsSpace pre (n ++ post) hpre]
  cases n with
  | nil =>
    have h0 : ([] ++ post).dropWhile IsSpace = [] := by
      rw [List.nil_append]
      exact List.dropWhile_eq_nil_iff.mpr hpost
    rw [h0]
    rfl
  | cons a t =>
    have ha : IsSpace a = false := hn a (List.mem_cons_self a t)
    have h1 : (a :: t ++ post).dropWhile IsSpace = a :: t ++ post := by
      simp [List.dropWhile_cons, ha]
    rw [h1, rdropWhile_append_of_all IsSpace (a :: t) post hpost]
    exact rdropWhile_of_none IsSpace (a :: t) hn

theorem char_eq_iff_toNat (c d : Char) : c = d ↔ c.toNat = d.toNat := by
  constructor
  · rintro rfl; rfl
  · intro h
    have := congrArg Char.ofNat h
    simpa using this

theorem char_le_iff_toNat (c d : Char) : c ≤ d ↔ c.toNat ≤ d.toNat := Iff.rfl

/-- The runes of the project-name class, by code point. -/
theorem projectNameClass_iff (c : Char) :
    projectNameClass c = true ↔
      ((97 ≤ c.toNat ∧ c.toNat ≤ 122) ∨ (65 ≤ c.toNat ∧ c.toNat ≤ 90)
        ∨ (48 ≤ c.toNat ∧ c.toNat ≤ 57) ∨ c.toNat = 45 ∨ c.toNat = 95) := by
  simp only [projectNameClass, Bool.or_eq_true, Bool.and_eq_true, decide_eq_true_eq,
    beq_iff_eq, char_le_iff_toNat, char_eq_iff_toNat]
  have h1 : 'a'.toNat = 97 := rfl
  have h2 : 'z'.toNat = 122 := rfl
  have h3 : 'A'.toNat = 65 := rfl
  have h4 : 'Z'.toNat = 90 := rfl
  have h5 : '0'.toNat = 48 := rfl
  have h6 : '9'.toNat = 57 := rfl
  have h7 : '-'.toNat = 45 := rfl
  have h8 : '_'.toNat = 95 := rfl
  rw [h1, h2, h3, h4, h5, h6, h7, h8]
  tauto

/-- No rune of the project-name class is white space. -/
theorem projectNameClass_not_space (c : Char) (h : projectNameClass c = true) :
    IsSpace c = false := by
  have h' := (projectNameClass_iff c).mp h
  unfold IsSpace
  have hle : c.toNat ≤ 0xFF := by omega
  simp only [hle, if_true]
  simp only [Bool.or_eq_false_iff, beq_eq_false_iff_ne, ne_eq]
  omega

theorem ProjectName_reader (reader : Reader) :
    (ProjectName reader).2 = (ReadString reader).2 := by
  cases h : projectNameRegexp (TrimSpace (ReadString reader).1) <;> simp [ProjectName, h]

theorem ProjectName_name (reader : Reader) :
    (ProjectName reader).1.1 = TrimSpace (ReadString reader).1 := by
  cases h : projectNameRegexp (TrimSpace (ReadString reader).1) <;> simp [ProjectName, h]

theorem ProjectName_err (reader : Reader) :
    (ProjectName reader).1.2 =
      if projectNameRegexp (TrimSpace (ReadString reader).1) = true then none
      else some (GoError.wrap GoError.ErrProjectName) := by
  cases h : projectNameRegexp (TrimSpace (ReadString reader).1) <;> simp [ProjectName, h]

theorem projectNameRegexp_iff (s : GoString) :
    projectNameRegexp s = true ↔ s ≠ [] ∧ ∀ c ∈ s, projectNameClass c = true := by
  cases s with
  | nil => simp [projectNameRegexp]
  | cons a t => simp [projectNameRegexp]

/-! ## Theorems: the project name -/

/-- C1: a line that is a non-empty name over letters, digits, `-` and `_`,
surrounded by any white space (line terminator included), is accepted:
`ProjectName` returns the name itself with a nil error. -/
theorem ProjectName_accepts_valid (reader : Reader) (pre n post : GoString)
    (hline : (ReadString reader).1 = pre ++ n ++ post)
    (hpre : ∀ c ∈ pre, IsSpace c = true) (hpost : ∀ c ∈ post, IsSpace c = true)
    (hne : n ≠ []) (hn : ∀ c ∈ n, projectNameClass c = true) :
    ProjectName reader = ((n, none), (ReadString reader).2) := by
  have ht : TrimSpace (ReadString reader).1 = n := by
    rw [hline]
    exact TrimSpace_surrounded pre n post hpre hpost
      (fun c hc => projectNameClass_not_space c (hn c hc))
  have hm : projectNameRegexp n = true := (projectNameRegexp_iff n).mpr ⟨hne, hn⟩
  have h1 := ProjectName_name reader
  have h2 := ProjectName_err reader
  rw [ht] at h1 h2
  rw [hm] at h2
  exact Prod.ext (Prod.ext h1 (by simpa using h2)) (ProjectName_reader reader)

/-- Witness of C1: the line ` my-App_1 \r\n`, followed by more input. -/
theorem ProjectName_accepts_valid_witness :
    ProjectName " my-App_1 \r\nrest".toList = (("my-App_1".toList, none), "rest".toList) :=
  ProjectName_accepts_valid " my-App_1 \r\nrest".toList " ".toList "my-App_1".toList
    " \r\n".toList (by decide) (by decide) (by decide) (by decide) (by decide)

theorem ProjectName_err_of_foreign (reader : Reader)
    (h : ∃ c ∈ TrimSpace (ReadString reader).1, projectNameClass c = false) :
    (ProjectName reader).1.2 = some (GoError.wrap GoError.ErrProjectName) := by
  rw [ProjectName_err]
  have hm : ¬ projectNameRegexp (TrimSpace (ReadString reader).1) = true := by
    intro hm
    obtain ⟨c, hc, hcf⟩ := h
    have := ((projectNameRegexp_iff _).mp hm).2 c hc
    rw [hcf] at this
    exact Bool.noConfusion this
  simp [hm]

/-- C2: an input that holds a rune outside `[A-Za-z0-9-_]` is rejected with an
error wrapping `ErrProjectName`. The input is the text that is validated: the
first line, without the white space around it and its line terminator, which
`ProjectName` trims before it matches (as in C1). -/
theorem ProjectName_rejects_foreign_rune (reader : Reader)
    (h : ∃ c ∈ TrimSpace (ReadString reader).1, projectNameClass c = false) :
    (ProjectName reader).1.2 = some (GoError.wrap GoError.ErrProjectName) :=
  ProjectName_err_of_foreign reader h

/-- Witness of C2: the line `my app` holds an inner space. -/
theorem ProjectName_rejects_foreign_rune_witness :
    (ProjectName "my app\n".toList).1.2 = some (GoError.wrap GoError.ErrProjectName) :=
  ProjectName_rejects_foreign_rune "my app\n".toList (by decide)

theorem TrimSpace_all_space (s : GoString) (h : ∀ c ∈ s, IsSpace c = true) :
    TrimSpace s = [] := by
  unfold TrimSpace
  rw [List.dropWhile_eq_nil_iff.mpr h]
  rfl

/-- C3: a nil error comes only with a non-empty name over letters, digits,
`-` and `_`, which therefore is neither `.` nor `..` and holds no path
separator, dot or space; the empty input (also a read at end of input), a line
of white space only, and a line whose trimmed text holds `/`, `\`, `.` or a
space are rejected with an error wrapping `ErrProjectName`. -/
theorem ProjectName_nil_error_sound (reader : Reader) :
    ((ProjectName reader).1.2 = none →
      (ProjectName reader).1.1 ≠ [] ∧
      (∀ c ∈ (ProjectName reader).1.1, projectNameClass c = true) ∧
      (ProjectName reader).1.1 ≠ ".".toList ∧ (ProjectName reader).1.1 ≠ "..".toList ∧
      (∀ c ∈ (ProjectName reader).1.1,
        c ≠ '/' ∧ c ≠ Char.ofNat 0x5C ∧ c ≠ '.' ∧ c ≠ ' ')) ∧
    ((ProjectName []).1.2 = some (GoError.wrap GoError.ErrProjectName)) ∧
    ((∀ c ∈ (ReadString reader).1, IsSpace c = true) →
      (ProjectName reader).1.2 = some (GoError.wrap GoError.ErrProjectName)) ∧
    ((∃ c ∈ TrimSpace (ReadString reader).1,
        c = '/' ∨ c = Char.ofNat 0x5C ∨ c = '.' ∨ c = ' ') →
      (ProjectName reader).1.2 = some (GoError.wrap GoError.ErrProjectName)) := by
  have hbad : ∀ c : Char, (c = '/' ∨ c = Char.ofNat 0x5C ∨ c = '.' ∨ c = ' ') →
      projectNameClass c = false := by
    intro c hc
    rcases hc with rfl | rfl | rfl | rfl <;> decide
  refine ⟨?_, by decide, ?_, ?_⟩
  · intro hnil
    rw [ProjectName_err] at hnil
    rw [ProjectName_name]
    have hm : projectNameRegexp (TrimSpace (ReadString reader).1) = true := by
      by_contra hm
      simp [hm] at hnil
    obtain ⟨hne, hall⟩ := (projectNameRegexp_iff _).mp hm
    have hgood : ∀ c ∈ TrimSpace (ReadString reader).1,
        c ≠ '/' ∧ c ≠ Char.ofNat 0x5C ∧ c ≠ '.' ∧ c ≠ ' ' := by
      intro c hc
      have hcl := hall c hc
      refine ⟨?_, ?_, ?_, ?_⟩ <;> intro he <;>
        · have hb := hbad c (by simp [he])
          rw [hcl] at hb
          exact Bool.noConfusion hb
    refine ⟨hne, hall, ?_, ?_, hgood⟩
    · intro he
      have := (hgood '.' (by rw [he]; decide)).2.2.1
      exact this rfl
    · intro he
      have := (hgood '.' (by rw [he]; decide)).2.2.1
      exact this rfl
  · intro hsp
    rw [ProjectName_err, TrimSpace_all_space _ hsp]
    decide
  · rintro ⟨c, hc, hcb⟩
    exact ProjectName_err_of_foreign reader ⟨c, hc, hbad c hcb⟩

/-! ## Lemmas on lower-casing and replacing -/

theorem toNat_ofNat_of_lt (n : Nat) (h : n < 0xD800) : (Char.ofNat n).toNat = n := by
  have hv : n.isValidChar := Or.inl h
  simp only [Char.ofNat, hv, Char.ofNatAux, Char.toNat, dite_true]
  rfl

theorem unicodeToLower_upper (U : CaseTables) (r : Char)
    (h : 65 ≤ r.toNat ∧ r.toNat ≤ 90) :
    unicodeToLower U r = Char.ofNat (r.toNat + 32) := by
  have h1 : r.toNat ≤ 0x7F := by omega
  have h2 : 'A' ≤ r ∧ r ≤ 'Z' := h
  simp only [unicodeToLower, h1, h2, if_true, and_self]
  rfl

theorem unicodeToLower_ascii_other (U : CaseTables) (r : Char)
    (h1 : r.toNat ≤ 0x7F) (h : ¬ (65 ≤ r.toNat ∧ r.toNat ≤ 90)) :
    unicodeToLower U r = r := by
  have h2 : ¬ ('A' ≤ r ∧ r ≤ 'Z') := h
  simp only [unicodeToLower, h1, h2, if_true, if_false]

theorem unicodeToLower_above (U : CaseTables) (r : Char) (h : 0x7F < r.toNat) :
    unicodeToLower U r = U.toLower r := by
  have h1 : ¬ r.toNat ≤ 0x7F := by omega
  simp only [unicodeToLower, h1, if_false]

/-- Under stable tables `unicode.ToLower` is idempotent on every rune. -/
theorem unicodeToLower_idem (U : CaseTables) (hU : U.LowerStable) (r : Char) :
    unicodeToLower U (unicodeToLower U r) = unicodeToLower U r := by
  by_cases h1 : r.toNat ≤ 0x7F
  · by_cases h : 65 ≤ r.toNat ∧ r.toNat ≤ 90
    · rw [unicodeToLower_upper U r h]
      have ht : (Char.ofNat (r.toNat + 32)).toNat = r.toNat + 32 :=
        toNat_ofNat_of_lt _ (by omega)
      exact unicodeToLower_ascii_other U _ (by omega) (by omega)
    · rw [unicodeToLower_ascii_other U r h1 h]
      exact unicodeToLower_ascii_other U r h1 h
  · have h2 : 0x7F < r.toNat := by omega
    rw [unicodeToLower_above U r h2]
    exact hU r h2

theorem unicodeToLower_fixed_not_upper (U : CaseTables) (c : Char)
    (h : unicodeToLower U c = c) : ¬ ('A' ≤ c ∧ c ≤ 'Z') := by
  intro hc
  have hc' : 65 ≤ c.toNat ∧ c.toNat ≤ 90 := hc
  rw [unicodeToLower_upper U c hc'] at h
  have ht : (Char.ofNat (c.toNat + 32)).toNat = c.toNat + 32 :=
    toNat_ofNat_of_lt _ (by omega)
  rw [h] at ht
  omega

theorem packageNameReplacer_mem (s : GoString) (c : Char)
    (h : c ∈ packageNameReplacer s) : c ≠ '-' ∧ c ≠ ' ' ∧ (c ∈ s ∨ c = '_') := by
  induction s with
  | nil => simp [packageNameReplacer] at h
  | cons a t ih =>
    unfold packageNameReplacer at h
    by_cases h1 : a = '-'
    · simp only [h1, if_true, List.mem_cons] at h
      rcases h with rfl | h
      · exact ⟨by decide, by decide, Or.inr rfl⟩
      · obtain ⟨x, y, z⟩ := ih h
        exact ⟨x, y, z.imp_left (List.mem_cons_of_mem a)⟩
    · by_cases h2 : a = ' '
      · simp only [h1, h2, if_true, if_false] at h
        obtain ⟨x, y, z⟩ := ih h
        exact ⟨x, y, z.imp_left (List.mem_cons_of_mem a)⟩
      · simp only [h1, h2, if_false, List.mem_cons] at h
        rcases h with rfl | h
        · exact ⟨h1, h2, Or.inl (List.mem_cons_self _ t)⟩
        · obtain ⟨x, y, z⟩ := ih h
          exact ⟨x, y, z.imp_left (List.mem_cons_of_mem a)⟩

theorem packageNameReplacer_clean (s : GoString)
    (h : ∀ c ∈ s, c ≠ '-' ∧ c ≠ ' ') : packageNameReplacer s = s := by
  induction s with
  | nil => rfl
  | cons a t ih =>
    obtain ⟨h1, h2⟩ := h a (List.mem_cons_self a t)
    unfold packageNameReplacer
    simp only [h1, h2, if_false]
    rw [ih (fun c hc => h c (List.mem_cons_of_mem a hc))]

theorem packageNameReplacer_eq_map_filter (s : GoString) :
    packageNameReplacer s =
      (s.map (fun c => if c = '-' then '_' else c)).filter (fun c => c != ' ') := by
  induction s with
  | nil => rfl
  | cons a t ih =>
    unfold packageNameReplacer
    by_cases h1 : a = '-'
    · subst h1
      rw [ih]
      rfl
    · by_cases h2 : a = ' '
      · subst h2
        rw [ih]
        rfl
      · simp only [h1, h2, if_false, List.map_cons, ih]
        rw [List.filter_cons_of_pos (by simpa using h2)]

theorem SanitizePackageName_fixed (U : CaseTables) (hU : U.LowerStable) (x : GoString)
    (c : Char) (h : c ∈ SanitizePackageName U x) : unicodeToLower U c = c := by
  obtain ⟨_, _, hc⟩ := packageNameReplacer_mem _ c h
  rcases hc with hc | rfl
  · obtain ⟨r, _, rfl⟩ := List.mem_map.mp hc
    exact unicodeToLower_idem U hU r
  · exact unicodeToLower_ascii_other U '_' (by decide) (by decide)

/-! ## Theorems: the package name -/

/-- C4: `SanitizePackageName` is idempotent, for every text, whenever the
lower-case mapping of the Unicode tables is stable. -/
theorem SanitizePackageName_idempotent (U : CaseTables) (hU : U.LowerStable)
    (x : GoString) :
    SanitizePackageName U (SanitizePackageName U x) = SanitizePackageName U x := by
  have hfix : ∀ c ∈ SanitizePackageName U x, unicodeToLower U c = c :=
    fun c hc => SanitizePackageName_fixed U hU x c hc
  have hlow : ToLower U (SanitizePackageName U x) = SanitizePackageName U x := by
    unfold ToLower
    conv_rhs => rw [← List.map_id (SanitizePackageName U x)]
    exact List.map_congr_left hfix
  have hclean : ∀ c ∈ SanitizePackageName U x, c ≠ '-' ∧ c ≠ ' ' := by
    intro c hc
    obtain ⟨h1, h2, _⟩ := packageNameReplacer_mem _ c hc
    exact ⟨h1, h2⟩
  show packageNameReplacer (ToLower U (SanitizePackageName U x)) = _
  rw [hlow]
  exact packageNameReplacer_clean _ hclean

theorem CaseTables.ascii_lowerStable : CaseTables.ascii.LowerStable := by
  intro r hr
  exact unicodeToLower_above CaseTables.ascii r hr

theorem CaseTables.cyrillic_lowerStable : CaseTables.cyrillic.LowerStable := by
  intro r hr
  by_cases h : 0x410 ≤ r.toNat ∧ r.toNat ≤ 0x42F
  · have ht : (Char.ofNat (r.toNat + 0x20)).toNat = r.toNat + 0x20 :=
      toNat_ofNat_of_lt _ (by omega)
    have h1 : CaseTables.cyrillic.toLower r = Char.ofNat (r.toNat + 0x20) := by
      simp only [CaseTables.cyrillic, h, and_self, if_true]
    have h2 : ¬ (0x410 ≤ (Char.ofNat (r.toNat + 0x20)).toNat ∧
        (Char.ofNat (r.toNat + 0x20)).toNat ≤ 0x42F) := by omega
    rw [h1, unicodeToLower_above _ _ (by omega)]
    simp only [CaseTables.cyrillic, h2, if_false]
  · have h1 : CaseTables.cyrillic.toLower r = r := by
      simp only [CaseTables.cyrillic, h, if_false]
    rw [h1, unicodeToLower_above _ _ hr, h1]

/-- Witness of C4: the texts `My-App 2`, under the tables that stop at ASCII,
and `Мой-Проект 2`, under the Cyrillic excerpt. -/
theorem SanitizePackageName_idempotent_witness :
    (CaseTables.ascii.LowerStable ∧
      SanitizePackageName CaseTables.ascii
        (SanitizePackageName CaseTables.ascii "My-App 2".toList) =
      SanitizePackageName CaseTables.ascii "My-App 2".toList) ∧
    (CaseTables.cyrillic.LowerStable ∧
      SanitizePackageName CaseTables.cyrillic "Мой-Проект 2".toList = "мой_проект2".toList ∧
      SanitizePackageName CaseTables.cyrillic
        (SanitizePackageName CaseTables.cyrillic "Мой-Проект 2".toList) =
      SanitizePackageName CaseTables.cyrillic "Мой-Проект 2".toList) :=
  ⟨⟨CaseTables.ascii_lowerStable,
    SanitizePackageName_idempotent CaseTables.ascii CaseTables.ascii_lowerStable
      "My-App 2".toList⟩,
   ⟨CaseTables.cyrillic_lowerStable, by decide,
    SanitizePackageName_idempotent CaseTables.cyrillic CaseTables.cyrillic_lowerStable
      "Мой-Проект 2".toList⟩⟩

/-- C5 as stated fails: an upper-case letter that has no lower-case form is
kept. U+2102, the double-struck capital C, is such a letter: `unicode.IsUpper`
holds of it, `strings.ToLower` leaves it as it is, and `SanitizePackageName`
returns the text made of it unchanged. -/
theorem SanitizePackageName_keeps_upper_counterexample :
    CaseTables.letterlike.LowerStable ∧
    unicodeIsUpper CaseTables.letterlike (Char.ofNat 0x2102) = true ∧
    unicodeToLower CaseTables.letterlike (Char.ofNat 0x2102) = Char.ofNat 0x2102 ∧
    SanitizePackageName CaseTables.letterlike [Char.ofNat 0x2102] = [Char.ofNat 0x2102] ∧
    (∃ c ∈ SanitizePackageName CaseTables.letterlike [Char.ofNat 0x2102],
      unicodeIsUpper CaseTables.letterlike c = true) := by
  refine ⟨?_, by decide, by decide, by decide, ⟨Char.ofNat 0x2102, by decide, by decide⟩⟩
  intro r hr
  exact unicodeToLower_above CaseTables.letterlike r hr

/-- C5 amended: the result of `SanitizePackageName` holds no space and no
hyphen, no ASCII capital and no rune that lower-casing would change, so the
only upper-case letters it can hold are runes above ASCII that have no
lower-case form; it is the lower-cased text with every `-` replaced by `_`
and every space deleted, and `My-App 2` becomes `my_app2`. -/
theorem SanitizePackageName_shape (U : CaseTables) (hU : U.LowerStable) (x : GoString) :
    ' ' ∉ SanitizePackageName U x ∧ '-' ∉ SanitizePackageName U x ∧
    (∀ c ∈ SanitizePackageName U x, ¬ ('A' ≤ c ∧ c ≤ 'Z')) ∧
    (∀ c ∈ SanitizePackageName U x, unicodeToLower U c = c) ∧
    (∀ c ∈ SanitizePackageName U x, unicodeIsUpper U c = true →
      0x7F < c.toNat ∧ U.toLower c = c) ∧
    SanitizePackageName U x = sanitizeAsSpecified U x ∧
    SanitizePackageName U "My-App 2".toList = "my_app2".toList := by
  refine ⟨?_, ?_, ?_, ?_, ?_, ?_, ?_⟩
  · intro h
    exact (packageNameReplacer_mem _ _ h).2.1 rfl
  · intro h
    exact (packageNameReplacer_mem _ _ h).1 rfl
  · intro c hc
    exact unicodeToLower_fixed_not_upper U c (SanitizePackageName_fixed U hU x c hc)
  · intro c hc
    exact SanitizePackageName_fixed U hU x c hc
  · intro c hc hup
    have hfix := SanitizePackageName_fixed U hU x c hc
    have hcap := unicodeToLower_fixed_not_upper U c hfix
    have habove : 0x7F < c.toNat := by
      by_contra hle
      have hle2 : c.toNat ≤ 0x7F := by omega
      simp only [unicodeIsUpper, hle2, if_true, decide_eq_true_eq] at hup
      exact hcap hup
    refine ⟨habove, ?_⟩
    rw [← unicodeToLower_above U c habove]
    exact hfix
  · exact packageNameReplacer_eq_map_filter _
  · rfl

/-- Witness of C5 amended: the text `Go Lang-X` under the tables that stop at
ASCII, and the text `ДА-нет` under the Cyrillic excerpt, whose capitals are
upper-case letters with a lower-case form. -/
theorem SanitizePackageName_shape_witness :
    SanitizePackageName CaseTables.ascii "Go Lang-X".toList = "golang_x".toList ∧
    SanitizePackageName CaseTables.ascii "Go Lang-X".toList =
      sanitizeAsSpecified CaseTables.ascii "Go Lang-X".toList ∧
    SanitizePackageName CaseTables.cyrillic "ДА-нет".toList = "да_нет".toList ∧
    (∀ c ∈ SanitizePackageName CaseTables.cyrillic "ДА-нет".toList,
      unicodeIsUpper CaseTables.cyrillic c = true →
        0x7F < c.toNat ∧ CaseTables.cyrillic.toLower c = c) :=
  ⟨by decide,
    (SanitizePackageName_shape CaseTables.ascii CaseTables.ascii_lowerStable
      "Go Lang-X".toList).2.2.2.2.2.1,
    by decide,
    (SanitizePackageName_shape CaseTables.cyrillic CaseTables.cyrillic_lowerStable
      "ДА-нет".toList).2.2.2.2.1⟩

/-- C6 fails on the code: the name `2fast` is accepted by `ProjectName`, and
`SanitizePackageName` returns it unchanged, a text whose first rune is the
digit `2`, whatever the Unicode tables. -/
theorem SanitizePackageName_leading_digit (U : CaseTables) :
    ProjectName "2fast\n".toList = (("2fast".toList, none), []) ∧
    SanitizePackageName U "2fast".toList = "2fast".toList ∧
    (SanitizePackageName U "2fast".toList).head? = some '2' := by
  exact ⟨by decide, rfl, rfl⟩

/-! ## Lemmas on the loop of `ChooseVariant` -/

theorem ReadString_length (reader : Reader) :
    (ReadString reader).1.length + (ReadString reader).2.length = reader.length := by
  induction reader with
  | nil => rfl
  | cons c cs ih =>
    unfold ReadString
    by_cases h : c = '\n'
    · simp only [h, if_true, List.length_cons, List.length_nil]
      omega
    · simp only [h, if_false, List.length_cons]
      omega

theorem TrimSpace_ne_nil_length (s : GoString) (h : TrimSpace s ≠ []) : 0 < s.length := by
  cases s with
  | nil => exact absurd rfl h
  | cons a t => simp

theorem ReadString_rest_lt (reader : Reader) (h : TrimSpace (ReadString reader).1 ≠ []) :
    (ReadString reader).2.length < reader.length := by
  have h1 := ReadString_length reader
  have h2 := TrimSpace_ne_nil_length _ h
  omega

theorem chooseLoop_succ (U : CaseTables) (options : List GoString) (defaultIndex : Int)
    (fuel : Nat) (reader : Reader) :
    chooseLoop U options defaultIndex (fuel + 1) reader =
      if TrimSpace (ReadString reader).1 = [] then
        some ((defaultIndex, none), (ReadString reader).2)
      else
        match matchOption U (TrimSpace (ReadString reader).1) options 0 with
        | some idx => some (((idx : Int), none), (ReadString reader).2)
        | none =>
          match Atoi (TrimSpace (ReadString reader).1) with
          | none => chooseLoop U options defaultIndex fuel (ReadString reader).2
          | some value =>
            if wrapInt64 (value - 1) ≥ 0 ∧ wrapInt64 (value - 1) < (options.length : Int) then
              some ((wrapInt64 (value - 1), none), (ReadString reader).2)
            else chooseLoop U options defaultIndex fuel (ReadString reader).2 := rfl

/-- With more fuel than runes of input the loop does not depend on the fuel. -/
theorem chooseLoop_fuel (U : CaseTables) (options : List GoString) (defaultIndex : Int) :
    ∀ (f₁ f₂ : Nat) (reader : Reader), reader.length < f₁ → reader.length < f₂ →
      chooseLoop U options defaultIndex f₁ reader =
        chooseLoop U options defaultIndex f₂ reader := by
  intro f₁
  induction f₁ with
  | zero => intro f₂ reader h; omega
  | succ n ih =>
    intro f₂ reader h1 h2
    cases f₂ with
    | zero => omega
    | succ m =>
      rw [chooseLoop_succ, chooseLoop_succ]
      by_cases hb : TrimSpace (ReadString reader).1 = []
      · simp only [hb, if_true]
      · have hlt := ReadString_rest_lt reader hb
        have hrec := ih m (ReadString reader).2 (by omega) (by omega)
        simp only [hb, if_false]
        rw [hrec]

/-- With more fuel than runes of input the loop returns. -/
theorem chooseLoop_returns (U : CaseTables) (options : List GoString) (defaultIndex : Int) :
    ∀ (fuel : Nat) (reader : Reader), reader.length < fuel →
      ∃ res, chooseLoop U options defaultIndex fuel reader = some res := by
  intro fuel
  induction fuel with
  | zero => intro reader h; omega
  | succ n ih =>
    intro reader h
    rw [chooseLoop_succ]
    by_cases hb : TrimSpace (ReadString reader).1 = []
    · simp only [hb, if_true]
      exact ⟨_, rfl⟩
    · have hlt := ReadString_rest_lt reader hb
      have hrec := ih (ReadString reader).2 (by omega)
      simp only [hb, if_false]
      cases hm : matchOption U (TrimSpace (ReadString reader).1) options 0 with
      | some idx => exact ⟨_, rfl⟩
      | none =>
        cases ha : Atoi (TrimSpace (ReadString reader).1) with
        | none => exact hrec
        | some value =>
          simp only
          split
          · exact ⟨_, rfl⟩
          · exact hrec

theorem matchOption_none (U : CaseTables) (raw : GoString) :
    ∀ (options : List GoString) (k : Nat),
      (∀ o ∈ options, EqualFold U raw o = false) → matchOption U raw options k = none := by
  intro options
  induction options with
  | nil => intro k _; rfl
  | cons o rest ih =>
    intro k h
    unfold matchOption
    rw [h o (List.mem_cons_self o rest)]
    simpa using ih (k + 1) (fun o' ho' => h o' (List.mem_cons_of_mem o ho'))

/-- The inner loop finds the first option that matches, when one does. -/
theorem matchOption_first (U : CaseTables) (raw : GoString) :
    ∀ (options : List GoString) (k : Nat),
      (∃ o ∈ options, EqualFold U raw o = true) →
      ∃ idx o, options[idx]? = some o ∧ EqualFold U raw o = true ∧
        (∀ j o', j < idx → options[j]? = some o' → EqualFold U raw o' = false) ∧
        matchOption U raw options k = some (k + idx) := by
  intro options
  induction options with
  | nil => intro k h; obtain ⟨o, ho, _⟩ := h; cases ho
  | cons o rest ih =>
    intro k h
    by_cases hm : EqualFold U raw o = true
    · refine ⟨0, o, by simp, hm, ?_, ?_⟩
      · intro j o' hj; omega
      · unfold matchOption
        simp [hm]
    · have hm' : EqualFold U raw o = false := by simpa using hm
      have hrest : ∃ o' ∈ rest, EqualFold U raw o' = true := by
        obtain ⟨o', ho', he⟩ := h
        rcases List.mem_cons.mp ho' with rfl | hr
        · exact absurd he hm
        · exact ⟨o', hr, he⟩
      obtain ⟨idx, o₁, h1, h2, h3, h4⟩ := ih (k + 1) hrest
      refine ⟨idx + 1, o₁, by simpa using h1, h2, ?_, ?_⟩
      · intro j o' hj hget
        cases j with
        | zero =>
          have : o' = o := by simpa using hget.symm
          rw [this]; exact hm'
        | succ j' => exact h3 j' o' (by omega) (by simpa using hget)
      · unfold matchOption
        rw [hm', h4]
        simp only [Bool.false_eq_true, if_false]
        congr 1
        omega

theorem EqualFold_length (U : CaseTables) :
    ∀ (s t : GoString), EqualFold U s t = true → s.length = t.length := by
  intro s
  induction s with
  | nil =>
    intro t h
    cases t with
    | nil => rfl
    | cons b t => simp [EqualFold] at h
  | cons a s ih =>
    intro t h
    cases t with
    | nil => simp [EqualFold] at h
    | cons b t =>
      simp only [EqualFold, Bool.and_eq_true] at h
      simp [ih t h.2]

theorem EqualFold_refl (U : CaseTables) : ∀ s : GoString, EqualFold U s s = true := by
  intro s
  induction s with
  | nil => rfl
  | cons a s ih => simp [EqualFold, runeFoldEq, ih]

theorem Atoi_range (s : GoString) (n : Int) (h : Atoi s = some n) :
    -(2 ^ 63) ≤ n ∧ n ≤ 2 ^ 63 - 1 := by
  unfold Atoi at h
  simp only at h
  generalize (if s.head? = some '-' ∨ s.head? = some '+' then s.tail else s) = ds at h
  by_cases h1 : ds = [] ∨ ds.all (fun ch => decide ('0' ≤ ch ∧ ch ≤ '9')) = false
  · rw [if_pos h1] at h
    cases h
  · rw [if_neg h1] at h
    generalize (if s.head? = some '-' then -(digitsValue ds : Int)
      else (digitsValue ds : Int)) = m at h
    by_cases h2 : m < -(2 ^ 63) ∨ 2 ^ 63 - 1 < m
    · rw [if_pos h2] at h
      cases h
    · rw [if_neg h2] at h
      cases h
      omega

theorem wrapInt64_of_range (x : Int) (h1 : -(2 ^ 63) ≤ x) (h2 : x ≤ 2 ^ 63 - 1) :
    wrapInt64 x = x := by
  unfold wrapInt64
  omega

/-- The default index after the range check at the head of `ChooseVariant`. -/
theorem ChooseVariant_eq_loop (U : CaseTables) (reader : Reader) (options : List GoString)
    (defaultIndex : Int) (hopt : options ≠ []) :
    ChooseVariant U reader options defaultIndex =
      chooseLoop U options
        (if 0 ≤ defaultIndex ∧ defaultIndex < (options.length : Int) then defaultIndex else 0)
        (reader.length + 1) reader := by
  have hlen : options.length ≠ 0 := by
    intro h
    exact hopt (List.length_eq_zero.mp h)
  unfold ChooseVariant
  simp only [hlen, if_false]
  by_cases hd : 0 ≤ defaultIndex ∧ defaultIndex < (options.length : Int)
  · have hd' : ¬ (defaultIndex < 0 ∨ defaultIndex ≥ (options.length : Int)) := by omega
    simp only [hd, hd', if_true, if_false, and_self]
  · have hd' : defaultIndex < 0 ∨ defaultIndex ≥ (options.length : Int) := by omega
    simp only [hd, hd', if_true, if_false]

/-- A line that is neither blank nor accepted hands the decision over to the
rest of the input. -/
theorem ChooseVariant_skip (U : CaseTables) (reader : Reader) (options : List GoString)
    (defaultIndex : Int) (hopt : options ≠ [])
    (hraw : TrimSpace (ReadString reader).1 ≠ [])
    (hstep : ∀ fuel d, chooseLoop U options d (fuel + 1) reader =
      chooseLoop U options d fuel (ReadString reader).2) :
    ChooseVariant U reader options defaultIndex =
      ChooseVariant U (ReadString reader).2 options defaultIndex := by
  rw [ChooseVariant_eq_loop U reader options defaultIndex hopt,
    ChooseVariant_eq_loop U (ReadString reader).2 options defaultIndex hopt, hstep]
  have hlt := ReadString_rest_lt reader hraw
  exact chooseLoop_fuel U options _ _ _ _ hlt (by omega)

/-! ## Theorems: choosing a variant -/

/-- C7: with a non-empty list of options, a blank first line (white space
only, or no input at all) makes `ChooseVariant` return the default index with
a nil error, the reader standing right after that line; the default index is
the one passed when it lies in `0 ≤ defaultIndex < len(options)`, else 0. -/
theorem ChooseVariant_blank_default (U : CaseTables) (reader : Reader)
    (options : List GoString) (defaultIndex : Int) (hopt : options ≠ [])
    (hblank : TrimSpace (ReadString reader).1 = []) :
    ChooseVariant U reader options defaultIndex =
      some ((if 0 ≤ defaultIndex ∧ defaultIndex < (options.length : Int)
              then defaultIndex else 0, none), (ReadString reader).2) := by
  rw [ChooseVariant_eq_loop U reader options defaultIndex hopt, chooseLoop_succ]
  simp only [hblank, if_true]

/-- Witness of C7: a line of blanks with default 1 of two options, the closed
input with default 1, and a default out of range. -/
theorem ChooseVariant_blank_default_witness :
    ChooseVariant CaseTables.ascii " \t\n2\n".toList ["a".toList, "b".toList] 1 =
        some ((1, none), "2\n".toList) ∧
    ChooseVariant CaseTables.ascii [] ["a".toList, "b".toList] 1 = some ((1, none), []) ∧
    ChooseVariant CaseTables.ascii "\n2\n".toList ["a".toList, "b".toList] 5 =
        some ((0, none), "2\n".toList) :=
  ⟨ChooseVariant_blank_default CaseTables.ascii " \t\n2\n".toList ["a".toList, "b".toList] 1
      (by decide) (by decide),
    ChooseVariant_blank_default CaseTables.ascii [] ["a".toList, "b".toList] 1
      (by decide) (by decide),
    ChooseVariant_blank_default CaseTables.ascii "\n2\n".toList ["a".toList, "b".toList] 5
      (by decide) (by decide)⟩

/-- C8: with a non-empty list of options (fewer than `2^63`, as every Go
slice), a typed line that no option matches is handled as a number: if `Atoi`
gives `n` with `1 ≤ n ≤ len(options)` the result is `(n-1, nil)`; if it gives
an `n` outside that range, or fails, the line is skipped and the result is
that of `ChooseVariant` on the remaining input. The blank line, which selects
the default, is the case of C7 and is set apart here. -/
theorem ChooseVariant_number (U : CaseTables) (reader : Reader) (options : List GoString)
    (defaultIndex : Int) (hopt : options ≠ []) (hlen : (options.length : Int) < 2 ^ 63)
    (hraw : TrimSpace (ReadString reader).1 ≠ [])
    (hno : ∀ o ∈ options, EqualFold U (TrimSpace (ReadString reader).1) o = false) :
    (∀ n : Int, Atoi (TrimSpace (ReadString reader).1) = some n →
      1 ≤ n → n ≤ (options.length : Int) →
      ChooseVariant U reader options defaultIndex =
        some ((n - 1, none), (ReadString reader).2)) ∧
    ((Atoi (TrimSpace (ReadString reader).1) = none ∨
        ∃ n : Int, Atoi (TrimSpace (ReadString reader).1) = some n ∧
          (n < 1 ∨ (options.length : Int) < n)) →
      ChooseVariant U reader options defaultIndex =
        ChooseVariant U (ReadString reader).2 options defaultIndex) := by
  have hnone := matchOption_none U (TrimSpace (ReadString reader).1) options 0 hno
  constructor
  · intro n hn h1 h2
    have hr := Atoi_range _ n hn
    have hw : wrapInt64 (n - 1) = n - 1 := wrapInt64_of_range _ (by omega) (by omega)
    have hc : n - 1 ≥ 0 ∧ n - 1 < (options.length : Int) := by omega
    rw [ChooseVariant_eq_loop U reader options defaultIndex hopt, chooseLoop_succ]
    simp only [hraw, if_false, hnone, hn, hw]
    rw [if_pos hc]
  · intro h
    apply ChooseVariant_skip U reader options defaultIndex hopt hraw
    intro fuel d
    rw [chooseLoop_succ]
    rcases h with ha | ⟨n, hn, hout⟩
    · simp only [hraw, if_false, hnone, ha]
    · have hr := Atoi_range _ n hn
      have hc : ¬ (wrapInt64 (n - 1) ≥ 0 ∧ wrapInt64 (n - 1) < (options.length : Int)) := by
        unfold wrapInt64
        omega
      simp only [hraw, if_false, hnone, hn, hc]

/-- Witness of C8: with the options `a`, `b` the line `2` selects
index 1, and the lines `7` and `x` are skipped. -/
theorem ChooseVariant_number_witness :
    ChooseVariant CaseTables.ascii " 2\n".toList ["a".toList, "b".toList] 0 =
        some ((2 - 1, none), []) ∧
    ChooseVariant CaseTables.ascii "7\n1\n".toList ["a".toList, "b".toList] 0 =
        ChooseVariant CaseTables.ascii "1\n".toList ["a".toList, "b".toList] 0 ∧
    ChooseVariant CaseTables.ascii "x\n2\n".toList ["a".toList, "b".toList] 0 =
        ChooseVariant CaseTables.ascii "2\n".toList ["a".toList, "b".toList] 0 :=
  ⟨(ChooseVariant_number CaseTables.ascii " 2\n".toList ["a".toList, "b".toList] 0
      (by decide) (by decide) (by decide) (by decide)).1 2 (by decide) (by decide) (by decide),
    (ChooseVariant_number CaseTables.ascii "7\n1\n".toList ["a".toList, "b".toList] 0
      (by decide) (by decide) (by decide) (by decide)).2
      (Or.inr ⟨7, by decide, by decide⟩),
    (ChooseVariant_number CaseTables.ascii "x\n2\n".toList ["a".toList, "b".toList] 0
      (by decide) (by decide) (by decide) (by decide)).2 (Or.inl (by decide))⟩

/-- C9: when the non-blank trimmed line matches some option under
`EqualFold`, `ChooseVariant` returns the smallest index whose option matches,
with a nil error, whatever the line would be worth as a number. -/
theorem ChooseVariant_text_match (U : CaseTables) (reader : Reader)
    (options : List GoString) (defaultIndex : Int)
    (hraw : TrimSpace (ReadString reader).1 ≠ [])
    (hmatch : ∃ o ∈ options, EqualFold U (TrimSpace (ReadString reader).1) o = true) :
    ∃ (idx : Nat) (o : GoString), options[idx]? = some o ∧
      EqualFold U (TrimSpace (ReadString reader).1) o = true ∧
      (∀ (j : Nat) (o' : GoString), j < idx → options[j]? = some o' →
        EqualFold U (TrimSpace (ReadString reader).1) o' = false) ∧
      ChooseVariant U reader options defaultIndex =
        some (((idx : Int), none), (ReadString reader).2) := by
  have hopt : options ≠ [] := by
    obtain ⟨o, ho, _⟩ := hmatch
    exact List.ne_nil_of_mem ho
  obtain ⟨idx, o, h1, h2, h3, h4⟩ :=
    matchOption_first U (TrimSpace (ReadString reader).1) options 0 hmatch
  refine ⟨idx, o, h1, h2, h3, ?_⟩
  rw [ChooseVariant_eq_loop U reader options defaultIndex hopt, chooseLoop_succ]
  simp only [hraw, if_false, h4, Nat.zero_add]

/-- Witness of C9: with the options `2`, `One`, `one` the line `ONE` selects
index 1, the first match, and the line `2` selects index 0 as a text, not
index 1 as a number. -/
theorem ChooseVariant_text_match_witness :
    (∃ (idx : Nat) (o : GoString),
      ["2".toList, "One".toList, "one".toList][idx]? = some o ∧
      EqualFold CaseTables.ascii (TrimSpace (ReadString "ONE\n".toList).1) o = true ∧
      (∀ (j : Nat) (o' : GoString), j < idx →
        ["2".toList, "One".toList, "one".toList][j]? = some o' →
        EqualFold CaseTables.ascii (TrimSpace (ReadString "ONE\n".toList).1) o' = false) ∧
      ChooseVariant CaseTables.ascii "ONE\n".toList
          ["2".toList, "One".toList, "one".toList] 0 =
        some (((idx : Int), none), (ReadString "ONE\n".toList).2)) ∧
    ChooseVariant CaseTables.ascii "ONE\n".toList
        ["2".toList, "One".toList, "one".toList] 0 = some ((1, none), []) ∧
    ChooseVariant CaseTables.ascii "2\n".toList
        ["2".toList, "One".toList, "one".toList] 0 = some ((0, none), []) :=
  ⟨ChooseVariant_text_match CaseTables.ascii "ONE\n".toList
      ["2".toList, "One".toList, "one".toList] 0 (by decide)
      ⟨"One".toList, by decide, by decide⟩,
    by decide, by decide⟩

/-! ## Theorems: the template choice -/

theorem ReadString_line (l rest : GoString) (h : '\n' ∉ l) :
    ReadString (l ++ '\n' :: rest) = (l ++ ['\n'], rest) := by
  induction l with
  | nil => simp [ReadString]
  | cons a t ih =>
    have ha : a ≠ '\n' := fun he => h (by simp [he])
    have ht : '\n' ∉ t := fun hm => h (List.mem_cons_of_mem a hm)
    simp only [List.cons_append]
    unfold ReadString
    simp only [ha, if_false, ih ht]

/-- The three option texts of the template choice have 78, 64 and 62 runes. -/
theorem templateOptions_length (i : Nat) (o : GoString)
    (h : (templateOptions All)[i]? = some o) :
    (i = 0 ∧ o.length = 78) ∨ (i = 1 ∧ o.length = 64) ∨ (i = 2 ∧ o.length = 62) := by
  match i, h with
  | 0, h =>
    have : (templateOptions All)[0]? = some _ := rfl
    rw [this] at h
    cases h
    exact Or.inl ⟨rfl, by decide⟩
  | 1, h =>
    have : (templateOptions All)[1]? = some _ := rfl
    rw [this] at h
    cases h
    exact Or.inr (Or.inl ⟨rfl, by decide⟩)
  | 2, h =>
    have : (templateOptions All)[2]? = some _ := rfl
    rw [this] at h
    cases h
    exact Or.inr (Or.inr ⟨rfl, by decide⟩)
  | n + 3, h =>
    have : (templateOptions All)[n + 3]? = none := rfl
    rw [this] at h
    cases h

theorem templateOptions_get (i : Nat) (t : Template) (h : All[i]? = some t) :
    (templateOptions All)[i]? = some (t.Title ++ " — ".toList ++ t.Description) := by
  unfold templateOptions
  rw [List.getElem?_map, h]
  rfl

/-- A line that `EqualFold` matches with the option text of the template at
position `i` selects `i`. -/
theorem chooseTemplate_of_match (U : CaseTables) (i : Nat) (t : Template)
    (ht : All[i]? = some t) (reader : Reader)
    (hm : EqualFold U (TrimSpace (ReadString reader).1)
      (t.Title ++ " — ".toList ++ t.Description) = true) :
    chooseTemplate U reader = some (((i : Int), none), (ReadString reader).2) := by
  have hget := templateOptions_get i t ht
  have hlen := EqualFold_length U _ _ hm
  have hraw : TrimSpace (ReadString reader).1 ≠ [] := by
    intro he
    rw [he] at hlen
    rcases templateOptions_length i _ hget with ⟨_, h⟩ | ⟨_, h⟩ | ⟨_, h⟩ <;>
      · rw [h] at hlen
        cases hlen
  obtain ⟨idx, o, h1, h2, _, h4⟩ :=
    matchOption_first U (TrimSpace (ReadString reader).1) (templateOptions All) 0
      ⟨_, List.getElem?_mem hget, hm⟩
  have hlen' := EqualFold_length U _ _ h2
  have hidx : idx = i := by
    rcases templateOptions_length i _ hget with ⟨a, h⟩ | ⟨a, h⟩ | ⟨a, h⟩ <;>
      rcases templateOptions_length idx _ h1 with ⟨b, h'⟩ | ⟨b, h'⟩ | ⟨b, h'⟩ <;>
        omega
  have hopt : templateOptions All ≠ [] := by decide
  unfold chooseTemplate
  rw [ChooseVariant_eq_loop U reader (templateOptions All) 0 hopt, chooseLoop_succ]
  simp only [hraw, if_false, h4, Nat.zero_add, hidx]

/-- C10 as stated fails: the title of the second template, typed exactly and
followed by the end of the input, matches no option text and is not a number;
the line is skipped and the blank read that follows selects the default,
index 0, not index 1. -/
theorem chooseTemplate_title_counterexample :
    All[1]? = some x07ComponentTemplate ∧
    ∀ U : CaseTables,
      chooseTemplate U (x07ComponentTemplate.Title ++ "\n".toList) = some ((0, none), []) := by
  refine ⟨rfl, fun U => ?_⟩
  have hrd : ReadString (x07ComponentTemplate.Title ++ "\n".toList) =
      (x07ComponentTemplate.Title ++ "\n".toList, []) := by decide
  have htrim : TrimSpace (x07ComponentTemplate.Title ++ "\n".toList) =
      x07ComponentTemplate.Title := by decide
  have hno : ∀ o ∈ templateOptions All, EqualFold U x07ComponentTemplate.Title o = false := by
    intro o ho
    obtain ⟨j, hj, hget⟩ := List.getElem_of_mem ho
    have hget' : (templateOptions All)[j]? = some o := by
      rw [List.getElem?_eq_getElem hj, hget]
    cases he : EqualFold U x07ComponentTemplate.Title o with
    | false => rfl
    | true =>
      have hl := EqualFold_length U _ _ he
      have h13 : x07ComponentTemplate.Title.length = 13 := by decide
      rcases templateOptions_length j o hget' with ⟨_, h⟩ | ⟨_, h⟩ | ⟨_, h⟩ <;> omega
  have hnone := matchOption_none U x07ComponentTemplate.Title (templateOptions All) 0 hno
  have hatoi : Atoi x07ComponentTemplate.Title = none := by decide
  have hopt : templateOptions All ≠ [] := by decide
  unfold chooseTemplate
  rw [ChooseVariant_eq_loop U _ (templateOptions All) 0 hopt, chooseLoop_succ]
  have hraw : x07ComponentTemplate.Title ≠ [] := by decide
  simp only [hrd, htrim, hraw, if_false, hnone, hatoi]
  rfl

/-- C10 amended: for every template `t` at position `i` of `templates.All()`,
a line whose trimmed text matches, under `EqualFold`, the option text shown
for `t` (its title, ` — `, and its description) selects `t`: `ChooseVariant`
returns `i`; in particular so does that option text typed exactly. -/
theorem chooseTemplate_option_text (U : CaseTables) (i : Nat) (t : Template)
    (ht : All[i]? = some t) :
    (∀ reader : Reader,
      EqualFold U (TrimSpace (ReadString reader).1)
        (t.Title ++ " — ".toList ++ t.Description) = true →
      chooseTemplate U reader = some (((i : Int), none), (ReadString reader).2)) ∧
    (∀ rest : Reader,
      chooseTemplate U (t.Title ++ " — ".toList ++ t.Description ++ '\n' :: rest) =
        some (((i : Int), none), rest)) := by
  refine ⟨fun reader hm => chooseTemplate_of_match U i t ht reader hm, fun rest => ?_⟩
  have hshape : '\n' ∉ (t.Title ++ " — ".toList ++ t.Description) ∧
      TrimSpace (t.Title ++ " — ".toList ++ t.Description ++ ['\n']) =
        t.Title ++ " — ".toList ++ t.Description := by
    match i, ht with
    | 0, ht =>
      have : All[0]? = some basicTemplate := rfl
      rw [this] at ht
      cases ht
      exact ⟨by decide, by decide⟩
    | 1, ht =>
      have : All[1]? = some x07ComponentTemplate := rfl
      rw [this] at ht
      cases ht
      exact ⟨by decide, by decide⟩
    | 2, ht =>
      have : All[2]? = some threeXfaTemplate := rfl
      rw [this] at ht
      cases ht
      exact ⟨by decide, by decide⟩
    | n + 3, ht =>
      have : All[n + 3]? = none := rfl
      rw [this] at ht
      cases ht
  have hrd := ReadString_line (t.Title ++ " — ".toList ++ t.Description) rest hshape.1
  have h := chooseTemplate_of_match U i t ht
    (t.Title ++ " — ".toList ++ t.Description ++ '\n' :: rest)
    (by rw [hrd, hshape.2]; exact EqualFold_refl U _)
  rw [hrd] at h
  exact h

/-- Witness of C10 amended: the option text of the second template, typed in
small letters under the Cyrillic excerpt, typed with its Latin letter in the
other case, or typed exactly, selects index 1. -/
theorem chooseTemplate_option_text_witness :
    All[1]? = some x07ComponentTemplate ∧
    chooseTemplate CaseTables.cyrillic
      "компонент x07 — структура для создания компонента экосистемы x07\n".toList =
        some ((1, none), []) ∧
    chooseTemplate CaseTables.ascii
      "Компонент x07 — Структура для создания компонента экосистемы x07\n3\n".toList =
        some ((1, none), "3\n".toList) ∧
    chooseTemplate CaseTables.ascii
      "Компонент X07 — Структура для создания компонента экосистемы X07\n".toList =
        some ((1, none), []) :=
  ⟨rfl,
    (chooseTemplate_option_text CaseTables.cyrillic 1 x07ComponentTemplate rfl).1
      "компонент x07 — структура для создания компонента экосистемы x07\n".toList
      (by decide),
    (chooseTemplate_option_text CaseTables.ascii 1 x07ComponentTemplate rfl).1
      "Компонент x07 — Структура для создания компонента экосистемы x07\n3\n".toList
      (by decide),
    (chooseTemplate_option_text CaseTables.ascii 1 x07ComponentTemplate rfl).2 []⟩

/-! ## Theorems: the yes/no question -/

/-- C11: `Confirm` answers yes exactly when the line, trimmed and lower-cased,
is empty, `y` or `yes`, and no otherwise; it consumes that one line; a read at
the end of the input is the empty answer, hence yes. Whatever the Unicode
tables, `YES` is a yes and `no`, `yes please` are not. -/
theorem Confirm_yes_iff (U : CaseTables) (reader : Reader) (question : GoString) :
    ((Confirm U reader question).1 = true ↔
      (ToLower U (TrimSpace (ReadString reader).1) = [] ∨
        ToLower U (TrimSpace (ReadString reader).1) = "y".toList ∨
        ToLower U (TrimSpace (ReadString reader).1) = "yes".toList)) ∧
    ((Confirm U reader question).1 = false ↔
      ¬ (ToLower U (TrimSpace (ReadString reader).1) = [] ∨
        ToLower U (TrimSpace (ReadString reader).1) = "y".toList ∨
        ToLower U (TrimSpace (ReadString reader).1) = "yes".toList)) ∧
    (Confirm U reader question).2 = (ReadString reader).2 ∧
    Confirm U [] question = (true, []) ∧
    Confirm U " YES \n".toList question = (true, []) ∧
    Confirm U "Y\nrest".toList question = (true, "rest".toList) ∧
    (Confirm U "no\n".toList question).1 = false ∧
    (Confirm U "yes please\n".toList question).1 = false := by
  refine ⟨?_, ?_, rfl, rfl, rfl, rfl, rfl, rfl⟩
  · simp only [Confirm, decide_eq_true_eq]
  · simp only [Confirm, decide_eq_false_iff_not]

/-! ## Theorems: `ChooseVariant` returns an index in range -/

theorem matchOption_lt (U : CaseTables) (raw : GoString) :
    ∀ (options : List GoString) (k idx : Nat),
      matchOption U raw options k = some idx → k ≤ idx ∧ idx < k + options.length := by
  intro options
  induction options with
  | nil => intro k idx h; simp [matchOption] at h
  | cons o rest ih =>
    intro k idx h
    unfold matchOption at h
    by_cases hm : EqualFold U raw o = true
    · simp only [hm, if_true, Option.some.injEq] at h
      simp only [List.length_cons]
      omega
    · simp only [hm] at h
      have := ih (k + 1) idx h
      simp only [List.length_cons]
      omega

/-- Whatever the loop returns is a nil error with an index in range, as long
as the default index is in range. -/
theorem chooseLoop_in_range (U : CaseTables) (options : List GoString) (defaultIndex : Int)
    (hd : 0 ≤ defaultIndex ∧ defaultIndex < (options.length : Int)) :
    ∀ (fuel : Nat) (reader : Reader) (res : (Int × Option GoError) × Reader),
      chooseLoop U options defaultIndex fuel reader = some res →
      res.1.2 = none ∧ 0 ≤ res.1.1 ∧ res.1.1 < (options.length : Int) := by
  intro fuel
  induction fuel with
  | zero => intro reader res h; simp [chooseLoop] at h
  | succ n ih =>
    intro reader res h
    rw [chooseLoop_succ] at h
    by_cases hb : TrimSpace (ReadString reader).1 = []
    · simp only [hb, if_true, Option.some.injEq] at h
      rw [← h]
      exact ⟨rfl, hd.1, hd.2⟩
    · simp only [hb, if_false] at h
      cases hm : matchOption U (TrimSpace (ReadString reader).1) options 0 with
      | some idx =>
        simp only [hm, Option.some.injEq] at h
        have hlt := matchOption_lt U _ options 0 idx hm
        rw [← h]
        refine ⟨rfl, ?_, ?_⟩
        · exact Int.ofNat_nonneg idx
        · simp only
          omega
      | none =>
        simp only [hm] at h
        cases ha : Atoi (TrimSpace (ReadString reader).1) with
        | none =>
          simp only [ha] at h
          exact ih _ res h
        | some value =>
          simp only [ha] at h
          by_cases hc : wrapInt64 (value - 1) ≥ 0 ∧
              wrapInt64 (value - 1) < (options.length : Int)
          · rw [if_pos hc] at h
            simp only [Option.some.injEq] at h
            rw [← h]
            exact ⟨rfl, hc.1, hc.2⟩
          · rw [if_neg hc] at h
            exact ih _ res h

theorem ChooseVariant_in_range (U : CaseTables) (reader : Reader) (options : List GoString)
    (defaultIndex : Int) (hopt : options ≠ []) :
    ∃ (i : Int) (rest : Reader),
      ChooseVariant U reader options defaultIndex = some ((i, none), rest) ∧
      0 ≤ i ∧ i < (options.length : Int) := by
  have hpos : 0 < options.length := List.length_pos.mpr hopt
  rw [ChooseVariant_eq_loop U reader options defaultIndex hopt]
  obtain ⟨res, hres⟩ := chooseLoop_returns U options
    (if 0 ≤ defaultIndex ∧ defaultIndex < (options.length : Int) then defaultIndex else 0)
    (reader.length + 1) reader (by omega)
  have hd : 0 ≤ (if 0 ≤ defaultIndex ∧ defaultIndex < (options.length : Int)
      then defaultIndex else 0) ∧
      (if 0 ≤ defaultIndex ∧ defaultIndex < (options.length : Int)
      then defaultIndex else 0) < (options.length : Int) := by
    split
    · assumption
    · omega
  obtain ⟨h1, h2, h3⟩ := chooseLoop_in_range U options _ hd _ reader res hres
  obtain ⟨⟨i, e⟩, rest⟩ := res
  simp only at h1 h2 h3
  subst h1
  exact ⟨i, rest, hres, h2, h3⟩

/-- C20: for a non-empty list of options, any default index and any finite
input, `ChooseVariant` returns, with a nil error and an index `i` such that
`0 ≤ i < len(options)`; with no options it returns `-1` and an error and
leaves the input unread. So the template choice of `App.Run` always yields the
index of a template of the catalog. -/
theorem ChooseVariant_total (U : CaseTables) (reader : Reader) (options : List GoString)
    (defaultIndex : Int) :
    (options ≠ [] →
      ∃ (i : Int) (rest : Reader),
        ChooseVariant U reader options defaultIndex = some ((i, none), rest) ∧
        0 ≤ i ∧ i < (options.length : Int)) ∧
    ChooseVariant U reader [] defaultIndex =
      some ((-1, some GoError.ErrEmptyOptions), reader) ∧
    (∃ (i : Int) (rest : Reader) (tpl : Template),
      chooseTemplate U reader = some ((i, none), rest) ∧
      0 ≤ i ∧ All[i.toNat]? = some tpl) := by
  refine ⟨fun hopt => ChooseVariant_in_range U reader options defaultIndex hopt, rfl, ?_⟩
  obtain ⟨i, rest, h1, h2, h3⟩ :=
    ChooseVariant_in_range U reader (templateOptions All) 0 (by decide)
  have hlen : (templateOptions All).length = All.length := by
    simp [templateOptions]
  have hi : i.toNat < All.length := by
    rw [hlen] at h3
    omega
  exact ⟨i, rest, All[i.toNat], h1, h2, List.getElem?_eq_getElem hi⟩

/-! ## Theorems: the default template -/

/-- C16: `templates.Default()` is the first element of `templates.All()`: the
element at index 0 has the key `basic` and the same title, description,
mandatory and optional folders as `Default()`, and its four function fields
agree with those of `Default()` on every argument; a blank template choice
makes `ChooseVariant`, called by `App.Run` with default index 0, return the
index 0 of that template. -/
theorem Default_is_first :
    All.head? = some Default ∧
    (∃ t : Template, All[(0 : Int).toNat]? = some t ∧
      t.Key = "basic".toList ∧ t.Key = Default.Key ∧ t.Title = Default.Title ∧
      t.Description = Default.Description ∧
      t.MandatoryFolders = Default.MandatoryFolders ∧
      t.OptionalFolders = Default.OptionalFolders ∧
      (∀ n, t.MainFileName n = Default.MainFileName n) ∧
      (∀ U n m, t.MainFileContent U n m = Default.MainFileContent U n m) ∧
      (∀ U n m, t.ExtraFiles U n m = Default.ExtraFiles U n m) ∧
      (∀ n d h, t.ReadmeContent n d h = Default.ReadmeContent n d h)) ∧
    (∀ (U : CaseTables) (reader : Reader), TrimSpace (ReadString reader).1 = [] →
      chooseTemplate U reader = some ((0, none), (ReadString reader).2)) := by
  refine ⟨rfl, ⟨Default, rfl, rfl, rfl, rfl, rfl, rfl, rfl, fun _ => rfl, fun _ _ _ => rfl,
    fun _ _ _ => rfl, fun _ _ _ => rfl⟩, ?_⟩
  intro U reader hblank
  unfold chooseTemplate
  rw [ChooseVariant_eq_loop U reader (templateOptions All) 0 (by decide), chooseLoop_succ]
  simp only [hblank, if_true]
  rfl

/-! ## Theorems: the marker file -/

/-- C15 as stated fails: in the world without failures `CreateGitKeep` on
`demo/pkg` writes `demo/pkg/.gitkeep` with the content `keep this file plz`
and a line feed, which is not the empty text. -/
theorem CreateGitKeep_empty_counterexample :
    CreateGitKeep World.ok [] "demo/pkg".toList =
      (none, [Effect.MkdirAll "demo/pkg".toList 0o775,
        Effect.WriteFile "demo/pkg/.gitkeep".toList "keep this file plz\n".toList 0o644]) ∧
    "keep this file plz\n".toList ≠ [] := by
  decide

/-- C15 amended: for every non-empty directory path, once the directory is
ensured `CreateGitKeep` performs exactly one more call, the write of the file
`.gitkeep` of that directory with the fixed content `keep this file plz`
followed by a line feed (19 bytes), with the file permission. -/
theorem CreateGitKeep_content (W : World) (trace : List Effect) (dir : GoString)
    (hdir : dir ≠ []) (hens : (EnsureDir W trace dir).1 = none) :
    (CreateGitKeep W trace dir).2 =
      (EnsureDir W trace dir).2 ++
        [Effect.WriteFile (Join [dir, ".gitkeep".toList]) "keep this file plz\n".toList
          FilePermission] ∧
    "keep this file plz\n".toList.length = 19 := by
  refine ⟨?_, rfl⟩
  unfold CreateGitKeep
  rw [if_neg hdir]
  cases hE : EnsureDir W trace dir with
  | mk e t =>
    rw [hE] at hens
    simp only at hens
    subst hens
    simp only
    cases W t (Effect.WriteFile (Join [dir, ".gitkeep".toList])
      "keep this file plz\n".toList FilePermission) <;> rfl

/-- Witness of C15 amended: the directory `demo/docs`. -/
theorem CreateGitKeep_content_witness :
    (CreateGitKeep World.ok [] "demo/docs".toList).2 =
      (EnsureDir World.ok [] "demo/docs".toList).2 ++
        [Effect.WriteFile "demo/docs/.gitkeep".toList "keep this file plz\n".toList 0o644] :=
  (CreateGitKeep_content World.ok [] "demo/docs".toList (by decide) (by decide)).1

/-! ## Lemmas on the world without failures -/

theorem EnsureDir_ok (trace : List Effect) (path : GoString) :
    EnsureDir World.ok trace path =
      (none, trace ++ (EnsureDir World.ok [] path).2) := by
  unfold EnsureDir
  by_cases h : path = [] ∨ path = ".".toList
  · simp only [h, if_true, List.append_nil]
  · simp only [h, if_false, World.ok, List.nil_append]

theorem EnsureDir_ok_effects (path : GoString) :
    (EnsureDir World.ok [] path).2 =
      if path = [] ∨ path = ".".toList then [] else [Effect.MkdirAll path DirPermission] := by
  unfold EnsureDir
  by_cases h : path = [] ∨ path = ".".toList
  · simp only [h, if_true]
  · simp only [h, if_false, World.ok, List.nil_append]

theorem CreateGitKeep_ok (trace : List Effect) (dir : GoString) :
    CreateGitKeep World.ok trace dir =
      ((CreateGitKeep World.ok [] dir).1, trace ++ (CreateGitKeep World.ok [] dir).2) := by
  unfold CreateGitKeep
  by_cases h : dir = []
  · simp only [h, if_true, List.append_nil]
  · simp only [h, if_false]
    rw [EnsureDir_ok trace dir, EnsureDir_ok [] dir]
    simp only [World.ok, List.nil_append, List.append_assoc]

theorem CreateGitKeep_ok_effects (dir : GoString) (h : dir ≠ []) :
    CreateGitKeep World.ok [] dir =
      (none, (EnsureDir World.ok [] dir).2 ++
        [Effect.WriteFile (Join [dir, ".gitkeep".toList]) "keep this file plz\n".toList
          FilePermission]) := by
  unfold CreateGitKeep
  simp only [h, if_false]
  rw [EnsureDir_ok [] dir]
  simp only [World.ok, List.nil_append]

theorem ensureFolder_ok (trace : List Effect) (rootDir folder : GoString) :
    ensureFolder World.ok trace rootDir folder =
      ((ensureFolder World.ok [] rootDir folder).1,
        trace ++ (ensureFolder World.ok [] rootDir folder).2) := by
  unfold ensureFolder
  rw [EnsureDir_ok trace, EnsureDir_ok []]
  simp only [List.nil_append]
  by_cases h : shouldCreateGitkeep folder = true
  · simp only [h, if_true]
    rw [CreateGitKeep_ok (trace ++ _), CreateGitKeep_ok ((EnsureDir World.ok [] _).2)]
    simp only [List.append_assoc]
  · simp only [h]
    rfl

/-! ## Theorems: which folders get a marker -/

/-- C14: `shouldCreateGitkeep` is false exactly for the folders that are `cmd`
once the path separators at both ends are removed, and true for every other
folder, nested ones such as `internal/cmd` included; `ensureFolder`, once the
folder is ensured, goes on to `CreateGitKeep` exactly when it is true, so
that in the world without failures the marker is written if and only if it
is true; and in every template of the catalog all mandatory and optional
folders but `cmd` get the marker. -/
theorem shouldCreateGitkeep_spec (folder : GoString) :
    (shouldCreateGitkeep folder = false ↔ Trim folder [PathSeparator] = "cmd".toList) ∧
    (shouldCreateGitkeep folder = true ↔ Trim folder [PathSeparator] ≠ "cmd".toList) ∧
    shouldCreateGitkeep "cmd".toList = false ∧
    shouldCreateGitkeep "/cmd/".toList = false ∧
    shouldCreateGitkeep "internal/cmd".toList = true ∧
    shouldCreateGitkeep "cmd/tool".toList = true ∧
    (∀ (W : World) (trace : List Effect) (rootDir : GoString),
      (EnsureDir W trace (Join [rootDir, folder])).1 = none →
      ensureFolder W trace rootDir folder =
        if shouldCreateGitkeep folder then
          CreateGitKeep W (EnsureDir W trace (Join [rootDir, folder])).2 (Join [rootDir, folder])
        else (none, (EnsureDir W trace (Join [rootDir, folder])).2)) ∧
    (∀ rootDir : GoString, Join [rootDir, folder] ≠ [] →
      (Effect.WriteFile (Join [Join [rootDir, folder], ".gitkeep".toList])
          "keep this file plz\n".toList FilePermission ∈
            (ensureFolder World.ok [] rootDir folder).2 ↔
        shouldCreateGitkeep folder = true)) ∧
    (∀ t ∈ All, ∀ f ∈ t.MandatoryFolders ++ t.OptionalFolders.map Prod.fst,
      shouldCreateGitkeep f = decide (f ≠ "cmd".toList)) := by
  refine ⟨?_, ?_, by decide, by decide, by decide, by decide, ?_, ?_, ?_⟩
  · simp [shouldCreateGitkeep]
  · simp [shouldCreateGitkeep]
  · intro W trace rootDir hens
    unfold ensureFolder
    cases hE : EnsureDir W trace (Join [rootDir, folder]) with
    | mk e t =>
      rw [hE] at hens
      simp only at hens
      subst hens
      rfl
  · intro rootDir hne
    unfold ensureFolder
    rw [EnsureDir_ok []]
    simp only [List.nil_append]
    by_cases h : shouldCreateGitkeep folder = true
    · simp only [h, if_true, iff_true]
      rw [CreateGitKeep_ok, CreateGitKeep_ok_effects _ hne]
      simp
    · have h' : shouldCreateGitkeep folder = false := by simpa using h
      simp only [h', Bool.false_eq_true, if_false, iff_false]
      rw [EnsureDir_ok_effects]
      intro hmem
      split at hmem <;> simp at hmem
  · intro t ht
    simp only [All, List.mem_cons, List.mem_singleton, List.not_mem_nil, or_false] at ht
    rcases ht with rfl | rfl | rfl <;> decide

/-! ## Lemmas on paths -/

theorem splitSep_plain (e : GoString) (h : '/' ∉ e) : splitSep e = [e] := by
  induction e with
  | nil => rfl
  | cons c cs ih =>
    have hc : c ≠ PathSeparator := fun he => h (by subst he; exact List.mem_cons_self _ _)
    have hcs : '/' ∉ cs := fun hm => h (List.mem_cons_of_mem c hm)
    conv_lhs => unfold splitSep
    simp only [hc, if_false, ih hcs]

theorem splitSep_append (a b : GoString) (h : '/' ∉ a) :
    splitSep (a ++ '/' :: b) = a :: splitSep b := by
  induction a with
  | nil =>
    simp only [List.nil_append]
    conv_lhs => unfold splitSep
    simp [PathSeparator]
  | cons c cs ih =>
    have hc : c ≠ PathSeparator := fun he => h (by subst he; exact List.mem_cons_self _ _)
    have hcs : '/' ∉ cs := fun hm => h (List.mem_cons_of_mem c hm)
    simp only [List.cons_append]
    conv_lhs => unfold splitSep
    simp only [hc, if_false, ih hcs]

theorem joinSep_cons_cons (e f : GoString) (es : List GoString) :
    joinSep (e :: f :: es) = e ++ '/' :: joinSep (f :: es) := rfl

theorem splitSep_joinSep (es : List GoString) (hne : es ≠ [])
    (h : ∀ e ∈ es, '/' ∉ e) : splitSep (joinSep es) = es := by
  induction es with
  | nil => exact absurd rfl hne
  | cons e rest ih =>
    cases rest with
    | nil => exact splitSep_plain e (h e (List.mem_cons_self e []))
    | cons f fs =>
      rw [joinSep_cons_cons, splitSep_append _ _ (h e (List.mem_cons_self e _))]
      rw [ih (by simp) (fun x hx => h x (List.mem_cons_of_mem e hx))]

theorem joinSep_append (as bs : List GoString) (ha : as ≠ []) (hb : bs ≠ []) :
    joinSep (as ++ bs) = joinSep as ++ '/' :: joinSep bs := by
  induction as with
  | nil => exact absurd rfl ha
  | cons e rest ih =>
    cases rest with
    | nil =>
      cases bs with
      | nil => exact absurd rfl hb
      | cons b bs' => rfl
    | cons f fs =>
      simp only [List.cons_append] at ih ⊢
      rw [joinSep_cons_cons, ih (by simp), joinSep_cons_cons]
      simp only [List.append_assoc, List.cons_append]

theorem joinSep_ne_nil (e : GoString) (es : List GoString) (he : e ≠ []) :
    joinSep (e :: es) ≠ [] := by
  cases es with
  | nil => exact he
  | cons f fs =>
    rw [joinSep_cons_cons]
    intro h
    exact he (List.append_eq_nil.mp h).1

theorem joinSep_head (e : GoString) (es : List GoString) (he : e ≠ []) :
    (joinSep (e :: es)).head? = e.head? := by
  cases e with
  | nil => exact absurd rfl he
  | cons c cs =>
    cases es with
    | nil => rfl
    | cons f fs => rfl

/-- The scan of `Clean` keeps plain elements and drops empty ones. -/
theorem foldl_cleanStep (rooted : Bool) (es : List GoString)
    (h : ∀ e ∈ es, e ≠ "..".toList ∧ e ≠ ".".toList) :
    ∀ kept : List GoString,
      es.foldl (cleanStep rooted) kept =
        (es.filter (fun e => decide (e ≠ []))).reverse ++ kept := by
  induction es with
  | nil => intro kept; rfl
  | cons e rest ih =>
    intro kept
    have he := h e (List.mem_cons_self e rest)
    have hrest := ih (fun x hx => h x (List.mem_cons_of_mem e hx))
    simp only [List.foldl_cons]
    rw [hrest]
    by_cases hnil : e = []
    · subst hnil
      simp [cleanStep]
    · have h1 : ¬ e = ['.'] := he.2
      have h2 : ¬ e = ['.', '.'] := he.1
      simp [cleanStep, hnil, h1, h2]

/-- `Clean` leaves a relative path of plain elements as it is, but for empty
elements after the first, which go away. -/
theorem Clean_joinSep (e : GoString) (es : List GoString)
    (he : e ≠ [] ∧ '/' ∉ e ∧ e ≠ ".".toList ∧ e ≠ "..".toList)
    (h : ∀ x ∈ es, '/' ∉ x ∧ x ≠ ".".toList ∧ x ≠ "..".toList) :
    Clean (joinSep (e :: es)) = joinSep (e :: es.filter (fun x => decide (x ≠ []))) := by
  have hsplit : splitSep (joinSep (e :: es)) = e :: es := by
    apply splitSep_joinSep _ (by simp)
    intro x hx
    rcases List.mem_cons.mp hx with rfl | hx
    · exact he.2.1
    · exact (h x hx).1
  have hhead : ¬ ((joinSep (e :: es)).head? = some PathSeparator) := by
    rw [joinSep_head e es he.1]
    cases e with
    | nil => exact absurd rfl he.1
    | cons c cs =>
      simp only [List.head?_cons, Option.some.injEq, PathSeparator]
      intro hc
      exact he.2.1 (by simp [hc])
  have hfold := foldl_cleanStep false (e :: es)
    (by
      intro x hx
      rcases List.mem_cons.mp hx with rfl | hx
      · exact ⟨he.2.2.2, he.2.2.1⟩
      · exact ⟨(h x hx).2.2, (h x hx).2.1⟩) []
  unfold Clean
  simp only [hhead, decide_False, hsplit, hfold, Bool.false_eq_true, if_false,
    List.nil_append, List.append_nil, List.reverse_reverse]
  have hfil : (e :: es).filter (fun x => decide (x ≠ [])) =
      e :: es.filter (fun x => decide (x ≠ [])) := by
    simp [List.filter_cons, he.1]
  rw [hfil, if_neg (joinSep_ne_nil e _ he.1)]

theorem filter_plain (es : List GoString) (h : PlainElems es) :
    es.filter (fun x => decide (x ≠ [])) = es := by
  apply List.filter_eq_self.mpr
  intro x hx
  simpa using (h x hx).1

theorem Clean_plain (es : List GoString) (hne : es ≠ []) (h : PlainElems es) :
    Clean (joinSep es) = joinSep es := by
  cases es with
  | nil => exact absurd rfl hne
  | cons e rest =>
    have hrest : PlainElems rest := fun x hx => h x (List.mem_cons_of_mem e hx)
    rw [Clean_joinSep e rest (h e (List.mem_cons_self e rest))
      (fun x hx => (hrest x hx).2), filter_plain rest hrest]

/-- Joining two relative paths of plain elements gives the path of all the
elements. -/
theorem Join_plain (as bs : List GoString) (ha : as ≠ []) (hb : bs ≠ [])
    (hpa : PlainElems as) (hpb : PlainElems bs) :
    Join [joinSep as, joinSep bs] = joinSep (as ++ bs) := by
  have hane : joinSep as ≠ [] := by
    cases as with
    | nil => exact absurd rfl ha
    | cons e rest => exact joinSep_ne_nil e rest (hpa e (List.mem_cons_self e rest)).1
  have hab : PlainElems (as ++ bs) := by
    intro x hx
    rcases List.mem_append.mp hx with hx | hx
    · exact hpa x hx
    · exact hpb x hx
  unfold Join
  simp only [List.dropWhile_cons, hane, decide_False, Bool.false_eq_true, if_false]
  have hj : joinSep [joinSep as, joinSep bs] = joinSep (as ++ bs) := by
    rw [joinSep_append as bs ha hb]
    rfl
  rw [hj]
  exact Clean_plain (as ++ bs) (by simp [ha]) hab

/-- The directory of a relative path of plain elements is the path of all
its elements but the last. -/
theorem Dir_plain (as : List GoString) (last : GoString) (ha : as ≠ [])
    (hpa : PlainElems as) (hl : '/' ∉ last) :
    Dir (joinSep (as ++ [last])) = joinSep as := by
  have hj : joinSep (as ++ [last]) = (joinSep as ++ ['/']) ++ last := by
    rw [joinSep_append as [last] ha (by simp)]
    simp [joinSep]
  have hdrop : (joinSep (as ++ [last])).rdropWhile (fun c => decide (c ≠ PathSeparator)) =
      joinSep as ++ ['/'] := by
    rw [hj, rdropWhile_append_of_all]
    · rw [List.rdropWhile_concat_neg]
      simp [PathSeparator]
    · intro c hc
      have : c ≠ '/' := fun he => hl (he ▸ hc)
      simpa [PathSeparator] using this
  have hj2 : joinSep as ++ ['/'] = joinSep (as ++ [[]]) := by
    rw [joinSep_append as [[]] ha (by simp)]
    rfl
  unfold Dir
  rw [hdrop, hj2]
  cases as with
  | nil => exact absurd rfl ha
  | cons e rest =>
    have hrest : PlainElems rest := fun x hx => hpa x (List.mem_cons_of_mem e hx)
    simp only [List.cons_append]
    rw [Clean_joinSep e (rest ++ [[]]) (hpa e (List.mem_cons_self e rest))]
    · rw [List.filter_append, filter_plain rest hrest]
      simp
    · intro x hx
      rcases List.mem_append.mp hx with hx | hx
      · exact (hrest x hx).2
      · have : x = [] := by simpa using hx
        subst this
        exact ⟨by simp, by decide, by decide⟩

theorem Sprintf_go (n : GoString) : Sprintf "%s.go".toList [n] = n ++ ".go".toList := rfl

theorem accepted_chars (n : GoString) (h : projectNameRegexp n = true) :
    n ≠ [] ∧ '/' ∉ n ∧ '.' ∉ n := by
  obtain ⟨hne, hall⟩ := (projectNameRegexp_iff n).mp h
  refine ⟨hne, ?_, ?_⟩ <;> intro hm <;>
    · have := hall _ hm
      revert this
      decide

/-- An accepted project name is a plain path element, and so is the name of
its entry file. -/
theorem accepted_plain (n : GoString) (h : projectNameRegexp n = true) :
    PlainElems [n] ∧ PlainElems [n ++ ".go".toList] := by
  obtain ⟨hne, hs, hd⟩ := accepted_chars n h
  constructor
  · intro e he
    have : e = n := by simpa using he
    subst this
    refine ⟨hne, hs, ?_, ?_⟩ <;> intro heq <;>
      · apply hd
        rw [heq]
        decide
  · intro e he
    have : e = n ++ ".go".toList := by simpa using he
    subst this
    refine ⟨by simp, ?_, ?_, ?_⟩
    · intro hm
      rcases List.mem_append.mp hm with hm | hm
      · exact hs hm
      · revert hm
        decide
    · intro heq
      have := congrArg List.length heq
      simp at this
    · intro heq
      have := congrArg List.length heq
      simp at this

theorem PlainElems_append (as bs : List GoString) (ha : PlainElems as) (hb : PlainElems bs) :
    PlainElems (as ++ bs) := by
  intro x hx
  rcases List.mem_append.mp hx with hx | hx
  · exact ha x hx
  · exact hb x hx

/-- The root directory of a project with an accepted name is the name. -/
theorem Join_dot (n : GoString) (h : PlainElems [n]) : Join [".".toList, n] = n := by
  obtain ⟨hne, hs, hd, hdd⟩ := h n (List.mem_singleton.mpr rfl)
  have h0 : Join [".".toList, n] = Clean (".".toList ++ '/' :: n) := rfl
  have h1 : ¬ n = ['.'] := hd
  have h2 : ¬ n = ['.', '.'] := hdd
  rw [h0]
  unfold Clean
  rw [splitSep_append _ _ (by decide), splitSep_plain n hs]
  simp [cleanStep, PathSeparator, joinSep, hne, h1, h2]

theorem MainFileName_eq (t : Template) (ht : t ∈ All) (n : GoString) :
    t.MainFileName n = Join ["cmd".toList, n ++ ".go".toList] := by
  simp only [All, List.mem_cons, List.mem_singleton, List.not_mem_nil, or_false] at ht
  rcases ht with rfl | rfl | rfl <;> rfl

/-- The entry file of an accepted name is `cmd/<name>.go`. -/
theorem MainFileName_accepted (t : Template) (ht : t ∈ All) (n : GoString)
    (hn : projectNameRegexp n = true) :
    t.MainFileName n = joinSep ["cmd".toList, n ++ ".go".toList] := by
  rw [MainFileName_eq t ht n]
  exact Join_plain ["cmd".toList] [n ++ ".go".toList] (by simp) (by simp)
    (by decide) (accepted_plain n hn).2

/-! ## Lemmas on `prepareFolders` in the world without failures -/

theorem ensureFolder_ok_noPrompt (rootDir folder : GoString) :
    withoutPrompts (ensureFolder World.ok [] rootDir folder).2 =
      (ensureFolder World.ok [] rootDir folder).2 ∧
    (ensureFolder World.ok [] rootDir folder).2.filter Effect.isPrompt = [] := by
  have key : ∀ e ∈ (ensureFolder World.ok [] rootDir folder).2, e.isPrompt = false := by
    intro e he
    unfold ensureFolder at he
    rw [EnsureDir_ok []] at he
    simp only [List.nil_append] at he
    have hdir : ∀ p : GoString, ∀ x ∈ (EnsureDir World.ok [] p).2, x.isPrompt = false := by
      intro p x hx
      rw [EnsureDir_ok_effects] at hx
      split at hx
      · cases hx
      · have : x = Effect.MkdirAll p DirPermission := by simpa using hx
        rw [this]
        rfl
    by_cases h : shouldCreateGitkeep folder = true
    · simp only [h, if_true] at he
      rw [CreateGitKeep_ok] at he
      simp only at he
      rcases List.mem_append.mp he with he | he
      · exact hdir _ e he
      · by_cases hd : Join [rootDir, folder] = []
        · have : (CreateGitKeep World.ok [] (Join [rootDir, folder])).2 = [] := by
            simp [CreateGitKeep, hd]
          rw [this] at he
          cases he
        · rw [CreateGitKeep_ok_effects _ hd] at he
          simp only at he
          rcases List.mem_append.mp he with he | he
          · exact hdir _ e he
          · have : e = Effect.WriteFile (Join [Join [rootDir, folder], ".gitkeep".toList])
                "keep this file plz\n".toList FilePermission := by simpa using he
            rw [this]
            rfl
    · have h' : shouldCreateGitkeep folder = false := by simpa using h
      simp only [h', Bool.false_eq_true, if_false] at he
      exact hdir _ e he
  constructor
  · unfold withoutPrompts
    apply List.filter_eq_self.mpr
    intro e he
    simp [key e he]
  · apply List.filter_eq_nil_iff.mpr
    intro e he
    simp [key e he]

/-- Without failures the first loop ensures the mandatory folders one after
the other. -/
theorem ensureFolders_ok (rootDir : GoString) :
    ∀ (folders : List GoString) (t : List Effect),
      (∀ f ∈ folders, (ensureFolder World.ok [] rootDir f).1 = none) →
      ensureFolders World.ok rootDir folders t =
        (none, t ++ (folders.map (fun f => (ensureFolder World.ok [] rootDir f).2)).flatten) := by
  intro folders
  induction folders with
  | nil => intro t _; simp [ensureFolders]
  | cons f rest ih =>
    intro t h
    have hf := h f (List.mem_cons_self f rest)
    unfold ensureFolders
    rw [ensureFolder_ok t rootDir f, hf]
    simp only
    rw [ih _ (fun x hx => h x (List.mem_cons_of_mem f hx))]
    simp [List.append_assoc]

/-- Without failures the second loop asks every question in the order of the
iteration and ensures the folders whose answer is yes. -/
theorem askOptional_ok (U : CaseTables) (rootDir : GoString) :
    ∀ (order : List (GoString × GoString)) (reader : Reader) (t : List Effect),
      (∀ e ∈ order, (ensureFolder World.ok [] rootDir e.1).1 = none) →
      (askOptional U World.ok rootDir order reader t).1 = none ∧
      (askOptional U World.ok rootDir order reader t).2.1 =
        afterAnswers U order.length reader ∧
      withoutPrompts (askOptional U World.ok rootDir order reader t).2.2 =
        withoutPrompts t ++
          ((((order.zip (answers U order.length reader)).filter (fun x => x.2)).map
            (fun x => (ensureFolder World.ok [] rootDir x.1.1).2)).flatten) ∧
      (askOptional U World.ok rootDir order reader t).2.2.filter Effect.isPrompt =
        t.filter Effect.isPrompt ++ order.map (fun e => Effect.Prompt e.2) := by
  intro order
  induction order with
  | nil => intro reader t _; simp [askOptional, answers, afterAnswers]
  | cons e rest ih =>
    intro reader t h
    obtain ⟨folder, question⟩ := e
    have hf : (ensureFolder World.ok [] rootDir folder).1 = none :=
      h (folder, question) (List.mem_cons_self _ rest)
    have hrest : ∀ e ∈ rest, (ensureFolder World.ok [] rootDir e.1).1 = none :=
      fun x hx => h x (List.mem_cons_of_mem _ hx)
    have hq : Confirm U reader question = Confirm U reader [] := rfl
    have hnp := ensureFolder_ok_noPrompt rootDir folder
    unfold askOptional
    rw [hq]
    by_cases hc : (Confirm U reader []).1 = true
    · simp only [hc, if_true]
      rw [ensureFolder_ok (t ++ [Effect.Prompt question]) rootDir folder, hf]
      simp only
      obtain ⟨h1, h2, h3, h4⟩ := ih (Confirm U reader []).2
        (t ++ [Effect.Prompt question] ++ (ensureFolder World.ok [] rootDir folder).2) hrest
      refine ⟨h1, ?_, ?_, ?_⟩
      · rw [h2]; rfl
      · rw [h3]
        simp only [answers, List.length_cons, List.zip_cons_cons, hc, List.filter_cons_of_pos,
          List.map_cons, List.flatten_cons]
        unfold withoutPrompts at hnp ⊢
        simp only [List.filter_append, hnp.1, List.append_assoc]
        simp [Effect.isPrompt]
      · rw [h4]
        simp only [List.filter_append, hnp.2, List.map_cons, List.append_assoc]
        simp [Effect.isPrompt]
    · have hc' : (Confirm U reader []).1 = false := by simpa using hc
      simp only [hc', Bool.false_eq_true, if_false]
      obtain ⟨h1, h2, h3, h4⟩ := ih (Confirm U reader []).2 (t ++ [Effect.Prompt question]) hrest
      refine ⟨h1, ?_, ?_, ?_⟩
      · rw [h2]; rfl
      · rw [h3]
        simp only [answers, List.length_cons, List.zip_cons_cons, hc']
        unfold withoutPrompts
        simp [Effect.isPrompt]
      · rw [h4]
        simp [Effect.isPrompt]

theorem zip_answers_filter {β : Type} (ans : GoString → Bool) (F : GoString → β) :
    ∀ order : List (GoString × GoString),
      ((order.zip (order.map (fun e => ans e.1))).filter (fun x => x.2)).map
          (fun x => F x.1.1) =
        ((order.map Prod.fst).filter ans).map F := by
  intro order
  induction order with
  | nil => rfl
  | cons e rest ih =>
    simp only [List.map_cons, List.zip_cons_cons]
    by_cases h : ans e.1 = true
    · simp only [h, List.filter_cons_of_pos, List.map_cons, ih]
    · have h' : ans e.1 = false := by simpa using h
      simp only [h', Bool.false_eq_true, not_false_eq_true, List.filter_cons_of_neg, ih]

/-- Without failures `prepareFolders` ensures the mandatory folders and then,
in the order of the iteration, asks every question and ensures the optional
folders answered yes. -/
theorem prepareFolders_ok (U : CaseTables)
    (rangeOrder : List (GoString × GoString) → List (GoString × GoString))
    (reader : Reader) (rootDir : GoString) (tpl : Template)
    (hok : ∀ f ∈ tpl.MandatoryFolders ++ (rangeOrder tpl.OptionalFolders).map Prod.fst,
      (ensureFolder World.ok [] rootDir f).1 = none) :
    (prepareFolders U World.ok rangeOrder reader [] rootDir tpl).1 = none ∧
    (prepareFolders U World.ok rangeOrder reader [] rootDir tpl).2.1 =
      afterAnswers U (rangeOrder tpl.OptionalFolders).length reader ∧
    withoutPrompts (prepareFolders U World.ok rangeOrder reader [] rootDir tpl).2.2 =
      (tpl.MandatoryFolders.map (fun f => (ensureFolder World.ok [] rootDir f).2)).flatten ++
        (((((rangeOrder tpl.OptionalFolders).zip
            (answers U (rangeOrder tpl.OptionalFolders).length reader)).filter
              (fun x => x.2)).map
          (fun x => (ensureFolder World.ok [] rootDir x.1.1).2)).flatten) ∧
    (prepareFolders U World.ok rangeOrder reader [] rootDir tpl).2.2.filter Effect.isPrompt =
      (rangeOrder tpl.OptionalFolders).map (fun e => Effect.Prompt e.2) := by
  have hm : ∀ f ∈ tpl.MandatoryFolders, (ensureFolder World.ok [] rootDir f).1 = none :=
    fun f hf => hok f (List.mem_append_left _ hf)
  have ho : ∀ e ∈ rangeOrder tpl.OptionalFolders,
      (ensureFolder World.ok [] rootDir e.1).1 = none :=
    fun e he => hok e.1 (List.mem_append_right _ (List.mem_map_of_mem Prod.fst he))
  have hnp : ∀ fs : List GoString,
      withoutPrompts ((fs.map (fun f => (ensureFolder World.ok [] rootDir f).2)).flatten) =
        (fs.map (fun f => (ensureFolder World.ok [] rootDir f).2)).flatten ∧
      ((fs.map (fun f => (ensureFolder World.ok [] rootDir f).2)).flatten).filter
        Effect.isPrompt = [] := by
    intro fs
    induction fs with
    | nil => exact ⟨rfl, rfl⟩
    | cons f rest ih =>
      have h1 := ensureFolder_ok_noPrompt rootDir f
      unfold withoutPrompts at h1 ih ⊢
      simp only [List.map_cons, List.flatten_cons, List.filter_append, h1.1, h1.2, ih.1, ih.2,
        List.append_nil, and_self]
  unfold prepareFolders
  rw [ensureFolders_ok rootDir tpl.MandatoryFolders [] hm]
  simp only [List.nil_append]
  obtain ⟨h1, h2, h3, h4⟩ := askOptional_ok U rootDir (rangeOrder tpl.OptionalFolders) reader
    ((tpl.MandatoryFolders.map (fun f => (ensureFolder World.ok [] rootDir f).2)).flatten) ho
  refine ⟨h1, h2, ?_, ?_⟩
  · rw [h3, (hnp tpl.MandatoryFolders).1]
  · rw [h4, (hnp tpl.MandatoryFolders).2]
    rfl

theorem perm_keys_ok (rootDir : GoString) (tpl : Template)
    (order : List (GoString × GoString)) (hperm : order.Perm tpl.OptionalFolders)
    (hok : ∀ f ∈ tpl.MandatoryFolders ++ tpl.OptionalFolders.map Prod.fst,
      (ensureFolder World.ok [] rootDir f).1 = none) :
    ∀ f ∈ tpl.MandatoryFolders ++ order.map Prod.fst,
      (ensureFolder World.ok [] rootDir f).1 = none := by
  intro f hf
  apply hok
  rcases List.mem_append.mp hf with hf | hf
  · exact List.mem_append_left _ hf
  · exact List.mem_append_right _ ((hperm.map Prod.fst).mem_iff.mp hf)

/-! ## Theorems: the folders of a project -/

/-- C12: in the world without failures, for every template, every order in
which the map of optional folders is visited and every assignment `ans` of
yes/no answers to the optional folders (the answer lines realise it),
`prepareFolders` returns nil and its effects on the file system are those
of ensuring each folder of a list `ensured`, which holds the mandatory
folders and the optional folders answered yes and nothing else. For the
basic template the mandatory folders are cmd, pkg, docs, internal, examples
and the optional ones api, server, db, scripts, test, init, assets. -/
theorem prepareFolders_ensures (U : CaseTables)
    (rangeOrder : List (GoString × GoString) → List (GoString × GoString))
    (reader : Reader) (rootDir : GoString) (tpl : Template) (ans : GoString → Bool)
    (hperm : (rangeOrder tpl.OptionalFolders).Perm tpl.OptionalFolders)
    (hans : answers U (rangeOrder tpl.OptionalFolders).length reader =
      (rangeOrder tpl.OptionalFolders).map (fun e => ans e.1))
    (hok : ∀ f ∈ tpl.MandatoryFolders ++ tpl.OptionalFolders.map Prod.fst,
      (ensureFolder World.ok [] rootDir f).1 = none) :
    (prepareFolders U World.ok rangeOrder reader [] rootDir tpl).1 = none ∧
    (∃ ensured : List GoString,
      withoutPrompts (prepareFolders U World.ok rangeOrder reader [] rootDir tpl).2.2 =
        (ensured.map (fun f => (ensureFolder World.ok [] rootDir f).2)).flatten ∧
      ensured.Perm
        (tpl.MandatoryFolders ++ (tpl.OptionalFolders.map Prod.fst).filter ans) ∧
      (∀ f, f ∈ ensured ↔
        (f ∈ tpl.MandatoryFolders ∨ (f ∈ tpl.OptionalFolders.map Prod.fst ∧ ans f = true)))) ∧
    (basicTemplate.MandatoryFolders ++
        (basicTemplate.OptionalFolders.map Prod.fst).filter (fun _ => false) =
      ["cmd".toList, "pkg".toList, "docs".toList, "internal".toList, "examples".toList]) ∧
    (basicTemplate.MandatoryFolders ++
        (basicTemplate.OptionalFolders.map Prod.fst).filter (fun _ => true) =
      ["cmd".toList, "pkg".toList, "docs".toList, "internal".toList, "examples".toList,
        "api".toList, "server".toList, "db".toList, "scripts".toList, "test".toList,
        "init".toList, "assets".toList]) := by
  have hkeys : ((rangeOrder tpl.OptionalFolders).map Prod.fst).Perm
      (tpl.OptionalFolders.map Prod.fst) := hperm.map Prod.fst
  obtain ⟨h1, _, h3, _⟩ := prepareFolders_ok U rangeOrder reader rootDir tpl
    (perm_keys_ok rootDir tpl _ hperm hok)
  rw [hans, zip_answers_filter ans (fun f => (ensureFolder World.ok [] rootDir f).2),
    ← List.flatten_append, ← List.map_append] at h3
  have hfil : (((rangeOrder tpl.OptionalFolders).map Prod.fst).filter ans).Perm
      ((tpl.OptionalFolders.map Prod.fst).filter ans) := hkeys.filter ans
  refine ⟨h1, ⟨_, h3, List.Perm.append_left _ hfil, ?_⟩, rfl, rfl⟩
  intro f
  simp only [List.mem_append, List.mem_filter]
  constructor
  · rintro (h | ⟨h, ha⟩)
    · exact Or.inl h
    · exact Or.inr ⟨hkeys.mem_iff.mp h, ha⟩
  · rintro (h | ⟨h, ha⟩)
    · exact Or.inl h
    · exact Or.inr ⟨hkeys.mem_iff.mpr h, ha⟩

/-- Witness of C12: the basic template under the root `demo`, the map visited
in the reverse of the written order, yes for `db` and `api` only. -/
theorem prepareFolders_ensures_witness :
    (prepareFolders CaseTables.ascii World.ok List.reverse "n\nn\nn\nn\ny\nn\n\n".toList []
      "demo".toList basicTemplate).1 = none ∧
    withoutPrompts (prepareFolders CaseTables.ascii World.ok List.reverse
      "n\nn\nn\nn\ny\nn\n\n".toList [] "demo".toList basicTemplate).2.2 =
      [Effect.MkdirAll "demo/cmd".toList 0o775,
        Effect.MkdirAll "demo/pkg".toList 0o775, Effect.MkdirAll "demo/pkg".toList 0o775,
        Effect.WriteFile "demo/pkg/.gitkeep".toList "keep this file plz\n".toList 0o644,
        Effect.MkdirAll "demo/docs".toList 0o775, Effect.MkdirAll "demo/docs".toList 0o775,
        Effect.WriteFile "demo/docs/.gitkeep".toList "keep this file plz\n".toList 0o644,
        Effect.MkdirAll "demo/internal".toList 0o775,
        Effect.MkdirAll "demo/internal".toList 0o775,
        Effect.WriteFile "demo/internal/.gitkeep".toList "keep this file plz\n".toList 0o644,
        Effect.MkdirAll "demo/examples".toList 0o775,
        Effect.MkdirAll "demo/examples".toList 0o775,
        Effect.WriteFile "demo/examples/.gitkeep".toList "keep this file plz\n".toList 0o644,
        Effect.MkdirAll "demo/db".toList 0o775, Effect.MkdirAll "demo/db".toList 0o775,
        Effect.WriteFile "demo/db/.gitkeep".toList "keep this file plz\n".toList 0o644,
        Effect.MkdirAll "demo/api".toList 0o775, Effect.MkdirAll "demo/api".toList 0o775,
        Effect.WriteFile "demo/api/.gitkeep".toList "keep this file plz\n".toList 0o644] :=
  ⟨(prepareFolders_ensures CaseTables.ascii List.reverse "n\nn\nn\nn\ny\nn\n\n".toList
      "demo".toList basicTemplate
      (fun f => decide (f = "db".toList ∨ f = "api".toList))
      (List.reverse_perm _) (by decide) (by decide)).1,
    by decide⟩

/-- C13 as stated fails: the written order and its reverse are both orders in
which `range` may visit the map of the basic template; on the same answer
lines (yes, then six times no) the run that visits it in reverse asks the
question for `assets` first and creates `demo/assets`, the other asks the
question for `api` first and creates `demo/api`. -/
theorem prepareFolders_order_counterexample :
    (List.reverse basicTemplate.OptionalFolders).Perm basicTemplate.OptionalFolders ∧
    ((prepareFolders CaseTables.ascii World.ok List.reverse "y\nn\nn\nn\nn\nn\nn\n".toList []
        "demo".toList basicTemplate).2.2.filter Effect.isPrompt).head? =
      some (Effect.Prompt "Добавить каталог для ассетов?".toList) ∧
    ((prepareFolders CaseTables.ascii World.ok (fun m => m) "y\nn\nn\nn\nn\nn\nn\n".toList []
        "demo".toList basicTemplate).2.2.filter Effect.isPrompt).head? =
      some (Effect.Prompt "Нужны ли API?".toList) ∧
    Effect.MkdirAll "demo/assets".toList 0o775 ∈
      (prepareFolders CaseTables.ascii World.ok List.reverse "y\nn\nn\nn\nn\nn\nn\n".toList []
        "demo".toList basicTemplate).2.2 ∧
    Effect.MkdirAll "demo/assets".toList 0o775 ∉
      (prepareFolders CaseTables.ascii World.ok (fun m => m) "y\nn\nn\nn\nn\nn\nn\n".toList []
        "demo".toList basicTemplate).2.2 ∧
    Effect.MkdirAll "demo/api".toList 0o775 ∈
      (prepareFolders CaseTables.ascii World.ok (fun m => m) "y\nn\nn\nn\nn\nn\nn\n".toList []
        "demo".toList basicTemplate).2.2 ∧
    Effect.MkdirAll "demo/api".toList 0o775 ∉
      (prepareFolders CaseTables.ascii World.ok List.reverse "y\nn\nn\nn\nn\nn\nn\n".toList []
        "demo".toList basicTemplate).2.2 :=
  ⟨List.reverse_perm _, by decide, by decide, by decide, by decide, by decide, by decide⟩

/-- C13 amended: the questions are asked in the order in which `range` visits
the map of optional folders, which is some permutation of the declared
entries and is not fixed by the language; absent failures every declared
question is asked exactly once, in that order; and two runs on the same
template whose iterations visit the map in the same order perform, on the
same answer lines and in the same world, the same effects with the same
result. -/
theorem prepareFolders_prompt_order (U : CaseTables)
    (rangeOrder : List (GoString × GoString) → List (GoString × GoString))
    (reader : Reader) (rootDir : GoString) (tpl : Template)
    (hperm : (rangeOrder tpl.OptionalFolders).Perm tpl.OptionalFolders)
    (hok : ∀ f ∈ tpl.MandatoryFolders ++ tpl.OptionalFolders.map Prod.fst,
      (ensureFolder World.ok [] rootDir f).1 = none) :
    (prepareFolders U World.ok rangeOrder reader [] rootDir tpl).2.2.filter Effect.isPrompt =
      (rangeOrder tpl.OptionalFolders).map (fun e => Effect.Prompt e.2) ∧
    ((prepareFolders U World.ok rangeOrder reader [] rootDir tpl).2.2.filter
        Effect.isPrompt).Perm
      (tpl.OptionalFolders.map (fun e => Effect.Prompt e.2)) ∧
    (∀ (rangeOrder' : List (GoString × GoString) → List (GoString × GoString))
        (W : World) (trace : List Effect),
      rangeOrder' tpl.OptionalFolders = rangeOrder tpl.OptionalFolders →
      prepareFolders U W rangeOrder' reader trace rootDir tpl =
        prepareFolders U W rangeOrder reader trace rootDir tpl) := by
  obtain ⟨_, _, _, h4⟩ := prepareFolders_ok U rangeOrder reader rootDir tpl
    (perm_keys_ok rootDir tpl _ hperm hok)
  refine ⟨h4, ?_, ?_⟩
  · rw [h4]
    exact hperm.map _
  · intro rangeOrder' W trace heq
    unfold prepareFolders
    rw [heq]

/-- Witness of C13 amended: the basic template under the root `demo`, visited
in the reverse of the written order. -/
theorem prepareFolders_prompt_order_witness :
    (prepareFolders CaseTables.ascii World.ok List.reverse "y\nn\nn\nn\nn\nn\nn\n".toList []
        "demo".toList basicTemplate).2.2.filter Effect.isPrompt =
      (List.reverse basicTemplate.OptionalFolders).map (fun e => Effect.Prompt e.2) :=
  (prepareFolders_prompt_order CaseTables.ascii List.reverse "y\nn\nn\nn\nn\nn\nn\n".toList
    "demo".toList basicTemplate (List.reverse_perm _) (by decide)).1

/-! ## Lemmas: `go mod init` is run last -/

theorem noInit_append (t : List Effect) (e : Effect) (ht : noInit t) (he : e.isInit = false) :
    noInit (t ++ [e]) := by
  intro x hx
  rcases List.mem_append.mp hx with hx | hx
  · exact ht x hx
  · have : x = e := by simpa using hx
    rw [this]
    exact he

theorem EnsureDir_noInit (W : World) (t : List Effect) (path : GoString) (ht : noInit t) :
    noInit (EnsureDir W t path).2 := by
  unfold EnsureDir
  split
  · exact ht
  · split <;> exact noInit_append t _ ht rfl

theorem WriteFileWithDirs_noInit (W : World) (t : List Effect) (path content : GoString)
    (ht : noInit t) : noInit (WriteFileWithDirs W t path content).2 := by
  have h := EnsureDir_noInit W t (Dir path) ht
  unfold WriteFileWithDirs
  cases hE : EnsureDir W t (Dir path) with
  | mk e t' =>
    rw [hE] at h
    cases e with
    | some err => exact h
    | none =>
      simp only
      split <;> exact noInit_append t' _ h rfl

theorem CreateGitKeep_noInit (W : World) (t : List Effect) (dir : GoString)
    (ht : noInit t) : noInit (CreateGitKeep W t dir).2 := by
  have h := EnsureDir_noInit W t dir ht
  unfold CreateGitKeep
  split
  · exact ht
  · cases hE : EnsureDir W t dir with
    | mk e t' =>
      rw [hE] at h
      cases e with
      | some err => exact h
      | none =>
        simp only
        split <;> exact noInit_append t' _ h rfl

theorem ensureFolder_noInit (W : World) (t : List Effect) (rootDir folder : GoString)
    (ht : noInit t) : noInit (ensureFolder W t rootDir folder).2 := by
  have h := EnsureDir_noInit W t (Join [rootDir, folder]) ht
  unfold ensureFolder
  cases hE : EnsureDir W t (Join [rootDir, folder]) with
  | mk e t' =>
    rw [hE] at h
    cases e with
    | some err => exact h
    | none =>
      simp only
      split
      · exact CreateGitKeep_noInit W t' _ h
      · exact h

theorem ensureFolders_noInit (W : World) (rootDir : GoString) :
    ∀ (folders : List GoString) (t : List Effect), noInit t →
      noInit (ensureFolders W rootDir folders t).2 := by
  intro folders
  induction folders with
  | nil => intro t ht; exact ht
  | cons f rest ih =>
    intro t ht
    have h := ensureFolder_noInit W t rootDir f ht
    unfold ensureFolders
    cases hE : ensureFolder W t rootDir f with
    | mk e t' =>
      rw [hE] at h
      cases e with
      | some err => exact h
      | none => exact ih t' h

theorem askOptional_noInit (U : CaseTables) (W : World) (rootDir : GoString) :
    ∀ (order : List (GoString × GoString)) (reader : Reader) (t : List Effect), noInit t →
      noInit (askOptional U W rootDir order reader t).2.2 := by
  intro order
  induction order with
  | nil => intro reader t ht; exact ht
  | cons e rest ih =>
    intro reader t ht
    obtain ⟨folder, question⟩ := e
    have hp : noInit (t ++ [Effect.Prompt question]) := noInit_append t _ ht rfl
    unfold askOptional
    split
    · have h := ensureFolder_noInit W _ rootDir folder hp
      cases hE : ensureFolder W (t ++ [Effect.Prompt question]) rootDir folder with
      | mk e' t' =>
        rw [hE] at h
        cases e' with
        | some err => exact h
        | none => exact ih _ t' h
    · exact ih _ _ hp

theorem prepareFolders_noInit (U : CaseTables) (W : World)
    (rangeOrder : List (GoString × GoString) → List (GoString × GoString))
    (reader : Reader) (t : List Effect) (rootDir : GoString) (tpl : Template)
    (ht : noInit t) : noInit (prepareFolders U W rangeOrder reader t rootDir tpl).2.2 := by
  have h := ensureFolders_noInit W rootDir tpl.MandatoryFolders t ht
  unfold prepareFolders
  cases hE : ensureFolders W rootDir tpl.MandatoryFolders t with
  | mk e t' =>
    rw [hE] at h
    cases e with
    | some err => exact h
    | none => exact askOptional_noInit U W rootDir _ reader t' h

theorem andThen_EndsInInit (W : World) (rootDir modulePath : GoString)
    (r : Option GoError × List Effect) (next : List Effect → Option GoError × List Effect)
    (hr : noInit r.2) (hnext : ∀ t, noInit t → EndsInInit W rootDir modulePath (next t)) :
    EndsInInit W rootDir modulePath (andThen r next) := by
  obtain ⟨e, t⟩ := r
  cases e with
  | some err => exact Or.inl hr
  | none => exact hnext t hr

theorem writeExtraFiles_EndsInInit (W : World) (rootDir root modulePath : GoString) :
    ∀ (files : List File) (t : List Effect)
      (next : List Effect → Option GoError × List Effect),
      noInit t → (∀ t', noInit t' → EndsInInit W root modulePath (next t')) →
      EndsInInit W root modulePath (andThen (writeExtraFiles W rootDir files t) next) := by
  intro files
  induction files with
  | nil =>
    intro t next ht hnext
    exact hnext t ht
  | cons f rest ih =>
    intro t next ht hnext
    have hw := WriteFileWithDirs_noInit W t (Join [rootDir, f.Path]) f.Content ht
    unfold writeExtraFiles
    cases hE : WriteFileWithDirs W t (Join [rootDir, f.Path]) f.Content with
    | mk e t' =>
      rw [hE] at hw
      cases e with
      | some err => exact Or.inl hw
      | none => exact ih t' next hw hnext

/-- The steps of `App.Run` after the folders end in `initGoModule`. -/
theorem steps_EndsInInit (W : World) (rootDir modulePath : GoString) (t1 : List Effect)
    (p1 c1 p2 c2 p3 c3 : GoString) (files : List File) (h1 : noInit t1) :
    EndsInInit W rootDir modulePath
      (andThen (WriteFileWithDirs W t1 p1 c1) fun t2 =>
        andThen (writeExtraFiles W rootDir files t2) fun t3 =>
        andThen (WriteFileWithDirs W t3 p2 c2) fun t4 =>
        andThen (WriteFileWithDirs W t4 p3 c3) fun t5 =>
        initGoModule W t5 rootDir modulePath) := by
  apply andThen_EndsInInit _ _ _ _ _ (WriteFileWithDirs_noInit W t1 _ _ h1)
  intro t2 ht2
  apply writeExtraFiles_EndsInInit _ _ _ _ _ _ _ ht2
  intro t3 ht3
  apply andThen_EndsInInit _ _ _ _ _ (WriteFileWithDirs_noInit W t3 _ _ ht3)
  intro t4 ht4
  apply andThen_EndsInInit _ _ _ _ _ (WriteFileWithDirs_noInit W t4 _ _ ht4)
  intro t5 ht5
  exact Or.inr ⟨t5, ht5, rfl⟩

/-- A run of the program either stops before `go mod init`, or ends with the
step `initGoModule`, performed after effects that hold no `go mod init`. -/
theorem Run_EndsInInit (U : CaseTables) (W : World)
    (rangeOrder : List (GoString × GoString) → List (GoString × GoString))
    (reader : Reader) (o : Outcome) (h : Run U W rangeOrder reader = some o) :
    noInit o.trace ∨ ∃ t rootDir modulePath, noInit t ∧
      (o.err, o.trace) = initGoModule W t rootDir modulePath := by
  have hnil : noInit [] := fun e he => by cases he
  unfold Run at h
  split at h
  · cases h
    exact Or.inl hnil
  · split at h
    · cases h
    · cases h
      exact Or.inl hnil
    · split at h
      · cases h
        exact Or.inl hnil
      · rename_i _ projectName r1 _ _ choice r2 _ _ tpl _
        simp only at h
        split at h
        · rename_i err t hE
          cases h
          have := EnsureDir_noInit W [] (Join [".".toList, projectName]) hnil
          rw [hE] at this
          exact Or.inl this
        · rename_i t0 hE
          have h0 := EnsureDir_noInit W [] (Join [".".toList, projectName]) hnil
          rw [hE] at h0
          split at h
          · rename_i err r5 t hP
            cases h
            have := prepareFolders_noInit U W rangeOrder (GithubHandle (Description r2).2).2 t0
              (Join [".".toList, projectName]) tpl h0
            rw [hP] at this
            exact Or.inl this
          · rename_i r5 t1 hP
            have h1 := prepareFolders_noInit U W rangeOrder (GithubHandle (Description r2).2).2
              t0 (Join [".".toList, projectName]) tpl h0
            rw [hP] at h1
            have ho := Option.some.inj h
            rw [← ho]
            dsimp only
            refine (steps_EndsInInit W _ _ t1 _ _ _ _ _ _ _ h1).elim (fun hk => Or.inl hk) ?_
            rintro ⟨t, ht, heq⟩
            exact Or.inr ⟨t, _, _, ht, by rw [heq]⟩

/-! ## Theorems: the module initialiser -/

/-- C18: `initGoModule` runs `go mod init` and returns nil when the command
succeeds and exactly `ErrGoModExists`, which carries nothing of the failure,
when the command fails, whatever the code of the failure; and a run of
`App.Run` whose last effect is a failed `go mod init` returns that error (a
successful one returns nil). With the name `demo`, the default template and
all optional folders declined, a failing initialiser makes `App.Run` return
`ErrGoModExists` whatever the code. -/
theorem initGoModule_collapses (W : World) (trace : List Effect)
    (rootDir modulePath : GoString) :
    (W trace (Effect.GoModInit rootDir modulePath) = none →
      initGoModule W trace rootDir modulePath =
        (none, trace ++ [Effect.GoModInit rootDir modulePath])) ∧
    (∀ code : Nat, W trace (Effect.GoModInit rootDir modulePath) = some code →
      initGoModule W trace rootDir modulePath =
        (some GoError.ErrGoModExists, trace ++ [Effect.GoModInit rootDir modulePath])) ∧
    (∀ (U : CaseTables)
        (rangeOrder : List (GoString × GoString) → List (GoString × GoString))
        (reader : Reader) (o : Outcome) (t : List Effect) (dir mp : GoString),
      Run U W rangeOrder reader = some o → o.trace = t ++ [Effect.GoModInit dir mp] →
      (W t (Effect.GoModInit dir mp) = none → o.err = none) ∧
      (∀ code : Nat, W t (Effect.GoModInit dir mp) = some code →
        o.err = some GoError.ErrGoModExists)) ∧
    (∀ code : Nat,
      (Run CaseTables.ascii (World.initFails code) (fun m => m)
        "demo\n\nd\nalice\nn\nn\nn\nn\nn\nn\nn\n".toList).map (fun o => o.err) =
          some (some GoError.ErrGoModExists)) := by
  refine ⟨?_, ?_, ?_, fun code => rfl⟩
  · intro h
    simp only [initGoModule, h]
  · intro code h
    simp only [initGoModule, h]
  · intro U rangeOrder reader o t dir mp hrun htrace
    rcases Run_EndsInInit U W rangeOrder reader o hrun with hno | ⟨t', root, mp', _, heq⟩
    · have hmem : Effect.GoModInit dir mp ∈ o.trace := by
        rw [htrace]
        simp
      have := hno _ hmem
      cases this
    · have htr : o.trace = t' ++ [Effect.GoModInit root mp'] := by
        have := congrArg Prod.snd heq
        simp only [initGoModule] at this
        split at this <;> exact this
      rw [htrace] at htr
      have hinj := List.append_inj' htr rfl
      have ht : t = t' := hinj.1
      have he : Effect.GoModInit dir mp = Effect.GoModInit root mp' := by
        simpa using hinj.2
      cases he
      subst ht
      have herr := congrArg Prod.fst heq
      simp only [initGoModule] at herr
      constructor
      · intro hW
        rw [hW] at herr
        exact herr
      · intro code hW
        rw [hW] at herr
        exact herr

/-! ## Lemmas on a run in the world without failures -/

theorem joinSep_plain_ne (as : List GoString) (hne : as ≠ []) (hp : PlainElems as) :
    joinSep as ≠ [] ∧ joinSep as ≠ ".".toList := by
  cases as with
  | nil => exact absurd rfl hne
  | cons e rest =>
    have he := hp e (List.mem_cons_self e rest)
    cases rest with
    | nil => exact ⟨he.1, he.2.2.1⟩
    | cons f fs =>
      refine ⟨joinSep_ne_nil e _ he.1, ?_⟩
      rw [joinSep_cons_cons]
      intro h
      have hl := congrArg List.length h
      simp only [List.length_append, List.length_cons] at hl
      have hpos : 0 < e.length := List.length_pos.mpr he.1
      have : ".".toList.length = 1 := rfl
      omega

theorem EnsureDir_ok_plain (t : List Effect) (as : List GoString) (hne : as ≠ [])
    (hp : PlainElems as) :
    EnsureDir World.ok t (joinSep as) =
      (none, t ++ [Effect.MkdirAll (joinSep as) DirPermission]) := by
  obtain ⟨h1, h2⟩ := joinSep_plain_ne as hne hp
  unfold EnsureDir
  simp only [h1, h2, or_self, if_false, World.ok]

/-- Without failures, writing a file under a path of plain elements ensures
the directory of the file and writes it. -/
theorem WriteFileWithDirs_ok_plain (t : List Effect) (as : List GoString) (last : GoString)
    (content : GoString) (hne : as ≠ []) (hp : PlainElems as) (hl : '/' ∉ last) :
    WriteFileWithDirs World.ok t (joinSep (as ++ [last])) content =
      (none, t ++ [Effect.MkdirAll (joinSep as) DirPermission,
        Effect.WriteFile (joinSep (as ++ [last])) content FilePermission]) := by
  unfold WriteFileWithDirs
  rw [Dir_plain as last hne hp hl, EnsureDir_ok_plain t as hne hp]
  simp only [World.ok, List.append_assoc, List.singleton_append]

/-- Without failures, ensuring a plain folder under a plain root makes the
directory and, unless the folder is `cmd`, makes it again and writes the
marker. -/
theorem ensureFolder_ok_plain (n f : GoString) (hn : PlainElems [n]) (hf : PlainElems [f]) :
    ensureFolder World.ok [] n f =
      (none,
        if shouldCreateGitkeep f then
          [Effect.MkdirAll (joinSep [n, f]) DirPermission,
            Effect.MkdirAll (joinSep [n, f]) DirPermission,
            Effect.WriteFile (joinSep [n, f, ".gitkeep".toList]) "keep this file plz\n".toList
              FilePermission]
        else [Effect.MkdirAll (joinSep [n, f]) DirPermission]) := by
  have hnf : PlainElems [n, f] := PlainElems_append [n] [f] hn hf
  have hj : Join [n, f] = joinSep [n, f] := Join_plain [n] [f] (by simp) (by simp) hn hf
  have hk : Join [joinSep [n, f], ".gitkeep".toList] = joinSep [n, f, ".gitkeep".toList] :=
    Join_plain [n, f] [".gitkeep".toList] (by simp) (by simp) hnf (by decide)
  have hne := (joinSep_plain_ne [n, f] (by simp) hnf).1
  unfold ensureFolder
  rw [hj, EnsureDir_ok_plain [] [n, f] (by simp) hnf]
  simp only [List.nil_append]
  by_cases h : shouldCreateGitkeep f = true
  · simp only [h, if_true]
    unfold CreateGitKeep
    rw [if_neg hne, EnsureDir_ok_plain _ [n, f] (by simp) hnf, hk]
    simp only [World.ok, List.cons_append, List.nil_append]
  · have h' : shouldCreateGitkeep f = false := by simpa using h
    simp only [h', Bool.false_eq_true, if_false]

/-- When every answer is no, the second loop only asks its questions. -/
theorem askOptional_declined (U : CaseTables) (W : World) (rootDir : GoString) :
    ∀ (order : List (GoString × GoString)) (reader : Reader) (t : List Effect),
      answers U order.length reader = List.replicate order.length false →
      askOptional U W rootDir order reader t =
        (none, afterAnswers U order.length reader,
          t ++ order.map (fun e => Effect.Prompt e.2)) := by
  intro order
  induction order with
  | nil => intro reader t _; simp [askOptional, afterAnswers]
  | cons e rest ih =>
    intro reader t h
    obtain ⟨folder, question⟩ := e
    simp only [List.length_cons, answers, List.replicate_succ, List.cons.injEq] at h
    have hq : Confirm U reader question = Confirm U reader [] := rfl
    unfold askOptional
    rw [hq]
    simp only [h.1, Bool.false_eq_true, if_false]
    rw [ih _ _ h.2]
    simp [afterAnswers]

theorem andThen_none (t : List Effect) (next : List Effect → Option GoError × List Effect) :
    andThen (none, t) next = next t := rfl

theorem moduleName_eq (h n : GoString) :
    Sprintf "github.com/%s/%s".toList [h, n] =
      "github.com/".toList ++ (h ++ ("/".toList ++ n)) := by
  simp [Sprintf]

theorem ProjectName_accepted (reader r1 : Reader) (n : GoString)
    (h : ProjectName reader = ((n, none), r1)) : projectNameRegexp n = true := by
  have h1 := ProjectName_name reader
  have h2 := ProjectName_err reader
  rw [h] at h1 h2
  simp only at h1 h2
  rw [← h1] at h2
  by_contra hc
  simp [hc] at h2

/-- The folders of the basic template under a plain root, without failures
and with every optional folder declined. -/
theorem prepareFolders_basic_declined (U : CaseTables)
    (rangeOrder : List (GoString × GoString) → List (GoString × GoString))
    (reader : Reader) (t : List Effect) (n : GoString) (hn : PlainElems [n])
    (hperm : (rangeOrder basicTemplate.OptionalFolders).Perm basicTemplate.OptionalFolders)
    (hdecl : answers U 7 reader = List.replicate 7 false) :
    prepareFolders U World.ok rangeOrder reader t n basicTemplate =
      (none, afterAnswers U 7 reader,
        t ++ ([Effect.MkdirAll (joinSep [n, "cmd".toList]) DirPermission,
          Effect.MkdirAll (joinSep [n, "pkg".toList]) DirPermission,
          Effect.MkdirAll (joinSep [n, "pkg".toList]) DirPermission,
          Effect.WriteFile (joinSep [n, "pkg".toList, ".gitkeep".toList])
            "keep this file plz\n".toList FilePermission,
          Effect.MkdirAll (joinSep [n, "docs".toList]) DirPermission,
          Effect.MkdirAll (joinSep [n, "docs".toList]) DirPermission,
          Effect.WriteFile (joinSep [n, "docs".toList, ".gitkeep".toList])
            "keep this file plz\n".toList FilePermission,
          Effect.MkdirAll (joinSep [n, "internal".toList]) DirPermission,
          Effect.MkdirAll (joinSep [n, "internal".toList]) DirPermission,
          Effect.WriteFile (joinSep [n, "internal".toList, ".gitkeep".toList])
            "keep this file plz\n".toList FilePermission,
          Effect.MkdirAll (joinSep [n, "examples".toList]) DirPermission,
          Effect.MkdirAll (joinSep [n, "examples".toList]) DirPermission,
          Effect.WriteFile (joinSep [n, "examples".toList, ".gitkeep".toList])
            "keep this file plz\n".toList FilePermission] ++
          (rangeOrder basicTemplate.OptionalFolders).map (fun e => Effect.Prompt e.2))) := by
  have hlen : (rangeOrder basicTemplate.OptionalFolders).length = 7 := hperm.length_eq
  have hmand : basicTemplate.MandatoryFolders =
      ["cmd".toList, "pkg".toList, "docs".toList, "internal".toList, "examples".toList] := rfl
  have hf : ∀ f ∈ basicTemplate.MandatoryFolders, PlainElems [f] := by
    rw [hmand]
    decide
  have hok : ∀ f ∈ basicTemplate.MandatoryFolders,
      (ensureFolder World.ok [] n f).1 = none := by
    intro f hfm
    rw [ensureFolder_ok_plain n f hn (hf f hfm)]
  have e1 := ensureFolder_ok_plain n "cmd".toList hn (by decide)
  have e2 := ensureFolder_ok_plain n "pkg".toList hn (by decide)
  have e3 := ensureFolder_ok_plain n "docs".toList hn (by decide)
  have e4 := ensureFolder_ok_plain n "internal".toList hn (by decide)
  have e5 := ensureFolder_ok_plain n "examples".toList hn (by decide)
  have g1 : shouldCreateGitkeep "cmd".toList = false := by decide
  have g2 : shouldCreateGitkeep "pkg".toList = true := by decide
  have g3 : shouldCreateGitkeep "docs".toList = true := by decide
  have g4 : shouldCreateGitkeep "internal".toList = true := by decide
  have g5 : shouldCreateGitkeep "examples".toList = true := by decide
  rw [g1] at e1
  rw [g2] at e2
  rw [g3] at e3
  rw [g4] at e4
  rw [g5] at e5
  unfold prepareFolders
  rw [ensureFolders_ok n basicTemplate.MandatoryFolders t hok]
  simp only
  have hd : answers U (rangeOrder basicTemplate.OptionalFolders).length reader =
      List.replicate (rangeOrder basicTemplate.OptionalFolders).length false := by
    rw [hlen]
    exact hdecl
  rw [askOptional_declined U World.ok n _ reader _ hd, hlen, hmand]
  simp only [List.map_cons, List.map_nil, List.flatten_cons, List.flatten_nil, e1, e2, e3, e4,
    e5, Bool.false_eq_true, if_false, if_true, List.append_assoc, List.cons_append,
    List.nil_append, List.append_nil]

/-! ## Theorems: a whole run with the basic template -/

/-- C17: with the basic template, an accepted name `n`, the description `d`
and the handle `h` read after it, every optional folder declined and no
failure, `App.Run` returns nil after exactly these effects, in this order:
the root `n` is made; `n/cmd` is made, with no marker; `n/pkg`, `n/docs`,
`n/internal`, `n/examples` are made, each followed by its `.gitkeep` (whose
writing makes the folder once more); the seven questions are asked; the
fixed hello-world program is written to `n/cmd/n.go`; no extra file is
written; `README.md`, which starts with `# n`, a line feed and `d`, and
`.gitignore`, with its constant body, are written (each write first makes
the directory of the file); and `go mod init` is run in `n` with the module
path `github.com/h/n`. -/
theorem Run_basic_declined (U : CaseTables)
    (rangeOrder : List (GoString × GoString) → List (GoString × GoString))
    (reader r1 r2 : Reader) (n : GoString)
    (hperm : (rangeOrder basicTemplate.OptionalFolders).Perm basicTemplate.OptionalFolders)
    (hname : ProjectName reader = ((n, none), r1))
    (htpl : chooseTemplate U r1 = some ((0, none), r2))
    (hdecl : answers U 7 (GithubHandle (Description r2).2).2 = List.replicate 7 false) :
    Run U World.ok rangeOrder reader = some
      { err := none
        reader := afterAnswers U 7 (GithubHandle (Description r2).2).2
        trace :=
          [Effect.MkdirAll n 0o775,
            Effect.MkdirAll (n ++ "/cmd".toList) 0o775,
            Effect.MkdirAll (n ++ "/pkg".toList) 0o775,
            Effect.MkdirAll (n ++ "/pkg".toList) 0o775,
            Effect.WriteFile (n ++ "/pkg/.gitkeep".toList) "keep this file plz\n".toList 0o644,
            Effect.MkdirAll (n ++ "/docs".toList) 0o775,
            Effect.MkdirAll (n ++ "/docs".toList) 0o775,
            Effect.WriteFile (n ++ "/docs/.gitkeep".toList) "keep this file plz\n".toList 0o644,
            Effect.MkdirAll (n ++ "/internal".toList) 0o775,
            Effect.MkdirAll (n ++ "/internal".toList) 0o775,
            Effect.WriteFile (n ++ "/internal/.gitkeep".toList)
              "keep this file plz\n".toList 0o644,
            Effect.MkdirAll (n ++ "/examples".toList) 0o775,
            Effect.MkdirAll (n ++ "/examples".toList) 0o775,
            Effect.WriteFile (n ++ "/examples/.gitkeep".toList)
              "keep this file plz\n".toList 0o644] ++
          ((rangeOrder basicTemplate.OptionalFolders).map (fun e => Effect.Prompt e.2) ++
          [Effect.MkdirAll (n ++ "/cmd".toList) 0o775,
            Effect.WriteFile (n ++ ("/cmd/".toList ++ (n ++ ".go".toList)))
              ("package main\n\nimport (\n\t\"fmt\"\n)\n\n" ++
                "func main() \x7b\n\tfmt.Println(\"Hello, World!\")\n\x7d\n").toList 0o644,
            Effect.MkdirAll n 0o775,
            Effect.WriteFile (n ++ "/README.md".toList)
              (basicTemplate.ReadmeContent n (Description r2).1
                (GithubHandle (Description r2).2).1) 0o644,
            Effect.MkdirAll n 0o775,
            Effect.WriteFile (n ++ "/.gitignore".toList) gitignoreContent 0o644,
            Effect.GoModInit n
              ("github.com/".toList ++
                ((GithubHandle (Description r2).2).1 ++ ("/".toList ++ n)))]) } ∧
    (∃ tail : GoString,
      basicTemplate.ReadmeContent n (Description r2).1 (GithubHandle (Description r2).2).1 =
        "# ".toList ++ (n ++ ("\n".toList ++ ((Description r2).1 ++ tail)))) := by
  have hacc := ProjectName_accepted reader r1 n hname
  have hp := accepted_plain n hacc
  have hroot : Join [".".toList, n] = n := Join_dot n hp.1
  have hE : EnsureDir World.ok [] n = (none, [Effect.MkdirAll n DirPermission]) :=
    EnsureDir_ok_plain [] [n] (by simp) hp.1
  have hidx : (if (0 : Int) < 0 then none else All[(0 : Int).toNat]?) = some basicTemplate := rfl
  have hncmd : PlainElems [n, "cmd".toList] := PlainElems_append [n] ["cmd".toList] hp.1 (by decide)
  have hgo : '/' ∉ n ++ ".go".toList := (hp.2 _ (List.mem_singleton.mpr rfl)).2.1
  have hmain : Join [n, basicTemplate.MainFileName n] =
      joinSep ([n, "cmd".toList] ++ [n ++ ".go".toList]) := by
    rw [MainFileName_accepted basicTemplate (by simp [All]) n hacc]
    exact Join_plain [n] ["cmd".toList, n ++ ".go".toList] (by simp) (by simp) hp.1
      (PlainElems_append ["cmd".toList] [n ++ ".go".toList] (by decide) hp.2)
  have hreadme : Join [n, "README.md".toList] = joinSep ([n] ++ ["README.md".toList]) :=
    Join_plain [n] ["README.md".toList] (by simp) (by simp) hp.1 (by decide)
  have hignore : Join [n, ".gitignore".toList] = joinSep ([n] ++ [".gitignore".toList]) :=
    Join_plain [n] [".gitignore".toList] (by simp) (by simp) hp.1 (by decide)
  have hW1 : ∀ t c, WriteFileWithDirs World.ok t (Join [n, basicTemplate.MainFileName n]) c =
      (none, t ++ [Effect.MkdirAll (joinSep [n, "cmd".toList]) DirPermission,
        Effect.WriteFile (joinSep ([n, "cmd".toList] ++ [n ++ ".go".toList])) c
          FilePermission]) := by
    intro t c
    rw [hmain]
    exact WriteFileWithDirs_ok_plain t [n, "cmd".toList] _ c (by simp) hncmd hgo
  have hW2 : ∀ t c, WriteFileWithDirs World.ok t (Join [n, "README.md".toList]) c =
      (none, t ++ [Effect.MkdirAll (joinSep [n]) DirPermission,
        Effect.WriteFile (joinSep ([n] ++ ["README.md".toList])) c FilePermission]) := by
    intro t c
    rw [hreadme]
    exact WriteFileWithDirs_ok_plain t [n] _ c (by simp) hp.1 (by decide)
  have hW3 : ∀ t c, WriteFileWithDirs World.ok t (Join [n, ".gitignore".toList]) c =
      (none, t ++ [Effect.MkdirAll (joinSep [n]) DirPermission,
        Effect.WriteFile (joinSep ([n] ++ [".gitignore".toList])) c FilePermission]) := by
    intro t c
    rw [hignore]
    exact WriteFileWithDirs_ok_plain t [n] _ c (by simp) hp.1 (by decide)
  have hX : ∀ t m, writeExtraFiles World.ok n (basicTemplate.ExtraFiles U n m) t = (none, t) :=
    fun _ _ => rfl
  have hI : ∀ t m, initGoModule World.ok t n m = (none, t ++ [Effect.GoModInit n m]) :=
    fun _ _ => rfl
  have hfold := prepareFolders_basic_declined U rangeOrder (GithubHandle (Description r2).2).2
    [Effect.MkdirAll n DirPermission] n hp.1 hperm hdecl
  constructor
  · unfold Run
    simp only [hname, htpl]
    rw [hidx]
    simp only [hroot, hE, hfold, hW1, hW2, hW3, hX, hI, andThen_none, moduleName_eq]
    simp only [List.append_assoc, List.cons_append, List.nil_append]
    rfl
  · exact ⟨_, by simp only [basicTemplate, List.append_assoc]; rfl⟩

set_option maxRecDepth 100000 in
/-- Witness of C17: the name `demo`, a blank template choice, the description
`d`, the handle `alice` and seven times `n`: the module path is
`github.com/alice/demo` and the README starts with `# demo`. -/
theorem Run_basic_declined_witness :
    (Run CaseTables.ascii World.ok (fun m => m)
        "demo\n\nd\nalice\nn\nn\nn\nn\nn\nn\nn\n".toList).map (fun o => (o.err, o.reader)) =
      some (none, []) ∧
    (Run CaseTables.ascii World.ok (fun m => m)
        "demo\n\nd\nalice\nn\nn\nn\nn\nn\nn\nn\n".toList).map
          (fun o => withoutPrompts o.trace) =
      some
        [Effect.MkdirAll "demo".toList 0o775,
          Effect.MkdirAll "demo/cmd".toList 0o775,
          Effect.MkdirAll "demo/pkg".toList 0o775,
          Effect.MkdirAll "demo/pkg".toList 0o775,
          Effect.WriteFile "demo/pkg/.gitkeep".toList "keep this file plz\n".toList 0o644,
          Effect.MkdirAll "demo/docs".toList 0o775,
          Effect.MkdirAll "demo/docs".toList 0o775,
          Effect.WriteFile "demo/docs/.gitkeep".toList "keep this file plz\n".toList 0o644,
          Effect.MkdirAll "demo/internal".toList 0o775,
          Effect.MkdirAll "demo/internal".toList 0o775,
          Effect.WriteFile "demo/internal/.gitkeep".toList "keep this file plz\n".toList 0o644,
          Effect.MkdirAll "demo/examples".toList 0o775,
          Effect.MkdirAll "demo/examples".toList 0o775,
          Effect.WriteFile "demo/examples/.gitkeep".toList "keep this file plz\n".toList 0o644,
          Effect.MkdirAll "demo/cmd".toList 0o775,
          Effect.WriteFile "demo/cmd/demo.go".toList
            ("package main\n\nimport (\n\t\"fmt\"\n)\n\n" ++
              "func main() \x7b\n\tfmt.Println(\"Hello, World!\")\n\x7d\n").toList 0o644,
          Effect.MkdirAll "demo".toList 0o775,
          Effect.WriteFile "demo/README.md".toList
            (basicTemplate.ReadmeContent "demo".toList "d".toList "alice".toList) 0o644,
          Effect.MkdirAll "demo".toList 0o775,
          Effect.WriteFile "demo/.gitignore".toList gitignoreContent 0o644,
          Effect.GoModInit "demo".toList "github.com/alice/demo".toList] ∧
    (basicTemplate.ReadmeContent "demo".toList "d".toList "alice".toList).take 8 =
      "# demo\nd".toList :=
  ⟨congrArg (Option.map (fun o => (o.err, o.reader)))
      (Run_basic_declined CaseTables.ascii (fun m => m)
        "demo\n\nd\nalice\nn\nn\nn\nn\nn\nn\nn\n".toList "\nd\nalice\nn\nn\nn\nn\nn\nn\nn\n".toList
        "d\nalice\nn\nn\nn\nn\nn\nn\nn\n".toList "demo".toList
        (List.Perm.refl _) (by decide) (by decide) (by decide)).1,
    by decide, by decide⟩


/-! ## Lemmas on the package name of an accepted project name -/

/-- Lower-casing a rune of the project-name class gives a lower-case letter,
a digit, a hyphen or an underscore, whatever the case tables. -/
theorem unicodeToLower_class (U : CaseTables) (r : Char) (hr : projectNameClass r = true) :
    (97 ≤ (unicodeToLower U r).toNat ∧ (unicodeToLower U r).toNat ≤ 122)
      ∨ (48 ≤ (unicodeToLower U r).toNat ∧ (unicodeToLower U r).toNat ≤ 57)
      ∨ (unicodeToLower U r).toNat = 45 ∨ (unicodeToLower U r).toNat = 95 := by
  have h := (projectNameClass_iff r).mp hr
  by_cases hu : 65 ≤ r.toNat ∧ r.toNat ≤ 90
  · rw [unicodeToLower_upper U r hu, toNat_ofNat_of_lt _ (by omega)]
    omega
  · rw [unicodeToLower_ascii_other U r (by omega) hu]
    omega

/-- The package name of an accepted project name is not empty and is made of
lower-case letters, digits and underscores. -/
theorem SanitizePackageName_accepted (U : CaseTables) (n : GoString)
    (hn : projectNameRegexp n = true) :
    SanitizePackageName U n ≠ [] ∧
    ∀ c ∈ SanitizePackageName U n,
      (97 ≤ c.toNat ∧ c.toNat ≤ 122) ∨ (48 ≤ c.toNat ∧ c.toNat ≤ 57) ∨ c.toNat = 95 := by
  obtain ⟨hne, hall⟩ := (projectNameRegexp_iff n).mp hn
  constructor
  · cases n with
    | nil => exact absurd rfl hne
    | cons r t =>
      have hc := unicodeToLower_class U r (hall r (List.mem_cons_self r t))
      have hs : unicodeToLower U r ≠ ' ' := by
        intro he
        have h32 : (unicodeToLower U r).toNat = 32 := by rw [he]; rfl
        omega
      show packageNameReplacer (unicodeToLower U r :: ToLower U t) ≠ []
      unfold packageNameReplacer
      by_cases h1 : unicodeToLower U r = '-'
      · simp [h1]
      · simp [h1, hs]
  · intro c hc
    obtain ⟨h1, _, h3⟩ := packageNameReplacer_mem (ToLower U n) c hc
    rcases h3 with h3 | h3
    · obtain ⟨r, hr, rfl⟩ := List.mem_map.mp (show c ∈ n.map (unicodeToLower U) from h3)
      have hcl := unicodeToLower_class U r (hall r hr)
      have h45 : (unicodeToLower U r).toNat ≠ 45 :=
        fun he => h1 ((char_eq_iff_toNat _ _).mpr he)
      omega
    · subst h3
      exact Or.inr (Or.inr rfl)

/-- The package name of an accepted project name is a plain path element. -/
theorem SanitizePackageName_plain (U : CaseTables) (n : GoString)
    (hn : projectNameRegexp n = true) : PlainElems [SanitizePackageName U n] := by
  obtain ⟨hne, hall⟩ := SanitizePackageName_accepted U n hn
  intro e he
  have : e = SanitizePackageName U n := by simpa using he
  subst this
  refine ⟨hne, ?_, ?_, ?_⟩
  · intro hm
    have := hall _ hm
    revert this
    decide
  · intro heq
    have := hall '.' (by rw [heq]; decide)
    revert this
    decide
  · intro heq
    have := hall '.' (by rw [heq]; decide)
    revert this
    decide

/-- Joining plain elements, however many, gives their path. -/
theorem Join_plain_list (es : List GoString) (hne : es ≠ []) (h : PlainElems es) :
    Join es = joinSep es := by
  cases es with
  | nil => exact absurd rfl hne
  | cons e rest =>
    have he : e ≠ [] := (h e (List.mem_cons_self e rest)).1
    unfold Join
    simp only [List.dropWhile_cons, he, decide_False, Bool.false_eq_true, if_false]
    exact Clean_plain (e :: rest) hne h

/-- The elements of the path of the component file are plain. -/
theorem componentPath_plain (U : CaseTables) (n : GoString)
    (hn : projectNameRegexp n = true) :
    PlainElems (["internal".toList, "components".toList] ++
      ([SanitizePackageName U n] ++ ["component.go".toList])) :=
  PlainElems_append _ _ (by decide)
    (PlainElems_append _ _ (SanitizePackageName_plain U n hn) (by decide))

/-- The paths of the extra files of the x07-component template, for an
accepted project name. -/
theorem x07ComponentTemplate_paths (U : CaseTables) (n m : GoString)
    (hn : projectNameRegexp n = true) :
    (x07ComponentTemplate.ExtraFiles U n m).map File.Path =
      [joinSep ["internal".toList, "components".toList, SanitizePackageName U n,
          "component.go".toList],
        joinSep ["internal".toList, "config".toList, "config.go".toList]] := by
  have h0 : (x07ComponentTemplate.ExtraFiles U n m).map File.Path =
      [Join ["internal".toList, "components".toList, SanitizePackageName U n,
          "component.go".toList],
        Join ["internal".toList, "config".toList, "config.go".toList]] := rfl
  have h1 : Join ["internal".toList, "components".toList, SanitizePackageName U n,
      "component.go".toList] =
      joinSep ["internal".toList, "components".toList, SanitizePackageName U n,
        "component.go".toList] :=
    Join_plain_list _ (by simp) (componentPath_plain U n hn)
  have h2 : Join ["internal".toList, "config".toList, "config.go".toList] =
      joinSep ["internal".toList, "config".toList, "config.go".toList] :=
    Join_plain_list _ (by simp) (by decide)
  rw [h0, h1, h2]

/-- A path of plain elements is relative, has no `..` element and, joined to
an accepted root directory, lies under it. -/
theorem plain_path_inside (root : GoString) (es : List GoString) (hroot : PlainElems [root])
    (hne : es ≠ []) (h : PlainElems es) :
    (joinSep es).head? ≠ some '/' ∧ "..".toList ∉ splitSep (joinSep es) ∧
    Join [root, joinSep es] = root ++ '/' :: joinSep es := by
  refine ⟨?_, ?_, ?_⟩
  · cases es with
    | nil => exact absurd rfl hne
    | cons e rest =>
      have he := h e (List.mem_cons_self e rest)
      rw [joinSep_head e rest he.1]
      cases e with
      | nil => exact absurd rfl he.1
      | cons c cs =>
        intro hc
        have : c = '/' := by simpa using hc
        exact he.2.1 (by rw [this]; exact List.mem_cons_self _ _)
  · rw [splitSep_joinSep es hne (fun e he => (h e he).2.1)]
    exact fun hm => (h _ hm).2.2.2 rfl
  · have hj := Join_plain [root] es (by simp) hne hroot h
    rw [joinSep_append [root] es (by simp) hne] at hj
    exact hj

/-! ## Theorems: the files of the x07-component template -/

set_option maxRecDepth 100000 in
/-- C21: the files of the x07-component template agree with each other. For
every accepted project name `n` and every module path `m`, with `p` the
package name `SanitizePackageName n`: the entry file is the text below; it
has the imports `context`, `log` and `m/internal/components/p`, and its `main`
calls `p.New()` (the `%v` of its `log.Fatalf` line has no operand left and
comes out of `fmt.Sprintf` as `%!v(MISSING)`); the extra files are
`internal/components/p/component.go` and `internal/config/config.go`; the
directory of the first is `internal/components/p`, the import path without the
module; its content begins with the line `package p`; and the path of every
extra file is relative, has no `..` element and, joined to the project root
`n`, lies under it. -/
theorem x07Component_files_consistent (U : CaseTables) (n m : GoString)
    (hn : projectNameRegexp n = true) :
    x07ComponentTemplate.MainFileContent U n m =
      ("package main\n" ++
        "\n" ++
        "import (\n" ++
        "        \"context\"\n" ++
        "        \"log\"\n" ++
        "\n" ++
        "        \"").toList ++
      (m ++ ("/internal/components/".toList ++ (SanitizePackageName U n ++
        (("\"\n" ++
          ")\n" ++
          "\n" ++
          "func main() \x7b\n" ++
          "        ctx := context.Background()\n" ++
          "\n" ++
          "        component := ").toList ++
        (SanitizePackageName U n ++
          (".New()\n" ++
            "        if err := component.Bootstrap(ctx); err != nil \x7b\n" ++
            "                log.Fatalf(\"component bootstrap failed: %!v(MISSING)\", err)\n" ++
            "        \x7d\n" ++
            "\n" ++
            "        log.Println(\"component is up and running\")\n" ++
            "\x7d\n").toList))))) ∧
    (x07ComponentTemplate.ExtraFiles U n m).map File.Path =
      ["internal/components/".toList ++ (SanitizePackageName U n ++ "/component.go".toList),
        "internal/config/config.go".toList] ∧
    (x07ComponentTemplate.ExtraFiles U n m).head?.map (fun f => Dir f.Path) =
      some ("internal/components/".toList ++ SanitizePackageName U n) ∧
    (∃ rest, (x07ComponentTemplate.ExtraFiles U n m).head?.map File.Content =
      some ("package ".toList ++ (SanitizePackageName U n ++ '\n' :: rest))) ∧
    ∀ f ∈ x07ComponentTemplate.ExtraFiles U n m,
      f.Path.head? ≠ some '/' ∧ "..".toList ∉ splitSep f.Path ∧
      Join [n, f.Path] = n ++ '/' :: f.Path := by
  have hpaths := x07ComponentTemplate_paths U n m hn
  have hplain := componentPath_plain U n hn
  refine ⟨rfl, ?_, ?_, ⟨_, rfl⟩, ?_⟩
  · rw [hpaths]
    rfl
  · have h0 : (x07ComponentTemplate.ExtraFiles U n m).head?.map (fun f => Dir f.Path) =
        ((x07ComponentTemplate.ExtraFiles U n m).map File.Path).head?.map Dir := rfl
    rw [h0, hpaths]
    have hd := Dir_plain ["internal".toList, "components".toList, SanitizePackageName U n]
      "component.go".toList (by simp)
      (PlainElems_append ["internal".toList, "components".toList] [SanitizePackageName U n]
        (by decide) (SanitizePackageName_plain U n hn))
      (by decide)
    show some (Dir (joinSep (["internal".toList, "components".toList,
      SanitizePackageName U n] ++ ["component.go".toList]))) = _
    rw [hd]
    rfl
  · intro f hf
    have hm : f.Path ∈ (x07ComponentTemplate.ExtraFiles U n m).map File.Path :=
      List.mem_map_of_mem File.Path hf
    rw [hpaths] at hm
    simp only [List.mem_cons, List.mem_singleton, List.not_mem_nil, or_false] at hm
    rcases hm with hm | hm <;> rw [hm]
    · exact plain_path_inside n _ (accepted_plain n hn).1 (by simp) hplain
    · exact plain_path_inside n ["internal".toList, "config".toList, "config.go".toList]
        (accepted_plain n hn).1 (by simp) (by decide)

set_option maxRecDepth 100000 in
/-- Witness of C21: the project `My-App` of the module
`github.com/alice/My-App`, whose package name is `my_app`. -/
theorem x07Component_files_consistent_witness :
    projectNameRegexp "My-App".toList = true ∧
    SanitizePackageName CaseTables.ascii "My-App".toList = "my_app".toList ∧
    (x07ComponentTemplate.MainFileContent CaseTables.ascii "My-App".toList
        "github.com/alice/My-App".toList).take 119 =
      ("package main\n" ++
        "\n" ++
        "import (\n" ++
        "        \"context\"\n" ++
        "        \"log\"\n" ++
        "\n" ++
        "        \"github.com/alice/My-App/internal/components/my_app\"\n" ++
        ")\n").toList ∧
    (x07ComponentTemplate.ExtraFiles CaseTables.ascii "My-App".toList
        "github.com/alice/My-App".toList).map File.Path =
      ["internal/components/my_app/component.go".toList,
        "internal/config/config.go".toList] :=
  ⟨by decide, by decide,
    by
      rw [(x07Component_files_consistent CaseTables.ascii "My-App".toList
        "github.com/alice/My-App".toList (by decide)).1]
      decide,
    (x07Component_files_consistent CaseTables.ascii "My-App".toList
      "github.com/alice/My-App".toList (by decide)).2.1.trans (by decide)⟩


/-! ## Lemmas: the steps of a run that returns nil -/

theorem andThen_success (r : Option GoError × List Effect)
    (next : List Effect → Option GoError × List Effect) (h : (andThen r next).1 = none) :
    r.1 = none ∧ andThen r next = next r.2 := by
  obtain ⟨e, t⟩ := r
  cases e with
  | some err => exact absurd h (by simp [andThen])
  | none => exact ⟨rfl, rfl⟩

theorem andThen_ok (r : Option GoError × List Effect)
    (next : List Effect → Option GoError × List Effect) (hr : r.1 = none)
    (hnext : ∀ t, (next t).1 = none) : (andThen r next).1 = none := by
  obtain ⟨e, t⟩ := r
  cases e with
  | some err => exact absurd hr (by simp)
  | none => exact hnext t

theorem EnsureDir_success (W : World) (t : List Effect) (path : GoString)
    (hp : path ≠ [] ∧ path ≠ ".".toList) (h : (EnsureDir W t path).1 = none) :
    W t (Effect.MkdirAll path DirPermission) = none ∧
    (EnsureDir W t path).2 = t ++ [Effect.MkdirAll path DirPermission] := by
  have hn : ¬ (path = [] ∨ path = ".".toList) := by
    rintro (h1 | h1)
    · exact hp.1 h1
    · exact hp.2 h1
  unfold EnsureDir at h ⊢
  simp only [hn, if_false] at h ⊢
  cases hW : W t (Effect.MkdirAll path DirPermission) with
  | some code =>
    rw [hW] at h
    exact absurd h (by simp)
  | none => exact ⟨rfl, rfl⟩

/-- A write that returns nil made the directory of the file and wrote the
file, and the world accepted both calls. -/
theorem WriteFileWithDirs_success (W : World) (t : List Effect) (path content : GoString)
    (hp : Dir path ≠ [] ∧ Dir path ≠ ".".toList)
    (h : (WriteFileWithDirs W t path content).1 = none) :
    W t (Effect.MkdirAll (Dir path) DirPermission) = none ∧
    W (t ++ [Effect.MkdirAll (Dir path) DirPermission])
      (Effect.WriteFile path content FilePermission) = none ∧
    (WriteFileWithDirs W t path content).2 =
      t ++ [Effect.MkdirAll (Dir path) DirPermission,
        Effect.WriteFile path content FilePermission] := by
  unfold WriteFileWithDirs at h ⊢
  cases hE : EnsureDir W t (Dir path) with
  | mk e t' =>
    rw [hE] at h
    cases e with
    | some err => exact absurd h (by simp)
    | none =>
      have hs := EnsureDir_success W t (Dir path) hp (by rw [hE])
      rw [hE] at hs
      obtain ⟨hw, ht'⟩ := hs
      simp only at ht'
      subst ht'
      simp only at h ⊢
      cases hW : W (t ++ [Effect.MkdirAll (Dir path) DirPermission])
          (Effect.WriteFile path content FilePermission) with
      | some code =>
        rw [hW] at h
        exact absurd h (by simp)
      | none => exact ⟨hw, rfl, by simp⟩

theorem EnsureDir_extends (W : World) (t : List Effect) (path : GoString) :
    ∃ s, (EnsureDir W t path).2 = t ++ s := by
  unfold EnsureDir
  split
  · exact ⟨[], by simp⟩
  · split <;> exact ⟨_, rfl⟩

theorem WriteFileWithDirs_extends (W : World) (t : List Effect) (path content : GoString) :
    ∃ s, (WriteFileWithDirs W t path content).2 = t ++ s := by
  obtain ⟨s, hs⟩ := EnsureDir_extends W t (Dir path)
  unfold WriteFileWithDirs
  cases hE : EnsureDir W t (Dir path) with
  | mk e t' =>
    rw [hE] at hs
    simp only at hs
    subst hs
    cases e with
    | some err => exact ⟨s, rfl⟩
    | none =>
      simp only
      split <;>
        exact ⟨s ++ [Effect.WriteFile path content FilePermission],
          by simp only [List.append_assoc]⟩

theorem andThen_extends (r : Option GoError × List Effect) (t : List Effect)
    (next : List Effect → Option GoError × List Effect) (hr : ∃ s, r.2 = t ++ s)
    (hnext : ∀ u, ∃ s, (next u).2 = u ++ s) : ∃ s, (andThen r next).2 = t ++ s := by
  obtain ⟨e, u⟩ := r
  obtain ⟨s, hs⟩ := hr
  simp only at hs
  subst hs
  cases e with
  | some err => exact ⟨s, rfl⟩
  | none =>
    obtain ⟨s', hs'⟩ := hnext (t ++ s)
    exact ⟨s ++ s', by rw [andThen_none, hs', List.append_assoc]⟩

theorem writeExtraFiles_extends (W : World) (rootDir : GoString) :
    ∀ (files : List File) (t : List Effect),
      ∃ s, (writeExtraFiles W rootDir files t).2 = t ++ s := by
  intro files
  induction files with
  | nil => intro t; exact ⟨[], by simp [writeExtraFiles]⟩
  | cons f rest ih =>
    intro t
    unfold writeExtraFiles
    exact andThen_extends _ t _ (WriteFileWithDirs_extends W t _ _) ih

theorem initGoModule_extends (W : World) (t : List Effect) (rootDir modulePath : GoString) :
    ∃ s, (initGoModule W t rootDir modulePath).2 = t ++ s := by
  unfold initGoModule
  split <;> exact ⟨_, rfl⟩

/-- The steps of `App.Run` after the entry file only add effects. -/
theorem steps_extends (W : World) (rootDir modulePath : GoString) (t2 : List Effect)
    (p2 c2 p3 c3 : GoString) (files : List File) :
    ∃ s,
      (andThen (writeExtraFiles W rootDir files t2) fun t3 =>
        andThen (WriteFileWithDirs W t3 p2 c2) fun t4 =>
        andThen (WriteFileWithDirs W t4 p3 c3) fun t5 =>
        initGoModule W t5 rootDir modulePath).2 = t2 ++ s := by
  apply andThen_extends _ t2 _ (writeExtraFiles_extends W rootDir files t2)
  intro t3
  apply andThen_extends _ t3 _ (WriteFileWithDirs_extends W t3 _ _)
  intro t4
  apply andThen_extends _ t4 _ (WriteFileWithDirs_extends W t4 _ _)
  intro t5
  exact initGoModule_extends W t5 rootDir modulePath

/-! ## Lemmas: no write to a given file -/

theorem noWriteTo_append (p : GoString) (t : List Effect) (e : Effect)
    (ht : noWriteTo p t) (he : e.writesTo p = false) : noWriteTo p (t ++ [e]) := by
  intro x hx
  rcases List.mem_append.mp hx with hx | hx
  · exact ht x hx
  · have : x = e := by simpa using hx
    rw [this]
    exact he

theorem writesTo_of_ne (p q c : GoString) (perm : Nat) (h : q ≠ p) :
    (Effect.WriteFile q c perm).writesTo p = false := by
  simp [Effect.writesTo, h]

theorem EnsureDir_noWriteTo (W : World) (t : List Effect) (path p : GoString)
    (ht : noWriteTo p t) : noWriteTo p (EnsureDir W t path).2 := by
  unfold EnsureDir
  split
  · exact ht
  · split <;> exact noWriteTo_append p t _ ht rfl

theorem WriteFileWithDirs_noWriteTo (W : World) (t : List Effect) (path content p : GoString)
    (hne : path ≠ p) (ht : noWriteTo p t) :
    noWriteTo p (WriteFileWithDirs W t path content).2 := by
  have h := EnsureDir_noWriteTo W t (Dir path) p ht
  unfold WriteFileWithDirs
  cases hE : EnsureDir W t (Dir path) with
  | mk e t' =>
    rw [hE] at h
    cases e with
    | some err => exact h
    | none =>
      simp only
      split <;> exact noWriteTo_append p t' _ h (writesTo_of_ne p path content _ hne)

theorem CreateGitKeep_noWriteTo (W : World) (t : List Effect) (dir p : GoString)
    (hne : Join [dir, ".gitkeep".toList] ≠ p) (ht : noWriteTo p t) :
    noWriteTo p (CreateGitKeep W t dir).2 := by
  have h := EnsureDir_noWriteTo W t dir p ht
  unfold CreateGitKeep
  split
  · exact ht
  · cases hE : EnsureDir W t dir with
    | mk e t' =>
      rw [hE] at h
      cases e with
      | some err => exact h
      | none =>
        simp only
        split <;> exact noWriteTo_append p t' _ h (writesTo_of_ne p _ _ _ hne)

theorem ensureFolder_noWriteTo (W : World) (t : List Effect) (rootDir folder p : GoString)
    (hne : shouldCreateGitkeep folder = true →
      Join [Join [rootDir, folder], ".gitkeep".toList] ≠ p)
    (ht : noWriteTo p t) : noWriteTo p (ensureFolder W t rootDir folder).2 := by
  have h := EnsureDir_noWriteTo W t (Join [rootDir, folder]) p ht
  unfold ensureFolder
  cases hE : EnsureDir W t (Join [rootDir, folder]) with
  | mk e t' =>
    rw [hE] at h
    cases e with
    | some err => exact h
    | none =>
      simp only
      split
      · rename_i hg
        exact CreateGitKeep_noWriteTo W t' _ p (hne hg) h
      · exact h

theorem ensureFolders_noWriteTo (W : World) (rootDir p : GoString) :
    ∀ (folders : List GoString) (t : List Effect),
      (∀ f ∈ folders, shouldCreateGitkeep f = true →
        Join [Join [rootDir, f], ".gitkeep".toList] ≠ p) →
      noWriteTo p t → noWriteTo p (ensureFolders W rootDir folders t).2 := by
  intro folders
  induction folders with
  | nil => intro t _ ht; exact ht
  | cons f rest ih =>
    intro t hne ht
    have h := ensureFolder_noWriteTo W t rootDir f p (hne f (List.mem_cons_self f rest)) ht
    unfold ensureFolders
    cases hE : ensureFolder W t rootDir f with
    | mk e t' =>
      rw [hE] at h
      cases e with
      | some err => exact h
      | none => exact ih t' (fun x hx => hne x (List.mem_cons_of_mem f hx)) h

theorem askOptional_noWriteTo (U : CaseTables) (W : World) (rootDir p : GoString) :
    ∀ (order : List (GoString × GoString)) (reader : Reader) (t : List Effect),
      (∀ e ∈ order, shouldCreateGitkeep e.1 = true →
        Join [Join [rootDir, e.1], ".gitkeep".toList] ≠ p) →
      noWriteTo p t → noWriteTo p (askOptional U W rootDir order reader t).2.2 := by
  intro order
  induction order with
  | nil => intro reader t _ ht; exact ht
  | cons e rest ih =>
    intro reader t hne ht
    have hrest : ∀ x ∈ rest, shouldCreateGitkeep x.1 = true →
        Join [Join [rootDir, x.1], ".gitkeep".toList] ≠ p :=
      fun x hx => hne x (List.mem_cons_of_mem e hx)
    have he := hne e (List.mem_cons_self e rest)
    obtain ⟨folder, question⟩ := e
    have hp : noWriteTo p (t ++ [Effect.Prompt question]) := noWriteTo_append p t _ ht rfl
    unfold askOptional
    split
    · have h := ensureFolder_noWriteTo W _ rootDir folder p he hp
      cases hE : ensureFolder W (t ++ [Effect.Prompt question]) rootDir folder with
      | mk e' t' =>
        rw [hE] at h
        cases e' with
        | some err => exact h
        | none => exact ih _ t' hrest h
    · exact ih _ _ hrest hp

theorem prepareFolders_noWriteTo (U : CaseTables) (W : World)
    (rangeOrder : List (GoString × GoString) → List (GoString × GoString))
    (reader : Reader) (t : List Effect) (rootDir p : GoString) (tpl : Template)
    (hne : ∀ f ∈ tpl.MandatoryFolders ++ (rangeOrder tpl.OptionalFolders).map Prod.fst,
      shouldCreateGitkeep f = true → Join [Join [rootDir, f], ".gitkeep".toList] ≠ p)
    (ht : noWriteTo p t) :
    noWriteTo p (prepareFolders U W rangeOrder reader t rootDir tpl).2.2 := by
  have h := ensureFolders_noWriteTo W rootDir p tpl.MandatoryFolders t
    (fun f hf => hne f (List.mem_append_left _ hf)) ht
  unfold prepareFolders
  cases hE : ensureFolders W rootDir tpl.MandatoryFolders t with
  | mk e t' =>
    rw [hE] at h
    cases e with
    | some err => exact h
    | none =>
      exact askOptional_noWriteTo U W rootDir p _ reader t'
        (fun e he => hne e.1 (List.mem_append_right _ (List.mem_map_of_mem Prod.fst he))) h

theorem andThen_noWriteTo (p : GoString) (r : Option GoError × List Effect)
    (next : List Effect → Option GoError × List Effect) (hr : noWriteTo p r.2)
    (hnext : ∀ t, noWriteTo p t → noWriteTo p (next t).2) :
    noWriteTo p (andThen r next).2 := by
  obtain ⟨e, t⟩ := r
  cases e with
  | some err => exact hr
  | none => exact hnext t hr

theorem writeExtraFiles_noWriteTo (W : World) (rootDir p : GoString) :
    ∀ (files : List File) (t : List Effect),
      (∀ f ∈ files, Join [rootDir, f.Path] ≠ p) →
      noWriteTo p t → noWriteTo p (writeExtraFiles W rootDir files t).2 := by
  intro files
  induction files with
  | nil => intro t _ ht; exact ht
  | cons f rest ih =>
    intro t hne ht
    unfold writeExtraFiles
    exact andThen_noWriteTo p _ _
      (WriteFileWithDirs_noWriteTo W t _ _ p (hne f (List.mem_cons_self f rest)) ht)
      (fun u hu => ih u (fun x hx => hne x (List.mem_cons_of_mem f hx)) hu)

theorem initGoModule_noWriteTo (W : World) (t : List Effect) (rootDir modulePath p : GoString)
    (ht : noWriteTo p t) : noWriteTo p (initGoModule W t rootDir modulePath).2 := by
  unfold initGoModule
  split <;> exact noWriteTo_append p t _ ht rfl

/-- The steps of `App.Run` after the folders write no file but those they are
given. -/
theorem steps_noWriteTo (W : World) (rootDir modulePath p : GoString) (t1 : List Effect)
    (p1 c1 p2 c2 p3 c3 : GoString) (files : List File) (h1 : noWriteTo p t1)
    (hp1 : p1 ≠ p) (hfiles : ∀ f ∈ files, Join [rootDir, f.Path] ≠ p)
    (hp2 : p2 ≠ p) (hp3 : p3 ≠ p) :
    noWriteTo p
      (andThen (WriteFileWithDirs W t1 p1 c1) fun t2 =>
        andThen (writeExtraFiles W rootDir files t2) fun t3 =>
        andThen (WriteFileWithDirs W t3 p2 c2) fun t4 =>
        andThen (WriteFileWithDirs W t4 p3 c3) fun t5 =>
        initGoModule W t5 rootDir modulePath).2 := by
  apply andThen_noWriteTo p _ _ (WriteFileWithDirs_noWriteTo W t1 _ _ p hp1 h1)
  intro t2 ht2
  apply andThen_noWriteTo p _ _ (writeExtraFiles_noWriteTo W rootDir p files t2 hfiles ht2)
  intro t3 ht3
  apply andThen_noWriteTo p _ _ (WriteFileWithDirs_noWriteTo W t3 _ _ p hp2 ht3)
  intro t4 ht4
  apply andThen_noWriteTo p _ _ (WriteFileWithDirs_noWriteTo W t4 _ _ p hp3 ht4)
  intro t5 ht5
  exact initGoModule_noWriteTo W t5 rootDir modulePath p ht5

/-! ## Lemmas: the paths written under the root -/

/-- Paths of plain elements are equal only if their elements are. -/
theorem joinSep_plain_inj (as bs : List GoString) (ha : as ≠ []) (hb : bs ≠ [])
    (hpa : PlainElems as) (hpb : PlainElems bs) (h : joinSep as = joinSep bs) : as = bs := by
  have h1 := splitSep_joinSep as ha (fun e he => (hpa e he).2.1)
  have h2 := splitSep_joinSep bs hb (fun e he => (hpb e he).2.1)
  rw [← h1, ← h2, h]

/-- A path of plain elements joined to a plain root is the path of the root
followed by the elements. -/
theorem Join_root (n : GoString) (es : List GoString) (hn : PlainElems [n]) (hes : es ≠ [])
    (hpe : PlainElems es) : Join [n, joinSep es] = joinSep (n :: es) :=
  Join_plain [n] es (by simp) hes hn hpe

theorem Join_root_ne (n : GoString) (es bs : List GoString) (hn : PlainElems [n])
    (hes : es ≠ []) (hpe : PlainElems es) (hpb : PlainElems bs) (hne : es ≠ bs) :
    Join [n, joinSep es] ≠ joinSep (n :: bs) := by
  rw [Join_root n es hn hes hpe]
  intro h
  have := joinSep_plain_inj (n :: es) (n :: bs) (by simp) (by simp)
    (PlainElems_append [n] es hn hpe) (PlainElems_append [n] bs hn hpb) h
  exact hne (List.cons.inj this).2

/-- The marker of a folder other than `cmd` is not the marker of `cmd`. -/
theorem marker_path_ne (n : GoString) (es : List GoString) (hn : PlainElems [n])
    (hes : es ≠ []) (hpe : PlainElems es) (hcmd : es ≠ ["cmd".toList]) :
    Join [Join [n, joinSep es], ".gitkeep".toList] ≠
      joinSep [n, "cmd".toList, ".gitkeep".toList] := by
  rw [Join_root n es hn hes hpe]
  have hj : Join [joinSep (n :: es), ".gitkeep".toList] =
      joinSep ((n :: es) ++ [".gitkeep".toList]) :=
    Join_plain (n :: es) [".gitkeep".toList] (by simp) (by simp)
      (PlainElems_append [n] es hn hpe) (by decide)
  rw [hj]
  intro h
  have := joinSep_plain_inj ((n :: es) ++ [".gitkeep".toList])
    [n, "cmd".toList, ".gitkeep".toList] (by simp) (by simp)
    (PlainElems_append (n :: es) [".gitkeep".toList] (PlainElems_append [n] es hn hpe)
      (by decide))
    (PlainElems_append [n] ["cmd".toList, ".gitkeep".toList] hn (by decide)) h
  have h2 : es ++ [".gitkeep".toList] = ["cmd".toList] ++ [".gitkeep".toList] :=
    (List.cons.inj this).2
  exact hcmd (List.append_cancel_right h2)

/-- The folders of the catalog are paths of plain elements, and `cmd` is the
only one of them that gets no marker. -/
theorem catalog_folders (t : Template) (ht : t ∈ All) :
    ∀ f ∈ t.MandatoryFolders ++ t.OptionalFolders.map Prod.fst,
      splitSep f ≠ [] ∧ PlainElems (splitSep f) ∧ joinSep (splitSep f) = f ∧
      (shouldCreateGitkeep f = false ↔ f = "cmd".toList) := by
  simp only [All, List.mem_cons, List.mem_singleton, List.not_mem_nil, or_false] at ht
  rcases ht with rfl | rfl | rfl <;> decide

/-- No folder of the catalog has its marker at the place of a marker of
`cmd`. -/
theorem catalog_marker_ne (t : Template) (ht : t ∈ All) (n : GoString)
    (hn : PlainElems [n])
    (order : List (GoString × GoString)) (hperm : order.Perm t.OptionalFolders) :
    ∀ f ∈ t.MandatoryFolders ++ order.map Prod.fst, shouldCreateGitkeep f = true →
      Join [Join [n, f], ".gitkeep".toList] ≠
        joinSep [n, "cmd".toList, ".gitkeep".toList] := by
  intro f hf hg
  have hf' : f ∈ t.MandatoryFolders ++ t.OptionalFolders.map Prod.fst := by
    rcases List.mem_append.mp hf with hf | hf
    · exact List.mem_append_left _ hf
    · exact List.mem_append_right _ ((hperm.map Prod.fst).mem_iff.mp hf)
  obtain ⟨h1, h2, h3, h4⟩ := catalog_folders t ht f hf'
  have hcmd : splitSep f ≠ ["cmd".toList] := by
    intro he
    rw [he] at h3
    have hfc : f = "cmd".toList := h3.symm
    have := h4.mpr hfc
    rw [hg] at this
    exact Bool.noConfusion this
  have := marker_path_ne n (splitSep f) hn h1 h2 hcmd
  rw [h3] at this
  exact this

/-- The extra files of the catalog, for an accepted project name, have paths
of plain elements that do not start in `cmd`. -/
theorem catalog_extra_paths (U : CaseTables) (t : Template) (ht : t ∈ All) (n m : GoString)
    (hn : projectNameRegexp n = true) :
    ∀ file ∈ t.ExtraFiles U n m, ∃ es : List GoString,
      es ≠ [] ∧ PlainElems es ∧ file.Path = joinSep es ∧ es.head? ≠ some "cmd".toList := by
  intro file hf
  have hm : file.Path ∈ (t.ExtraFiles U n m).map File.Path := List.mem_map_of_mem File.Path hf
  simp only [All, List.mem_cons, List.mem_singleton, List.not_mem_nil, or_false] at ht
  rcases ht with rfl | rfl | rfl
  · exact absurd hf (List.not_mem_nil file)
  · rw [x07ComponentTemplate_paths U n m hn] at hm
    simp only [List.mem_cons, List.mem_singleton, List.not_mem_nil, or_false] at hm
    rcases hm with hm | hm
    · exact ⟨_, by simp, componentPath_plain U n hn, hm,
        show some "internal".toList ≠ some "cmd".toList by decide⟩
    · exact ⟨_, by simp, by decide, hm, by decide⟩
  · have h0 : (threeXfaTemplate.ExtraFiles U n m).map File.Path =
        [joinSep ["plugins".toList, "3xfa".toList, "plugin.go".toList],
          joinSep ["internal".toList, "adapters".toList, "registry.go".toList]] := by
      have h1 : (threeXfaTemplate.ExtraFiles U n m).map File.Path =
          [Join ["plugins".toList, "3xfa".toList, "plugin.go".toList],
            Join ["internal".toList, "adapters".toList, "registry.go".toList]] := rfl
      rw [h1, Join_plain_list ["plugins".toList, "3xfa".toList, "plugin.go".toList] (by simp)
        (by decide),
        Join_plain_list ["internal".toList, "adapters".toList, "registry.go".toList]
          (by simp) (by decide)]
    rw [h0] at hm
    simp only [List.mem_cons, List.mem_singleton, List.not_mem_nil, or_false] at hm
    rcases hm with hm | hm
    · exact ⟨_, by simp, by decide, hm, by decide⟩
    · exact ⟨_, by simp, by decide, hm, by decide⟩

/-- No extra file of the catalog is written at the place of a marker of
`cmd`. -/
theorem catalog_extra_ne (U : CaseTables) (t : Template) (ht : t ∈ All) (n m : GoString)
    (hn : projectNameRegexp n = true) :
    ∀ file ∈ t.ExtraFiles U n m,
      Join [n, file.Path] ≠ joinSep [n, "cmd".toList, ".gitkeep".toList] := by
  intro file hf
  obtain ⟨es, hes, hpe, hpath, hhead⟩ := catalog_extra_paths U t ht n m hn file hf
  rw [hpath]
  apply Join_root_ne n es ["cmd".toList, ".gitkeep".toList] (accepted_plain n hn).1 hes hpe
    (by decide)
  intro he
  rw [he] at hhead
  exact hhead rfl

/-! ## Lemmas: a run in the world without failures returns nil -/

theorem Clean_ne_nil (path : GoString) : Clean path ≠ [] := by
  have key : ∀ out : GoString, (if out = [] then ".".toList else out) ≠ [] := by
    intro out
    split
    · decide
    · assumption
  exact key _

theorem Join_ne_nil (e : GoString) (rest : List GoString) (he : e ≠ []) :
    Join (e :: rest) ≠ [] := by
  unfold Join
  simp only [List.dropWhile_cons, he, decide_False, Bool.false_eq_true, if_false]
  exact Clean_ne_nil _

theorem WriteFileWithDirs_ok_nil (t : List Effect) (path content : GoString) :
    (WriteFileWithDirs World.ok t path content).1 = none := by
  unfold WriteFileWithDirs
  rw [EnsureDir_ok t (Dir path)]
  rfl

theorem writeExtraFiles_ok_nil (rootDir : GoString) :
    ∀ (files : List File) (t : List Effect),
      (writeExtraFiles World.ok rootDir files t).1 = none := by
  intro files
  induction files with
  | nil => intro t; rfl
  | cons f rest ih =>
    intro t
    unfold writeExtraFiles
    exact andThen_ok _ _ (WriteFileWithDirs_ok_nil t _ _) ih

theorem ensureFolder_ok_nil (rootDir folder : GoString) (hroot : rootDir ≠ []) :
    (ensureFolder World.ok [] rootDir folder).1 = none := by
  unfold ensureFolder
  rw [EnsureDir_ok []]
  simp only
  split
  · rw [CreateGitKeep_ok, CreateGitKeep_ok_effects _ (Join_ne_nil rootDir [folder] hroot)]
  · rfl

theorem prepareFolders_ok_nil (U : CaseTables)
    (rangeOrder : List (GoString × GoString) → List (GoString × GoString))
    (reader : Reader) (t : List Effect) (rootDir : GoString) (tpl : Template)
    (hroot : rootDir ≠ []) :
    (prepareFolders U World.ok rangeOrder reader t rootDir tpl).1 = none := by
  unfold prepareFolders
  rw [ensureFolders_ok rootDir tpl.MandatoryFolders t
    (fun f _ => ensureFolder_ok_nil rootDir f hroot)]
  exact (askOptional_ok U rootDir _ reader _
    (fun e _ => ensureFolder_ok_nil rootDir e.1 hroot)).1

/-- The steps of `App.Run` after the folders return nil when nothing fails. -/
theorem steps_ok_nil (rootDir modulePath : GoString) (t1 : List Effect)
    (p1 c1 p2 c2 p3 c3 : GoString) (files : List File) :
    (andThen (WriteFileWithDirs World.ok t1 p1 c1) fun t2 =>
      andThen (writeExtraFiles World.ok rootDir files t2) fun t3 =>
      andThen (WriteFileWithDirs World.ok t3 p2 c2) fun t4 =>
      andThen (WriteFileWithDirs World.ok t4 p3 c3) fun t5 =>
      initGoModule World.ok t5 rootDir modulePath).1 = none := by
  apply andThen_ok _ _ (WriteFileWithDirs_ok_nil t1 _ _)
  intro t2
  apply andThen_ok _ _ (writeExtraFiles_ok_nil rootDir files t2)
  intro t3
  apply andThen_ok _ _ (WriteFileWithDirs_ok_nil t3 _ _)
  intro t4
  apply andThen_ok _ _ (WriteFileWithDirs_ok_nil t4 _ _)
  intro t5
  rfl

/-! ## Lemmas: the entry file in a run -/

/-- A run that returns nil after an accepted name and the choice of a template
made the root, prepared the folders and went through the steps that follow. -/
theorem Run_success_steps (U : CaseTables) (W : World)
    (rangeOrder : List (GoString × GoString) → List (GoString × GoString))
    (reader r1 r2 : Reader) (n : GoString) (choice : Int) (tpl : Template) (o : Outcome)
    (hname : ProjectName reader = ((n, none), r1))
    (htpl : chooseTemplate U r1 = some ((choice, none), r2))
    (hidx : (if choice < 0 then none else All[choice.toNat]?) = some tpl)
    (hrun : Run U W rangeOrder reader = some o) (herr : o.err = none) :
    ∃ t0 r5 t1,
      EnsureDir W [] n = (none, t0) ∧
      prepareFolders U W rangeOrder (GithubHandle (Description r2).2).2 t0 n tpl =
        (none, r5, t1) ∧
      (o.err, o.trace) =
        (andThen (WriteFileWithDirs W t1 (Join [n, tpl.MainFileName n])
          (tpl.MainFileContent U n
            (Sprintf "github.com/%s/%s".toList [(GithubHandle (Description r2).2).1, n])))
          fun t2 =>
        andThen (writeExtraFiles W n
          (tpl.ExtraFiles U n
            (Sprintf "github.com/%s/%s".toList [(GithubHandle (Description r2).2).1, n]))
          t2) fun t3 =>
        andThen (WriteFileWithDirs W t3 (Join [n, "README.md".toList])
          (tpl.ReadmeContent n (Description r2).1 (GithubHandle (Description r2).2).1))
          fun t4 =>
        andThen (WriteFileWithDirs W t4 (Join [n, ".gitignore".toList]) gitignoreContent)
          fun t5 =>
        initGoModule W t5 n
          (Sprintf "github.com/%s/%s".toList [(GithubHandle (Description r2).2).1, n])) := by
  have hacc := ProjectName_accepted reader r1 n hname
  have hroot : Join [".".toList, n] = n := Join_dot n (accepted_plain n hacc).1
  unfold Run at hrun
  simp only [hname, htpl] at hrun
  rw [hidx] at hrun
  simp only [hroot] at hrun
  cases hE : EnsureDir W [] n with
  | mk e0 t0 =>
    rw [hE] at hrun
    cases e0 with
    | some err =>
      simp only at hrun
      have ho := Option.some.inj hrun
      rw [← ho] at herr
      exact absurd herr (by simp)
    | none =>
      simp only at hrun
      cases hP : prepareFolders U W rangeOrder (GithubHandle (Description r2).2).2 t0 n tpl with
      | mk e1 rest =>
        obtain ⟨r5, t1⟩ := rest
        rw [hP] at hrun
        cases e1 with
        | some err =>
          simp only at hrun
          have ho := Option.some.inj hrun
          rw [← ho] at herr
          exact absurd herr (by simp)
        | none =>
          simp only at hrun
          have ho := Option.some.inj hrun
          rw [← ho]
          exact ⟨t0, r5, t1, rfl, hP, rfl⟩

/-- The entry file under the root, and its directory. -/
theorem entry_path (t : Template) (ht : t ∈ All) (n : GoString)
    (hn : projectNameRegexp n = true) :
    Join [n, t.MainFileName n] = joinSep [n, "cmd".toList, n ++ ".go".toList] ∧
    Dir (Join [n, t.MainFileName n]) = joinSep [n, "cmd".toList] ∧
    joinSep [n, "cmd".toList] ≠ [] ∧ joinSep [n, "cmd".toList] ≠ ".".toList := by
  have hp := accepted_plain n hn
  have hncmd : PlainElems [n, "cmd".toList] :=
    PlainElems_append [n] ["cmd".toList] hp.1 (by decide)
  have hmain : Join [n, t.MainFileName n] = joinSep [n, "cmd".toList, n ++ ".go".toList] := by
    rw [MainFileName_accepted t ht n hn]
    exact Join_root n ["cmd".toList, n ++ ".go".toList] hp.1 (by simp)
      (PlainElems_append ["cmd".toList] [n ++ ".go".toList] (by decide) hp.2)
  refine ⟨hmain, ?_, (joinSep_plain_ne [n, "cmd".toList] (by simp) hncmd).1,
    (joinSep_plain_ne [n, "cmd".toList] (by simp) hncmd).2⟩
  rw [hmain]
  exact Dir_plain [n, "cmd".toList] (n ++ ".go".toList) (by simp) hncmd
    (hp.2 _ (List.mem_singleton.mpr rfl)).2.1

/-- In a run that returns nil the directory `cmd` of the project is made and
the entry file is written into it, both calls accepted by the world. -/
theorem Run_writes_entry (U : CaseTables) (W : World)
    (rangeOrder : List (GoString × GoString) → List (GoString × GoString))
    (reader r1 r2 : Reader) (n : GoString) (choice : Int) (tpl : Template) (o : Outcome)
    (ht : tpl ∈ All)
    (hname : ProjectName reader = ((n, none), r1))
    (htpl : chooseTemplate U r1 = some ((choice, none), r2))
    (hidx : (if choice < 0 then none else All[choice.toNat]?) = some tpl)
    (hrun : Run U W rangeOrder reader = some o) (herr : o.err = none) :
    ∃ before after : List Effect,
      o.trace = before ++
        [Effect.MkdirAll (joinSep [n, "cmd".toList]) DirPermission,
          Effect.WriteFile (joinSep [n, "cmd".toList, n ++ ".go".toList])
            (tpl.MainFileContent U n
              (Sprintf "github.com/%s/%s".toList [(GithubHandle (Description r2).2).1, n]))
            FilePermission] ++ after ∧
      W before (Effect.MkdirAll (joinSep [n, "cmd".toList]) DirPermission) = none ∧
      W (before ++ [Effect.MkdirAll (joinSep [n, "cmd".toList]) DirPermission])
        (Effect.WriteFile (joinSep [n, "cmd".toList, n ++ ".go".toList])
          (tpl.MainFileContent U n
            (Sprintf "github.com/%s/%s".toList [(GithubHandle (Description r2).2).1, n]))
          FilePermission) = none := by
  have hacc := ProjectName_accepted reader r1 n hname
  obtain ⟨hmain, hdir, hd1, hd2⟩ := entry_path tpl ht n hacc
  obtain ⟨t0, r5, t1, _, _, hres⟩ :=
    Run_success_steps U W rangeOrder reader r1 r2 n choice tpl o hname htpl hidx hrun herr
  have h1 : o.err = _ := congrArg Prod.fst hres
  have h2 : o.trace = _ := congrArg Prod.snd hres
  rw [herr] at h1
  obtain ⟨hw, hnext⟩ := andThen_success _ _ h1.symm
  have hd : Dir (Join [n, tpl.MainFileName n]) ≠ [] ∧
      Dir (Join [n, tpl.MainFileName n]) ≠ ".".toList := by
    rw [hdir]
    exact ⟨hd1, hd2⟩
  obtain ⟨ha, hb, hc⟩ := WriteFileWithDirs_success W t1 _ _ hd hw
  rw [hnext, hc] at h2
  obtain ⟨s, hs⟩ := steps_extends W n
    (Sprintf "github.com/%s/%s".toList [(GithubHandle (Description r2).2).1, n])
    (t1 ++ [Effect.MkdirAll (Dir (Join [n, tpl.MainFileName n])) DirPermission,
      Effect.WriteFile (Join [n, tpl.MainFileName n])
        (tpl.MainFileContent U n
          (Sprintf "github.com/%s/%s".toList [(GithubHandle (Description r2).2).1, n]))
        FilePermission])
    (Join [n, "README.md".toList])
    (tpl.ReadmeContent n (Description r2).1 (GithubHandle (Description r2).2).1)
    (Join [n, ".gitignore".toList]) gitignoreContent
    (tpl.ExtraFiles U n
      (Sprintf "github.com/%s/%s".toList [(GithubHandle (Description r2).2).1, n]))
  rw [hs] at h2
  rw [hdir] at h2 ha hb
  rw [hmain] at h2 hb
  exact ⟨t1, s, h2, ha, hb⟩

/-- In a run over the folders of the template no marker is written into the
directory `cmd` of the project. -/
theorem Run_no_cmd_marker (U : CaseTables) (W : World)
    (rangeOrder : List (GoString × GoString) → List (GoString × GoString))
    (reader r1 r2 : Reader) (n : GoString) (choice : Int) (tpl : Template) (o : Outcome)
    (ht : tpl ∈ All)
    (hname : ProjectName reader = ((n, none), r1))
    (htpl : chooseTemplate U r1 = some ((choice, none), r2))
    (hidx : (if choice < 0 then none else All[choice.toNat]?) = some tpl)
    (hrun : Run U W rangeOrder reader = some o) (herr : o.err = none)
    (hperm : (rangeOrder tpl.OptionalFolders).Perm tpl.OptionalFolders) :
    noWriteTo (joinSep [n, "cmd".toList, ".gitkeep".toList]) o.trace := by
  have hacc := ProjectName_accepted reader r1 n hname
  have hp := accepted_plain n hacc
  obtain ⟨hmain, _, _, _⟩ := entry_path tpl ht n hacc
  obtain ⟨t0, r5, t1, hE, hP, hres⟩ :=
    Run_success_steps U W rangeOrder reader r1 r2 n choice tpl o hname htpl hidx hrun herr
  have h2 : o.trace = _ := congrArg Prod.snd hres
  have hnil : noWriteTo (joinSep [n, "cmd".toList, ".gitkeep".toList]) [] :=
    fun e he => by cases he
  have h0 := EnsureDir_noWriteTo W [] n _ hnil
  rw [hE] at h0
  have h1 := prepareFolders_noWriteTo U W rangeOrder (GithubHandle (Description r2).2).2 t0 n
    _ tpl (catalog_marker_ne tpl ht n hp.1 _ hperm) h0
  rw [hP] at h1
  rw [h2]
  apply steps_noWriteTo W n _ _ t1 _ _ _ _ _ _ _ h1
  · rw [hmain]
    intro h
    have hl := joinSep_plain_inj [n, "cmd".toList, n ++ ".go".toList]
      [n, "cmd".toList, ".gitkeep".toList] (by simp) (by simp)
      (PlainElems_append [n] ["cmd".toList, n ++ ".go".toList] hp.1
        (PlainElems_append ["cmd".toList] [n ++ ".go".toList] (by decide) hp.2))
      (PlainElems_append [n] ["cmd".toList, ".gitkeep".toList] hp.1 (by decide)) h
    have hgo : n ++ ".go".toList = ".gitkeep".toList := by
      simpa using hl
    have hend := congrArg List.getLast? hgo
    simp at hend
  · exact catalog_extra_ne U tpl ht n _ hacc
  · exact Join_root_ne n ["README.md".toList] ["cmd".toList, ".gitkeep".toList] hp.1
      (by simp) (by decide) (by decide) (by decide)
  · exact Join_root_ne n [".gitignore".toList] ["cmd".toList, ".gitkeep".toList] hp.1
      (by simp) (by decide) (by decide) (by decide)

/-- In the world without failures a run that got an accepted name and a
template returns nil. -/
theorem Run_ok_succeeds (U : CaseTables)
    (rangeOrder : List (GoString × GoString) → List (GoString × GoString))
    (reader r1 r2 : Reader) (n : GoString) (choice : Int) (tpl : Template)
    (hname : ProjectName reader = ((n, none), r1))
    (htpl : chooseTemplate U r1 = some ((choice, none), r2))
    (hidx : (if choice < 0 then none else All[choice.toNat]?) = some tpl) :
    ∃ o, Run U World.ok rangeOrder reader = some o ∧ o.err = none := by
  have hacc := ProjectName_accepted reader r1 n hname
  have hp := accepted_plain n hacc
  have hroot : Join [".".toList, n] = n := Join_dot n hp.1
  have hne : n ≠ [] := (hp.1 n (List.mem_singleton.mpr rfl)).1
  unfold Run
  simp only [hname, htpl]
  rw [hidx]
  simp only [hroot]
  rw [EnsureDir_ok [] n]
  simp only
  have hprep := prepareFolders_ok_nil U rangeOrder (GithubHandle (Description r2).2).2
    ([] ++ (EnsureDir World.ok [] n).2) n tpl hne
  cases hP : prepareFolders U World.ok rangeOrder (GithubHandle (Description r2).2).2
      ([] ++ (EnsureDir World.ok [] n).2) n tpl with
  | mk e1 rest =>
    obtain ⟨r5, t1⟩ := rest
    rw [hP] at hprep
    simp only at hprep
    subst hprep
    exact ⟨_, rfl, steps_ok_nil n _ t1 _ _ _ _ _ _ _⟩

/-! ## Theorems: the entry file lies in `cmd` -/

/-- C19: for every template of the catalog and every accepted project name
`n`, `cmd` is a mandatory folder and, of all the folders of the template, the
only one that gets no marker; the entry file is `cmd/n.go`, whose directory is
`cmd`, and under the project root it lies in the very directory that is
ensured for `cmd`. Every run of `App.Run` on that name and that template which
returns nil, in whatever world, has made the directory `n/cmd` and written the
entry file `n/cmd/n.go` into it, both calls accepted by the world, and (the
map of optional folders being visited in some order) has written no marker
`n/cmd/.gitkeep`. In the world without failures the run does return nil. -/
theorem entry_file_in_cmd (t : Template) (n : GoString) (ht : t ∈ All)
    (hn : projectNameRegexp n = true) :
    "cmd".toList ∈ t.MandatoryFolders ∧
    shouldCreateGitkeep "cmd".toList = false ∧
    t.MainFileName n = "cmd/".toList ++ n ++ ".go".toList ∧
    Dir (t.MainFileName n) = "cmd".toList ∧
    Dir (Join [Join [".".toList, n], t.MainFileName n]) =
      Join [Join [".".toList, n], "cmd".toList] ∧
    (∀ f ∈ t.MandatoryFolders ++ t.OptionalFolders.map Prod.fst,
      shouldCreateGitkeep f = false ↔ f = "cmd".toList) ∧
    (∀ (U : CaseTables) (W : World)
        (rangeOrder : List (GoString × GoString) → List (GoString × GoString))
        (reader r1 r2 : Reader) (choice : Int) (o : Outcome),
      ProjectName reader = ((n, none), r1) →
      chooseTemplate U r1 = some ((choice, none), r2) →
      (if choice < 0 then none else All[choice.toNat]?) = some t →
      Run U W rangeOrder reader = some o → o.err = none →
      (∃ before after : List Effect,
        o.trace = before ++
          [Effect.MkdirAll (n ++ "/cmd".toList) DirPermission,
            Effect.WriteFile (n ++ ("/cmd/".toList ++ (n ++ ".go".toList)))
              (t.MainFileContent U n
                (Sprintf "github.com/%s/%s".toList [(GithubHandle (Description r2).2).1, n]))
              FilePermission] ++ after ∧
        W before (Effect.MkdirAll (n ++ "/cmd".toList) DirPermission) = none ∧
        W (before ++ [Effect.MkdirAll (n ++ "/cmd".toList) DirPermission])
          (Effect.WriteFile (n ++ ("/cmd/".toList ++ (n ++ ".go".toList)))
            (t.MainFileContent U n
              (Sprintf "github.com/%s/%s".toList [(GithubHandle (Description r2).2).1, n]))
            FilePermission) = none) ∧
      ((rangeOrder t.OptionalFolders).Perm t.OptionalFolders →
        noWriteTo (n ++ "/cmd/.gitkeep".toList) o.trace)) ∧
    (∀ (U : CaseTables)
        (rangeOrder : List (GoString × GoString) → List (GoString × GoString))
        (reader r1 r2 : Reader) (choice : Int),
      ProjectName reader = ((n, none), r1) →
      chooseTemplate U r1 = some ((choice, none), r2) →
      (if choice < 0 then none else All[choice.toNat]?) = some t →
      ∃ o, Run U World.ok rangeOrder reader = some o ∧ o.err = none) := by
  have hp := accepted_plain n hn
  have hname := MainFileName_accepted t ht n hn
  refine ⟨?_, by decide, ?_, ?_, ?_, ?_, ?_, ?_⟩
  · simp only [All, List.mem_cons, List.mem_singleton, List.not_mem_nil, or_false] at ht
    rcases ht with rfl | rfl | rfl <;> decide
  · rw [hname]
    simp [joinSep, PathSeparator]
  · rw [hname]
    exact Dir_plain ["cmd".toList] (n ++ ".go".toList) (by simp) (by decide)
      (hp.2 _ (List.mem_singleton.mpr rfl)).2.1
  · rw [hname, Join_dot n hp.1]
    have h1 : Join [n, joinSep ["cmd".toList, n ++ ".go".toList]] =
        joinSep ([n] ++ ["cmd".toList, n ++ ".go".toList]) :=
      Join_plain [n] ["cmd".toList, n ++ ".go".toList] (by simp) (by simp) hp.1
        (PlainElems_append ["cmd".toList] [n ++ ".go".toList] (by decide) hp.2)
    have h2 : Join [n, "cmd".toList] = joinSep ([n] ++ ["cmd".toList]) :=
      Join_plain [n] ["cmd".toList] (by simp) (by simp) hp.1 (by decide)
    rw [h1, h2]
    exact Dir_plain ([n] ++ ["cmd".toList]) (n ++ ".go".toList) (by simp)
      (PlainElems_append [n] ["cmd".toList] hp.1 (by decide))
      (hp.2 _ (List.mem_singleton.mpr rfl)).2.1
  · intro f hf
    exact (catalog_folders t ht f hf).2.2.2
  · intro U W rangeOrder reader r1 r2 choice o hnm htpl hidx hrun herr
    constructor
    · exact Run_writes_entry U W rangeOrder reader r1 r2 n choice t o ht hnm htpl hidx hrun herr
    · intro hperm
      exact Run_no_cmd_marker U W rangeOrder reader r1 r2 n choice t o ht hnm htpl hidx hrun
        herr hperm
  · intro U rangeOrder reader r1 r2 choice hnm htpl hidx
    exact Run_ok_succeeds U rangeOrder reader r1 r2 n choice t hnm htpl hidx

set_option maxRecDepth 100000 in
/-- Witness of C19: the x07 template and the name `my-app`, and the run in the
world without failures on the lines `my-app`, `2`, `d`, `alice`, `y`, `n`,
`n`: it returns nil, makes `my-app/cmd`, writes `my-app/cmd/my-app.go` and
writes no `my-app/cmd/.gitkeep`. -/
theorem entry_file_in_cmd_witness :
    "cmd".toList ∈ x07ComponentTemplate.MandatoryFolders ∧
    shouldCreateGitkeep "cmd".toList = false ∧
    x07ComponentTemplate.MainFileName "my-app".toList = "cmd/my-app.go".toList ∧
    Dir (x07ComponentTemplate.MainFileName "my-app".toList) = "cmd".toList ∧
    Dir (Join [Join [".".toList, "my-app".toList],
        x07ComponentTemplate.MainFileName "my-app".toList]) =
      Join [Join [".".toList, "my-app".toList], "cmd".toList] ∧
    ProjectName "my-app\n2\nd\nalice\ny\nn\nn\n".toList =
      (("my-app".toList, none), "2\nd\nalice\ny\nn\nn\n".toList) ∧
    chooseTemplate CaseTables.ascii "2\nd\nalice\ny\nn\nn\n".toList =
      some ((1, none), "d\nalice\ny\nn\nn\n".toList) ∧
    All[1]? = some x07ComponentTemplate ∧
    ∃ o, Run CaseTables.ascii World.ok (fun m => m)
        "my-app\n2\nd\nalice\ny\nn\nn\n".toList = some o ∧
      o.err = none ∧
      (∃ before after : List Effect,
        o.trace = before ++
          [Effect.MkdirAll "my-app/cmd".toList 0o775,
            Effect.WriteFile "my-app/cmd/my-app.go".toList
              (x07ComponentTemplate.MainFileContent CaseTables.ascii "my-app".toList
                "github.com/alice/my-app".toList) 0o644] ++ after) ∧
      noWriteTo "my-app/cmd/.gitkeep".toList o.trace := by
  have h := entry_file_in_cmd x07ComponentTemplate "my-app".toList (by simp [All]) (by decide)
  obtain ⟨h1, h2, h3, h4, h5, _, hrun, hok⟩ := h
  have hname : ProjectName "my-app\n2\nd\nalice\ny\nn\nn\n".toList =
      (("my-app".toList, none), "2\nd\nalice\ny\nn\nn\n".toList) := by decide
  have htpl : chooseTemplate CaseTables.ascii "2\nd\nalice\ny\nn\nn\n".toList =
      some ((1, none), "d\nalice\ny\nn\nn\n".toList) := by decide
  have hidx : (if (1 : Int) < 0 then none else All[(1 : Int).toNat]?) =
      some x07ComponentTemplate := rfl
  obtain ⟨o, ho, herr⟩ := hok CaseTables.ascii (fun m => m) _ _ _ 1 hname htpl hidx
  obtain ⟨⟨before, after, htr, _, _⟩, hmark⟩ :=
    hrun CaseTables.ascii World.ok (fun m => m) _ _ _ 1 o hname htpl hidx ho herr
  exact ⟨h1, h2, h3, h4, h5, hname, htpl, rfl, o, ho, herr, ⟨before, after, htr⟩,
    hmark (List.Perm.refl _)⟩

end Xenesis
